import Mathlib

/-!
# BmpViewerActivity: a shallow embedding and its verified properties

The development follows `src/activities/util/BmpViewerActivity.cpp`:

* `loadSiblingImages` (lines 19-69): directory scan, case-insensitive sort, index lookup;
* `onEnter` (lines 71-153): the render pass, with the placement computation of lines 92-109;
* `loop` (lines 161-270): the button dispatcher, with the copy loop of lines 198-214.

Collaborators that are not part of the file (storage, decoder, renderer, input, settings) are
represented by the answers they give during one tick (`Env`) and by the calls they receive
(`Effect`, recorded in order in `World.trace`).
-/

namespace BmpViewer

/-! ## Strings -/

/-- A `std::string`: the sequence of its `char` values. Characters are compared by their code,
as `std::char_traits<char>` does. -/
abbrev Str := List Char

/-- The C function `::tolower` in the "C" locale: the letters `A`-`Z` are moved to `a`-`z`,
every other character is returned as it is. -/
def tolower (c : Char) : Char :=
  if 65 ≤ c.toNat ∧ c.toNat ≤ 90 then Char.ofNat (c.toNat + 32) else c

/-- The loop `std::transform(s.begin(), s.end(), s.begin(), ::tolower)` applied to a copy. -/
def toLowerStr (s : Str) : Str := s.map tolower

/-- The comparison `operator<` of `std::string`: lexicographic on character codes, a proper
initial segment being smaller. -/
def strLt : Str → Str → Bool
  | [], [] => false
  | [], _ :: _ => true
  | _ :: _, [] => false
  | a :: as, b :: bs =>
    if a.toNat < b.toNat then true
    else if b.toNat < a.toNat then false
    else strLt as bs

/-- The comparator lambda of lines 56-61: both names are copied, lowercased, and compared. -/
def caseInsensitiveLess (a b : Str) : Bool :=
  strLt (toLowerStr a) (toLowerStr b)

/-- The call `s.find_last_of(c)`: position of the last occurrence of `c`, `none` for `npos`. -/
def findLastOf : Str → Char → Option Nat
  | [], _ => none
  | x :: xs, c =>
    match findLastOf xs c with
    | some i => some (i + 1)
    | none => if x = c then some 0 else none

/-- The call `s.substr(pos, len)`. -/
def substr (s : Str) (pos len : Nat) : Str := (s.drop pos).take len

/-- The call `s.substr(pos)`. -/
def substrFrom (s : Str) (pos : Nat) : Str := s.drop pos

/-- The directory component computed at lines 25-30 (and again at 241-246 and 258-263):
`"/"` when the path has no slash or the text before the last slash is empty. -/
def dirPathOf (filePath : Str) : Str :=
  match findLastOf filePath '/' with
  | none => ['/']
  | some lastSlash =>
    let dirPath := substr filePath 0 lastSlash
    if dirPath.isEmpty then ['/'] else dirPath

/-- The file name computed at lines 26-32: the text after the last slash, the whole path when
there is no slash. -/
def fileNameOf (filePath : Str) : Str :=
  match findLastOf filePath '/' with
  | none => filePath
  | some lastSlash => substrFrom filePath (lastSlash + 1)

/-! ## Sorting -/

/-- One insertion step: `x` is placed in front of the first element it is less than. -/
def insertSorted (less : Str → Str → Bool) (x : Str) : List Str → List Str
  | [] => [x]
  | y :: ys => if less x y then x :: y :: ys else y :: insertSorted less x ys

/-- The call `std::sort(first, last, less)`. The standard fixes the result up to the order of
elements the comparator does not separate; the model is the insertion sort that libstdc++ runs
on ranges of at most 16 elements, which keeps such elements in the order of the input. On
longer ranges libstdc++ may leave them in another order. The theorems on the catalog use only
that the result is a rearrangement of the input which is ordered for `less`, and the
evaluations sort at most three names. -/
def stdSort (less : Str → Str → Bool) (xs : List Str) : List Str :=
  xs.foldl (fun acc x => insertSorted less x acc) []

/-! ## Collaborators -/

/-- A child handle returned by `openNextFile`: the name `getName` writes into the buffer and
the answer of `isDirectory`. -/
structure DirEntry where
  name : Str
  isDirectory : Bool
deriving DecidableEq, Repr

/-- A non-null handle returned by `Storage.open`: the answer of `isDirectory` and the children
that successive `openNextFile` calls return before the null handle. -/
structure DirHandle where
  isDirectory : Bool
  entries : List DirEntry
deriving DecidableEq, Repr

/-- The outcome of `openFileForRead` followed by `Bitmap::parseHeaders` in the render pass. -/
inductive BmpOpen where
  | openFailed
  | parseError
  | ok (width height : Int)
deriving DecidableEq, Repr

/-- One result of `inFile.read(buffer, sizeof(buffer))`: either the bytes placed in the buffer,
the returned count being their number (no byte at the end of the file), or the negative error
value `-(n + 1)`. -/
inductive ReadResult where
  | bytes (data : List Nat)
  | error (n : Nat)
deriving DecidableEq, Repr

/-- The value returned by the `read` call. -/
def ReadResult.count : ReadResult → Int
  | .bytes data => (data.length : Int)
  | .error n => -((n : Int) + 1)

/-- The bytes in the buffer after the `read` call. -/
def ReadResult.data : ReadResult → List Nat
  | .bytes data => data
  | .error _ => []

/-- Keys of the translated strings passed to `tr`. -/
inductive StrId where
  | STR_LOADING_POPUP
  | STR_CANCEL
  | STR_CONFIRM
  | STR_BACK
  | STR_SET_SLEEP_COVER
  | STR_DELETE
  | STR_DELETE_IMAGE_PROMPT
  | STR_DONE
  | STR_FAILED_LOWER
deriving DecidableEq, Repr

/-- A text argument: a translated string or a literal. -/
inductive Text where
  | tr (id : StrId)
  | lit (s : String)
deriving DecidableEq, Repr

/-- The refresh modes of `HalDisplay` used by the file. -/
inductive RefreshMode where
  | FULL_REFRESH
  | FAST_REFRESH
deriving DecidableEq, Repr

/-- The values of `CrossPointSettings::SLEEP_SCREEN_MODE`: `CUSTOM`, and the other members of
the enumeration, which the file does not name. -/
inductive SleepScreenMode where
  | CUSTOM
  | other (n : Nat)
deriving DecidableEq, Repr

/-- The calls made on the collaborators, in the order of the source. -/
inductive Effect where
  | activityOnEnter
  | activityLoop
  | storageOpen (path : Str)
  | openFileForRead (path : Str)
  | openFileForWrite (path : Str)
  | fileRead (result : ReadResult)
  | fileWrite (data : List Nat) (returned : Nat)
  | storageRemove (path : Str)
  | drawPopup (text : Text)
  | fillPopupProgress (percent : Nat)
  | clearScreen
  | drawBitmap (x y maxWidth maxHeight cropX cropY : Int)
  | drawCenteredText (y : Int) (text : Text)
  | mapLabels (b1 b2 b3 b4 : Text)
  | drawButtonHints
  | displayBuffer (mode : RefreshMode)
  | delay (ms : Nat)
  | settingsSave (mode : SleepScreenMode)
  | onGoBack
deriving DecidableEq, Repr

/-- The answers of the collaborators during one tick. Every field is consulted by at most one
call site per tick, so any behaviour of a stateful storage is covered by the choice of the
fields.

* `checkFileExtension` is `StringUtils::checkFileExtension`, which is not part of the file;
* `storageOpen` answers `Storage.open(dirPath)` of line 34;
* `renderOpen` answers `openFileForRead` and `parseHeaders` of lines 85-89;
* `remove` answers `Storage.remove` of line 180;
* `copySource` answers `openFileForRead` of line 200: `none` when it fails, else the results of
  the successive `read` calls (after the last listed result `read` returns 0);
* `copyDest` answers `openFileForWrite` of line 201: `none` when it fails, else the value that
  the n-th `write` call returns for the bytes it is offered. -/
structure Env where
  checkFileExtension : Str → Str → Bool
  storageOpen : Str → Option DirHandle
  screenWidth : Int
  screenHeight : Int
  renderOpen : Str → BmpOpen
  remove : Str → Bool
  copySource : Str → Option (List ReadResult)
  copyDest : Option (Nat → List Nat → Nat)

/-! ## State -/

/-- The data members of `BmpViewerActivity` (header, lines 21-25). `onGoBack` records whether
the `std::function` holds a callable; calling it is the effect `Effect.onGoBack`.
`currentImageIndex` is an `int`; the catalog of a 32-bit device cannot reach `2^31` names, so
the conversion of line 65 does not wrap. -/
structure Activity where
  filePath : Str
  onGoBack : Bool
  isConfirmingDelete : Bool
  siblingImages : List Str
  currentImageIndex : Int
deriving DecidableEq, Repr

/-- The state after the constructor (line 15-17 and the member initialisers of the header). -/
def Activity.new (path : Str) (onGoBack : Bool) : Activity :=
  { filePath := path, onGoBack := onGoBack, isConfirmingDelete := false,
    siblingImages := [], currentImageIndex := -1 }

/-- The activity, the field `SETTINGS.sleepScreen`, and the calls made so far. -/
structure World where
  act : Activity
  sleepScreen : SleepScreenMode
  trace : List Effect
deriving DecidableEq, Repr

/-- Record a call. -/
def World.emit (w : World) (e : Effect) : World :=
  { w with trace := w.trace ++ [e] }

/-! ## loadSiblingImages -/

/-- The loop of lines 41-52: the names of the children that are not directories, do not start
with a dot and pass the extension check, in the order of the listing. -/
def scanEntries (env : Env) : List DirEntry → List Str
  | [] => []
  | file :: rest =>
    if !file.isDirectory then
      if file.name.head? != some '.' then
        if env.checkFileExtension file.name ['.', 'b', 'm', 'p'] then
          file.name :: scanEntries env rest
        else scanEntries env rest
      else scanEntries env rest
    else scanEntries env rest

/-- The loop of lines 63-68, started at position `i`: the first position whose name equals
`fileName`, or `-1`. -/
def findCurrent (fileName : Str) : List Str → Nat → Int
  | [], _ => -1
  | name :: rest, i => if name = fileName then (i : Int) else findCurrent fileName rest (i + 1)

/-- The method `BmpViewerActivity::loadSiblingImages` (lines 19-69). -/
def loadSiblingImages (env : Env) (w : World) : World :=
  let w := { w with act := { w.act with siblingImages := [], currentImageIndex := -1 } }
  if w.act.filePath.isEmpty then w
  else
    let dirPath := dirPathOf w.act.filePath
    let fileName := fileNameOf w.act.filePath
    let w := w.emit (.storageOpen dirPath)
    match env.storageOpen dirPath with
    | none => w
    | some dir =>
      if !dir.isDirectory then w
      else
        let siblingImages := stdSort caseInsensitiveLess (scanEntries env dir.entries)
        { w with act := { w.act with
            siblingImages := siblingImages,
            currentImageIndex := findCurrent fileName siblingImages 0 } }

/-! ## Single-precision arithmetic

The placement of oversized images (lines 93-103) is computed in `float`. A finite `float` is
represented exactly, as a significand and a binary exponent, and every operation returns the
exact result rounded to 24 significant bits, to nearest with ties to even, as IEEE 754
prescribes for binary32. With operands that come from 32-bit integers no result leaves the
range of normal numbers, so overflow and gradual underflow are not represented. -/

/-- A finite `float`: the number `m * 2 ^ e`. -/
structure F32 where
  m : Int
  e : Int
deriving DecidableEq, Repr

/-- While `2 ^ 24 * q ≤ p`, double `q` and count one more in the exponent. -/
def scaleDen : Nat → Nat → Nat → Int → Nat × Int
  | 0, _, q, e => (q, e)
  | fuel + 1, p, q, e =>
    if 2 ^ 24 * q ≤ p then scaleDen fuel p (2 * q) (e + 1) else (q, e)

/-- While `p < 2 ^ 23 * q`, double `p` and count one less in the exponent. -/
def scaleNum : Nat → Nat → Nat → Int → Nat × Int
  | 0, p, _, e => (p, e)
  | fuel + 1, p, q, e =>
    if p < 2 ^ 23 * q then scaleNum fuel (2 * p) q (e - 1) else (p, e)

/-- The quotient `p / q` of two naturals (`q` positive) rounded to 24 significant bits, to
nearest, ties to even: significand and exponent. -/
def roundNat (p q : Nat) : Nat × Int :=
  if p = 0 then (0, 0)
  else
    let (q1, e1) := scaleDen p p q 0
    let (p1, e2) := scaleNum (q + 24) p q1 e1
    let m := p1 / q1
    let r := p1 % q1
    if q1 < 2 * r ∨ (2 * r = q1 ∧ m % 2 = 1) then (m + 1, e2) else (m, e2)

/-- The rational `num / den` (`den` positive) rounded to a `float`. -/
def F32.ofRatio (num : Int) (den : Nat) : F32 :=
  let (m, e) := roundNat num.natAbs den
  if num < 0 then ⟨-(m : Int), e⟩ else ⟨(m : Int), e⟩

/-- The exact number `m * 2 ^ e` rounded to a `float`. -/
def F32.ofDyadic (m e : Int) : F32 :=
  if 0 ≤ e then F32.ofRatio (m * 2 ^ e.toNat) 1 else F32.ofRatio m (2 ^ (-e).toNat)

/-- The conversion `static_cast<float>(n)`. -/
def F32.ofInt (n : Int) : F32 := F32.ofRatio n 1

/-- The operator `a / b` on `float` (`b` not zero). -/
def F32.div (a b : F32) : F32 :=
  let s : Int := if b.m < 0 then -1 else 1
  if b.e ≤ a.e then F32.ofRatio (s * a.m * 2 ^ (a.e - b.e).toNat) b.m.natAbs
  else F32.ofRatio (s * a.m) (b.m.natAbs * 2 ^ (b.e - a.e).toNat)

/-- The operator `a * b` on `float`. -/
def F32.mul (a b : F32) : F32 := F32.ofDyadic (a.m * b.m) (a.e + b.e)

/-- The operator `a - b` on `float`. -/
def F32.sub (a b : F32) : F32 :=
  let e := min a.e b.e
  F32.ofDyadic (a.m * 2 ^ (a.e - e).toNat - b.m * 2 ^ (b.e - e).toNat) e

/-- The operator `a < b` on `float`. -/
def F32.lt (a b : F32) : Bool :=
  let e := min a.e b.e
  decide (a.m * 2 ^ (a.e - e).toNat < b.m * 2 ^ (b.e - e).toNat)

/-- The fraction `num / den` (`den` positive) rounded to the nearest integer, halves away
from zero. -/
def roundHalfAway (num : Int) (den : Nat) : Int :=
  if num < 0 then -(((2 * num.natAbs + den) / (2 * den) : Nat) : Int)
  else (((2 * num.natAbs + den) / (2 * den) : Nat) : Int)

/-- The assignment `int v = std::round(a)`: `std::round` rounds to the nearest integer, halves
away from zero, and the conversion to `int` of that integral value is exact. -/
def F32.round (a : F32) : Int :=
  if 0 ≤ a.e then a.m * 2 ^ a.e.toNat else roundHalfAway a.m (2 ^ (-a.e).toNat)

/-- The number a `float` stands for. -/
def F32.val (a : F32) : ℚ := (a.m : ℚ) * (2 : ℚ) ^ a.e

/-! ## The render pass -/

/-- The placement `(x, y)` computed at lines 90-109 from the bitmap and screen dimensions,
all of type `int`. -/
def layout (bitmapWidth bitmapHeight pageWidth pageHeight : Int) : Int × Int :=
  if bitmapWidth > pageWidth ∨ bitmapHeight > pageHeight then
    let ratio := F32.div (F32.ofInt bitmapWidth) (F32.ofInt bitmapHeight)
    let screenRatio := F32.div (F32.ofInt pageWidth) (F32.ofInt pageHeight)
    if F32.lt screenRatio ratio then
      (0, F32.round (F32.div
            (F32.sub (F32.ofInt pageHeight) (F32.div (F32.ofInt pageWidth) ratio))
            (F32.ofInt 2)))
    else
      (F32.round (F32.div
            (F32.sub (F32.ofInt pageWidth) (F32.mul (F32.ofInt pageHeight) ratio))
            (F32.ofInt 2)), 0)
  else
    (Int.tdiv (pageWidth - bitmapWidth) 2, Int.tdiv (pageHeight - bitmapHeight) 2)

/-- Lines 78-152 of `onEnter`: the file is opened and decoded, and the image or an error
message is drawn. Only calls are made; no data member is assigned. -/
def drawScreen (env : Env) (w : World) : World :=
  let pageWidth := env.screenWidth
  let pageHeight := env.screenHeight
  let w := w.emit (.drawPopup (.tr .STR_LOADING_POPUP))
  let w := w.emit (.fillPopupProgress 20)
  let w := w.emit (.openFileForRead w.act.filePath)
  match env.renderOpen w.act.filePath with
  | .ok bitmapWidth bitmapHeight =>
    let xy := layout bitmapWidth bitmapHeight pageWidth pageHeight
    let w := if w.act.isConfirmingDelete
      then w.emit (.mapLabels (.tr .STR_CANCEL) (.tr .STR_CONFIRM) (.lit "") (.lit ""))
      else w.emit (.mapLabels (.tr .STR_BACK) (.tr .STR_SET_SLEEP_COVER) (.tr .STR_DELETE)
        (.lit ""))
    let w := w.emit (.fillPopupProgress 50)
    let w := w.emit .clearScreen
    let w := w.emit (.drawBitmap xy.1 xy.2 pageWidth pageHeight 0 0)
    let w := if w.act.isConfirmingDelete
      then w.emit (.drawPopup (.tr .STR_DELETE_IMAGE_PROMPT)) else w
    let w := w.emit .drawButtonHints
    w.emit (.displayBuffer .FULL_REFRESH)
  | .parseError =>
    let w := w.emit .clearScreen
    let w := w.emit (.drawCenteredText (Int.tdiv pageHeight 2) (.lit "Invalid BMP File"))
    let w := w.emit (.mapLabels (.tr .STR_BACK) (.lit "") (.lit "") (.lit ""))
    let w := w.emit .drawButtonHints
    w.emit (.displayBuffer .FAST_REFRESH)
  | .openFailed =>
    let w := w.emit .clearScreen
    let w := w.emit (.drawCenteredText (Int.tdiv pageHeight 2) (.lit "Could not open file"))
    let w := w.emit (.mapLabels (.tr .STR_BACK) (.lit "") (.lit "") (.lit ""))
    let w := w.emit .drawButtonHints
    w.emit (.displayBuffer .FULL_REFRESH)

/-- The method `BmpViewerActivity::onEnter` (lines 71-153): the call of the base class, the
rescan of lines 74-76, then `drawScreen`. -/
def onEnter (env : Env) (w : World) : World :=
  let w := w.emit .activityOnEnter
  let w := if w.act.siblingImages.isEmpty && !w.act.filePath.isEmpty
    then loadSiblingImages env w else w
  drawScreen env w

/-! ## The copy to the sleep cover -/

/-- The `while` loop of lines 205-210: `reads` are the results of the `read` calls still to
come (then `read` returns 0), `n` counts the `write` calls made. Returns `success`. -/
def copyLoop (write : Nat → List Nat → Nat) : List ReadResult → Nat → World → Bool × World
  | [], _, w => (true, w.emit (.fileRead (.bytes [])))
  | r :: rest, n, w =>
    let w := w.emit (.fileRead r)
    let bytesRead := r.count
    if bytesRead > 0 then
      let offered := r.data.take bytesRead.toNat
      let written := write n offered
      let w := w.emit (.fileWrite offered written)
      if (written : Int) != bytesRead then (false, w)
      else copyLoop write rest (n + 1) w
    else (true, w)

/-- Lines 198-214: the value of `success` after the two `open` calls and the loop. -/
def copyToSleepBmp (env : Env) (w : World) : Bool × World :=
  let w := w.emit (.openFileForRead w.act.filePath)
  match env.copySource w.act.filePath with
  | none => (false, w)
  | some reads =>
    let w := w.emit (.openFileForWrite "/sleep.bmp".toList)
    match env.copyDest with
    | none => (false, w)
    | some write => copyLoop write reads 0 w

/-! ## The button dispatcher -/

/-- The answers of `mappedInput.wasReleased` for the five buttons during one tick. -/
structure Input where
  back : Bool
  confirm : Bool
  left : Bool
  up : Bool
  down : Bool
deriving DecidableEq, Repr

/-- The element `siblingImages[i]` for an `int` index. Outside the vector the source has
undefined behaviour; the model returns the empty string there. -/
def vectorAt (xs : List Str) (i : Int) : Str :=
  if 0 ≤ i then xs.getD i.toNat [] else []

/-- Lines 241-248 (and 258-265): the path of the sibling at the current index. -/
def siblingPath (act : Activity) : Str :=
  let dirPath := dirPathOf act.filePath
  let dirPath := if dirPath.getLast? != some '/' then dirPath ++ ['/'] else dirPath
  dirPath ++ vectorAt act.siblingImages act.currentImageIndex

/-- The method `BmpViewerActivity::loop` (lines 161-270): one tick. -/
def loop (env : Env) (inp : Input) (w : World) : World :=
  let w := w.emit .activityLoop
  if inp.back then
    if w.act.isConfirmingDelete then
      let w := { w with act := { w.act with isConfirmingDelete := false } }
      onEnter env w
    else
      if w.act.onGoBack then w.emit .onGoBack else w
  else if inp.confirm then
    if w.act.isConfirmingDelete then
      let w := w.emit (.drawPopup (.tr .STR_LOADING_POPUP))
      let w := w.emit (.displayBuffer .FAST_REFRESH)
      let w := w.emit (.storageRemove w.act.filePath)
      if env.remove w.act.filePath then
        let w := w.emit (.drawPopup (.tr .STR_DONE))
        let w := w.emit (.displayBuffer .FAST_REFRESH)
        let w := w.emit (.delay 1000)
        if w.act.onGoBack then w.emit .onGoBack else w
      else
        let w := w.emit (.drawPopup (.tr .STR_FAILED_LOWER))
        let w := w.emit (.displayBuffer .FAST_REFRESH)
        let w := w.emit (.delay 1000)
        let w := { w with act := { w.act with isConfirmingDelete := false } }
        onEnter env w
    else
      let w := w.emit (.drawPopup (.tr .STR_LOADING_POPUP))
      let w := w.emit (.displayBuffer .FAST_REFRESH)
      let r := copyToSleepBmp env w
      let w := r.2
      let w := if r.1 then
          let w := { w with sleepScreen := .CUSTOM }
          let w := w.emit (.settingsSave w.sleepScreen)
          w.emit (.drawPopup (.tr .STR_DONE))
        else w.emit (.drawPopup (.tr .STR_FAILED_LOWER))
      let w := w.emit (.displayBuffer .FAST_REFRESH)
      let w := w.emit (.delay 1000)
      onEnter env w
  else if inp.left then
    if !w.act.isConfirmingDelete then
      let w := { w with act := { w.act with isConfirmingDelete := true } }
      onEnter env w
    else w
  else if inp.up then
    if !w.act.isConfirmingDelete && decide (w.act.siblingImages.length > 1)
        && decide (w.act.currentImageIndex > 0) then
      let w := { w with act := { w.act with currentImageIndex := w.act.currentImageIndex - 1 } }
      let w := { w with act := { w.act with filePath := siblingPath w.act } }
      onEnter env w
    else w
  else if inp.down then
    if !w.act.isConfirmingDelete && decide (w.act.siblingImages.length > 1)
        && decide (w.act.currentImageIndex ≠ -1)
        && decide (w.act.currentImageIndex < (w.act.siblingImages.length : Int) - 1) then
      let w := { w with act := { w.act with currentImageIndex := w.act.currentImageIndex + 1 } }
      let w := { w with act := { w.act with filePath := siblingPath w.act } }
      onEnter env w
    else w
  else w

/-! ## Sample collaborators, used to evaluate the definitions -/

/-- Modelled from the spec: `StringUtils::checkFileExtension`, which is declared in
`util/StringUtils.h` and not part of the file; section 6 asks for a case-sensitive match of
the extension, so the name must end with the characters of `ext`. -/
def checkFileExtensionSpec (name ext : Str) : Bool :=
  decide (ext.length ≤ name.length) && (name.drop (name.length - ext.length) == ext)

/-- The test of lines 42-46 on one child. -/
def keepEntry (env : Env) (file : DirEntry) : Bool :=
  !file.isDirectory && (file.name.head? != some '.')
    && env.checkFileExtension file.name ['.', 'b', 'm', 'p']

/-- A directory with two images whose names differ in case only, a hidden image, a
subdirectory and a text file. -/
def sampleDir : DirHandle :=
  { isDirectory := true
    entries := [⟨"b.bmp".toList, false⟩, ⟨".x.bmp".toList, false⟩, ⟨"A.bmp".toList, false⟩,
      ⟨"d.bmp".toList, true⟩, ⟨"c.txt".toList, false⟩, ⟨"a.bmp".toList, false⟩] }

/-- A storage whose only directory is `/pics`, on a 480 x 800 screen; every file opens as a
576 x 474 bitmap, `remove` fails, the copy source delivers two chunks and the second `write`
is short. -/
def sampleEnv : Env :=
  { checkFileExtension := checkFileExtensionSpec
    storageOpen := fun p => if p = "/pics".toList then some sampleDir else none
    screenWidth := 480
    screenHeight := 800
    renderOpen := fun _ => .ok 576 474
    remove := fun _ => false
    copySource := fun _ => some [.bytes [1, 2, 3], .bytes [4, 5]]
    copyDest := some (fun n d => if n = 1 then 1 else d.length) }

/-- The state after the constructor for the path `/pics/a.bmp`, nothing called yet. -/
def sampleWorld : World :=
  { act := Activity.new "/pics/a.bmp".toList true, sleepScreen := .other 0, trace := [] }

/-- The state a stale screen is in: the path `/pics/a.bmp` is being confirmed for deletion
while the catalog is still empty. -/
def staleWorld : World :=
  { act := { Activity.new "/pics/a.bmp".toList true with isConfirmingDelete := true }
    sleepScreen := .other 0, trace := [] }

/-- Only Back was released. -/
def Input.backOnly : Input :=
  { back := true, confirm := false, left := false, up := false, down := false }

/-- Only Confirm was released. -/
def Input.confirmOnly : Input :=
  { back := false, confirm := true, left := false, up := false, down := false }

/-- Only Left was released. -/
def Input.leftOnly : Input :=
  { back := false, confirm := false, left := true, up := false, down := false }

/-- Only Up was released. -/
def Input.upOnly : Input :=
  { back := false, confirm := false, left := false, up := true, down := false }

/-- Only Down was released. -/
def Input.downOnly : Input :=
  { back := false, confirm := false, left := false, up := false, down := true }

/-- The calls that the render pass makes after the call of the base class: opening the
directory and the file for reading, and drawing. -/
def Effect.isRenderCall : Effect → Bool
  | .storageOpen _ => true
  | .openFileForRead _ => true
  | .drawPopup _ => true
  | .fillPopupProgress _ => true
  | .clearScreen => true
  | .drawBitmap _ _ _ _ _ _ => true
  | .drawCenteredText _ _ => true
  | .mapLabels _ _ _ _ => true
  | .drawButtonHints => true
  | .displayBuffer _ => true
  | _ => false

/-- The calls that change the storage or the settings: remove, open for writing, write, and
saving the settings. -/
def Effect.isMutation : Effect → Bool
  | .storageRemove _ => true
  | .openFileForWrite _ => true
  | .fileWrite _ _ => true
  | .settingsSave _ => true
  | _ => false

/-- The calls of lines 82-152 of the render pass, in order, for a given activity state. -/
def screenCalls (env : Env) (act : Activity) : List Effect :=
  [.drawPopup (.tr .STR_LOADING_POPUP), .fillPopupProgress 20, .openFileForRead act.filePath] ++
  match env.renderOpen act.filePath with
  | .ok bitmapWidth bitmapHeight =>
    [if act.isConfirmingDelete
      then .mapLabels (.tr .STR_CANCEL) (.tr .STR_CONFIRM) (.lit "") (.lit "")
      else .mapLabels (.tr .STR_BACK) (.tr .STR_SET_SLEEP_COVER) (.tr .STR_DELETE) (.lit ""),
     .fillPopupProgress 50,
     .clearScreen,
     .drawBitmap (layout bitmapWidth bitmapHeight env.screenWidth env.screenHeight).1
       (layout bitmapWidth bitmapHeight env.screenWidth env.screenHeight).2
       env.screenWidth env.screenHeight 0 0] ++
    (if act.isConfirmingDelete then [.drawPopup (.tr .STR_DELETE_IMAGE_PROMPT)] else []) ++
    [.drawButtonHints, .displayBuffer .FULL_REFRESH]
  | .parseError =>
    [.clearScreen,
     .drawCenteredText (Int.tdiv env.screenHeight 2) (.lit "Invalid BMP File"),
     .mapLabels (.tr .STR_BACK) (.lit "") (.lit "") (.lit ""),
     .drawButtonHints, .displayBuffer .FAST_REFRESH]
  | .openFailed =>
    [.clearScreen,
     .drawCenteredText (Int.tdiv env.screenHeight 2) (.lit "Could not open file"),
     .mapLabels (.tr .STR_BACK) (.lit "") (.lit "") (.lit ""),
     .drawButtonHints, .displayBuffer .FULL_REFRESH]

/-- The bytes that the `read` calls of a trace delivered, in order. -/
def readBytes : List Effect → List Nat
  | [] => []
  | .fileRead r :: t => r.data ++ readBytes t
  | _ :: t => readBytes t

/-- The bytes that the destination accepted from the `write` calls of a trace, in order: of
the bytes offered to a call, as many as the call reported. -/
def acceptedBytes : List Effect → List Nat
  | [] => []
  | .fileWrite data returned :: t => data.take returned ++ acceptedBytes t
  | _ :: t => acceptedBytes t

/-- A rational rounded to the nearest integer, halves away from zero. -/
def roundHalfAwayQ (q : ℚ) : Int :=
  if 0 ≤ q then ⌊q + 1 / 2⌋ else -⌊-q + 1 / 2⌋

/-- The placement of an oversized image as section 4.2 of the specification words it, with
exact ratios. -/
def layoutReal (iw ih sw sh : Int) : Int × Int :=
  let ratio : ℚ := (iw : ℚ) / (ih : ℚ)
  let screenRatio : ℚ := (sw : ℚ) / (sh : ℚ)
  if ratio > screenRatio then
    (0, roundHalfAwayQ (((sh : ℚ) - (sw : ℚ) / ratio) / 2))
  else
    (roundHalfAwayQ (((sw : ℚ) - (sh : ℚ) * ratio) / 2), 0)

/-- What C7 asks of the calls `t` made by the copy and of its result `ok`: at every moment the
accepted bytes are an initial segment of the bytes read; every `write` is offered the bytes of
the `read` just before it; a `write` that reports another count than it was offered is the
last call, and the copy fails. -/
def CopySafe (t : List Effect) (ok : Bool) : Prop :=
  (∀ t1 t2, t = t1 ++ t2 → acceptedBytes t1 <+: readBytes t1) ∧
  (∀ t1 data returned t2, t = t1 ++ Effect.fileWrite data returned :: t2 →
    ∃ t0, t1 = t0 ++ [Effect.fileRead (.bytes data)]) ∧
  (∀ t1 data returned t2, t = t1 ++ Effect.fileWrite data returned :: t2 →
    returned ≠ data.length → t2 = [] ∧ ok = false)

/-- The sample storage, with a `remove` that succeeds. -/
def removingEnv : Env := { sampleEnv with remove := fun _ => true }

/-- The sample storage at a moment when no directory can be opened. -/
def closedEnv : Env := { sampleEnv with storageOpen := fun _ => none }

/-- No button was released. -/
def Input.none : Input :=
  { back := false, confirm := false, left := false, up := false, down := false }

/-- The button a tick acts on: of the released buttons, the first in the order Back, Confirm,
Left, Up, Down. -/
def Input.highest (inp : Input) : Input :=
  if inp.back then Input.backOnly
  else if inp.confirm then Input.confirmOnly
  else if inp.left then Input.leftOnly
  else if inp.up then Input.upOnly
  else if inp.down then Input.downOnly
  else Input.none

/-- The calls that the copy of lines 198-214 makes: the two `open` calls, `read` and
`write`. -/
def Effect.isCopyCall : Effect → Bool
  | .openFileForRead _ => true
  | .openFileForWrite _ => true
  | .fileRead _ => true
  | .fileWrite _ _ => true
  | _ => false

/-- The calls of the `while` loop of lines 205-210 when every chunk is written in full: a
`read` and a `write` for each chunk. -/
def chunkCalls : List (List Nat) → List Effect
  | [] => []
  | c :: rest => Effect.fileRead (.bytes c) :: Effect.fileWrite c c.length :: chunkCalls rest

/-- The sample storage with an empty source file and a destination that accepts every
byte. -/
def emptySourceEnv : Env :=
  { sampleEnv with copySource := fun _ => some [], copyDest := some (fun _ d => d.length) }

/-- The sample storage with a source whose third `read` returns the error value `-1` after two
chunks, and a destination that accepts every byte. -/
def failingReadEnv : Env :=
  { sampleEnv with
    copySource := fun _ => some [.bytes [1, 2, 3], .bytes [4, 5], .error 0, .bytes [6]]
    copyDest := some (fun _ d => d.length) }

/-- The sample storage at a moment when the current file cannot be opened for reading. -/
def unopenableEnv : Env := { sampleEnv with renderOpen := fun _ => .openFailed }

/-- The sample storage with a file whose headers the decoder rejects. -/
def corruptEnv : Env := { sampleEnv with renderOpen := fun _ => .parseError }

/-- A directory with two images whose names differ in case only, the capital first. -/
def upperFirstDir : DirHandle :=
  { isDirectory := true, entries := [⟨"A.bmp".toList, false⟩, ⟨"a.bmp".toList, false⟩] }

/-- The same directory, listed in the other order. -/
def lowerFirstDir : DirHandle :=
  { isDirectory := true, entries := [⟨"a.bmp".toList, false⟩, ⟨"A.bmp".toList, false⟩] }

/-- The sample storage with `/pics` listed as `upperFirstDir`. -/
def upperFirstEnv : Env :=
  { sampleEnv with storageOpen := fun p => if p = "/pics".toList then some upperFirstDir else none }

/-- The sample storage with `/pics` listed as `lowerFirstDir`. -/
def lowerFirstEnv : Env :=
  { sampleEnv with storageOpen := fun p => if p = "/pics".toList then some lowerFirstDir else none }

/-- A directory with two images, `b.bmp` listed first. -/
def plainDir : DirHandle :=
  { isDirectory := true, entries := [⟨"b.bmp".toList, false⟩, ⟨"a.bmp".toList, false⟩] }

/-- The directory `plainDir` listed in the other order. -/
def plainDirSwapped : DirHandle :=
  { isDirectory := true, entries := [⟨"a.bmp".toList, false⟩, ⟨"b.bmp".toList, false⟩] }

/-- The sample storage with `/pics` listed as `plainDir`. -/
def plainEnv : Env :=
  { sampleEnv with storageOpen := fun p => if p = "/pics".toList then some plainDir else none }

/-- The sample storage with `/pics` listed as `plainDirSwapped`. -/
def plainEnvSwapped : Env :=
  { sampleEnv with
    storageOpen := fun p => if p = "/pics".toList then some plainDirSwapped else none }

/-- One call on the screen instance from outside: a render pass (`onEnter`) or a tick
(`loop`), each with the answers the collaborators give during it. -/
inductive Step where
  | render (env : Env)
  | tick (env : Env) (inp : Input)

/-- The collaborators of a step. -/
def Step.env : Step → Env
  | .render env => env
  | .tick env _ => env

/-- The effect of one step on the state. -/
def Step.apply : Step → World → World
  | .render env, w => onEnter env w
  | .tick env inp, w => loop env inp w

/-- The state after a sequence of steps. -/
def run : List Step → World → World
  | [], w => w
  | s :: rest, w => run rest (s.apply w)

/-- The number of times the directory was opened for a scan (line 34) in a list of calls. -/
def scanCount : List Effect → Nat
  | [] => 0
  | .storageOpen _ :: t => scanCount t + 1
  | _ :: t => scanCount t

/-- A directory that holds one image, which is hidden, and a text file. -/
def hiddenDir : DirHandle :=
  { isDirectory := true, entries := [⟨".x.bmp".toList, false⟩, ⟨"c.txt".toList, false⟩] }

/-- The sample storage with `/pics` listed as `hiddenDir`. -/
def hiddenEnv : Env :=
  { sampleEnv with storageOpen := fun p => if p = "/pics".toList then some hiddenDir else none }

/-- The state after the constructor for the hidden image `/pics/.x.bmp`. -/
def hiddenWorld : World :=
  { act := Activity.new "/pics/.x.bmp".toList true, sleepScreen := .other 0, trace := [] }

/-- No name in any directory listing of the storage contains a slash. -/
def SlashFree (env : Env) : Prop :=
  ∀ p dir, env.storageOpen p = some dir → ∀ f ∈ dir.entries, '/' ∉ f.name

/-- A directory path in normal form: the root `/`, or a non-empty path that does not end in a
slash. -/
def NormalDir (d : Str) : Prop :=
  d = ['/'] ∨ (d ≠ [] ∧ d.getLast? ≠ some '/')

/-- The consistency of index and path for the directory `d`: the directory component of the
path is `d`, no catalog name contains a slash, and the index is the sentinel or a position
of the catalog that holds the file name of the path. -/
def IndexConsistent (d : Str) (a : Activity) : Prop :=
  dirPathOf a.filePath = d ∧ (∀ n ∈ a.siblingImages, '/' ∉ n) ∧
  (a.currentImageIndex = -1 ∨
    (0 ≤ a.currentImageIndex ∧ a.currentImageIndex < (a.siblingImages.length : Int) ∧
      a.siblingImages[a.currentImageIndex.toNat]? = some (fileNameOf a.filePath)))

/-! # Theorems -/

/-! ## Order properties of the string comparison -/

theorem char_eq_of_toNat_eq {a b : Char} (h : a.toNat = b.toNat) : a = b := by
  apply Char.ext
  apply UInt32.ext
  exact h

theorem strLt_irrefl (a : Str) : strLt a a = false := by
  induction a with
  | nil => rfl
  | cons x xs ih => simp [strLt, ih]

theorem strLt_asymm : ∀ (a b : Str), strLt a b = true → strLt b a = false
  | [], [], h => by simp [strLt] at h
  | [], _ :: _, _ => by simp [strLt]
  | _ :: _, [], h => by simp [strLt] at h
  | x :: xs, y :: ys, h => by
    simp only [strLt] at h ⊢
    by_cases h1 : x.toNat < y.toNat
    · have h2 : ¬ y.toNat < x.toNat := by omega
      simp [h2, h1]
    · by_cases h2 : y.toNat < x.toNat
      · simp [h1, h2] at h
      · simp only [h1, h2, if_false] at h ⊢
        exact strLt_asymm xs ys h

theorem strLt_trans : ∀ (a b c : Str), strLt a b = true → strLt b c = true → strLt a c = true
  | [], [], _, h, _ => by simp [strLt] at h
  | [], _ :: _, [], _, h => by simp [strLt] at h
  | [], _ :: _, _ :: _, _, _ => by simp [strLt]
  | _ :: _, [], _, h, _ => by simp [strLt] at h
  | _ :: _, _ :: _, [], _, h => by simp [strLt] at h
  | x :: xs, y :: ys, z :: zs, hab, hbc => by
    simp only [strLt] at hab hbc ⊢
    by_cases h1 : x.toNat < y.toNat
    · by_cases h2 : y.toNat < z.toNat
      · have : x.toNat < z.toNat := by omega
        simp [this]
      · by_cases h3 : z.toNat < y.toNat
        · simp [h2, h3] at hbc
        · have : x.toNat < z.toNat := by omega
          simp [this]
    · by_cases h2 : y.toNat < x.toNat
      · simp [h1, h2] at hab
      · simp only [h1, h2, if_false] at hab
        by_cases h3 : y.toNat < z.toNat
        · have : x.toNat < z.toNat := by omega
          simp [this]
        · by_cases h4 : z.toNat < y.toNat
          · simp [h3, h4] at hbc
          · simp only [h3, h4, if_false] at hbc
            have h5 : ¬ x.toNat < z.toNat := by omega
            have h6 : ¬ z.toNat < x.toNat := by omega
            simp only [h5, h6, if_false]
            exact strLt_trans xs ys zs hab hbc

theorem strLt_connex : ∀ (a b : Str), strLt a b = false → strLt b a = false → a = b
  | [], [], _, _ => rfl
  | [], _ :: _, h, _ => by simp [strLt] at h
  | _ :: _, [], _, h => by simp [strLt] at h
  | x :: xs, y :: ys, hab, hba => by
    simp only [strLt] at hab hba
    by_cases h1 : x.toNat < y.toNat
    · simp [h1] at hab
    · by_cases h2 : y.toNat < x.toNat
      · simp [h2] at hba
      · simp only [h1, h2, if_false] at hab hba
        have hx : x = y := char_eq_of_toNat_eq (by omega)
        rw [hx, strLt_connex xs ys hab hba]

/-- The negation of `strLt b a` is "`a` is less than or equal to `b`". -/
theorem strLt_false_iff (a b : Str) : strLt b a = false ↔ (strLt a b = true ∨ a = b) := by
  constructor
  · intro h
    by_cases h2 : strLt a b = true
    · exact Or.inl h2
    · exact Or.inr (strLt_connex a b (by simpa using h2) h)
  · rintro (h | h)
    · exact strLt_asymm a b h
    · rw [h]; exact strLt_irrefl b

theorem strLt_false_trans (a b c : Str) (hab : strLt b a = false) (hbc : strLt c b = false) :
    strLt c a = false := by
  rcases (strLt_false_iff a b).1 hab with h1 | h1
  · rcases (strLt_false_iff b c).1 hbc with h2 | h2
    · exact strLt_asymm a c (strLt_trans a b c h1 h2)
    · rw [← h2]; exact hab
  · rw [h1]; exact hbc

/-! ## The sort returns an ordered rearrangement -/

theorem insertSorted_perm (less : Str → Str → Bool) (x : Str) (l : List Str) :
    (insertSorted less x l).Perm (x :: l) := by
  induction l with
  | nil => exact List.Perm.refl _
  | cons y ys ih =>
    simp only [insertSorted]
    split
    · exact List.Perm.refl _
    · exact (List.Perm.cons y ih).trans (List.Perm.swap x y ys)

theorem foldl_insertSorted_perm (less : Str → Str → Bool) (l acc : List Str) :
    (l.foldl (fun acc x => insertSorted less x acc) acc).Perm (acc ++ l) := by
  induction l generalizing acc with
  | nil => simp
  | cons x xs ih =>
    simp only [List.foldl_cons]
    refine (ih (insertSorted less x acc)).trans ?_
    refine ((insertSorted_perm less x acc).append_right xs).trans ?_
    exact (List.perm_middle).symm

theorem stdSort_perm (less : Str → Str → Bool) (l : List Str) : (stdSort less l).Perm l := by
  simpa [stdSort] using foldl_insertSorted_perm less l []

theorem insertSorted_pairwise (less : Str → Str → Bool)
    (hasymm : ∀ a b, less a b = true → less b a = false)
    (htrans : ∀ a b c, less b a = false → less c b = false → less c a = false)
    (x : Str) (l : List Str) (hl : l.Pairwise (fun a b => less b a = false)) :
    (insertSorted less x l).Pairwise (fun a b => less b a = false) := by
  induction l with
  | nil => simp [insertSorted]
  | cons y ys ih =>
    rw [List.pairwise_cons] at hl
    simp only [insertSorted]
    split
    · rename_i hxy
      rw [List.pairwise_cons]
      refine ⟨?_, List.pairwise_cons.2 hl⟩
      intro z hz
      rcases List.mem_cons.1 hz with rfl | hz
      · exact hasymm _ _ hxy
      · exact htrans _ _ _ (hasymm _ _ hxy) (hl.1 z hz)
    · rename_i hxy
      rw [List.pairwise_cons]
      refine ⟨?_, ih hl.2⟩
      intro z hz
      rcases List.mem_cons.1 (((insertSorted_perm less x ys).mem_iff).1 hz) with rfl | hz
      · simpa using hxy
      · exact hl.1 z hz

theorem stdSort_pairwise (less : Str → Str → Bool)
    (hasymm : ∀ a b, less a b = true → less b a = false)
    (htrans : ∀ a b c, less b a = false → less c b = false → less c a = false)
    (l : List Str) : (stdSort less l).Pairwise (fun a b => less b a = false) := by
  have key : ∀ (l acc : List Str), acc.Pairwise (fun a b => less b a = false) →
      (l.foldl (fun acc x => insertSorted less x acc) acc).Pairwise
        (fun a b => less b a = false) := by
    intro l
    induction l with
    | nil => intro acc h; simpa using h
    | cons x xs ih =>
      intro acc h
      simp only [List.foldl_cons]
      exact ih _ (insertSorted_pairwise less hasymm htrans x acc h)
  exact key l [] List.Pairwise.nil

theorem caseInsensitiveLess_asymm (a b : Str) (h : caseInsensitiveLess a b = true) :
    caseInsensitiveLess b a = false :=
  strLt_asymm _ _ h

theorem caseInsensitiveLess_false_trans (a b c : Str) (hab : caseInsensitiveLess b a = false)
    (hbc : caseInsensitiveLess c b = false) : caseInsensitiveLess c a = false :=
  strLt_false_trans _ _ _ hab hbc

/-! ## The scan and the index lookup -/

theorem scanEntries_eq_filter (env : Env) (l : List DirEntry) :
    scanEntries env l = (l.filter (keepEntry env)).map DirEntry.name := by
  induction l with
  | nil => rfl
  | cons f rest ih =>
    rcases f with ⟨name, isDir⟩
    simp only [scanEntries, List.filter_cons, keepEntry, ih]
    cases isDir
    · by_cases hdot : (name.head? != some '.') = true <;>
        by_cases hext : env.checkFileExtension name ['.', 'b', 'm', 'p'] = true <;>
        simp [hdot, hext]
    · simp

theorem findCurrent_not_mem (fileName : Str) (l : List Str) (i : Nat) (h : fileName ∉ l) :
    findCurrent fileName l i = -1 := by
  induction l generalizing i with
  | nil => rfl
  | cons x xs ih =>
    simp only [List.mem_cons, not_or] at h
    simp only [findCurrent]
    rw [if_neg (fun hx => h.1 hx.symm)]
    exact ih (i + 1) h.2

theorem findCurrent_mem (fileName : Str) (l : List Str) (i : Nat) (h : fileName ∈ l) :
    ∃ k : Nat, findCurrent fileName l i = ((i + k : Nat) : Int) ∧ l[k]? = some fileName ∧
      ∀ j, j < k → l[j]? ≠ some fileName := by
  induction l generalizing i with
  | nil => simp at h
  | cons x xs ih =>
    simp only [findCurrent]
    by_cases hx : x = fileName
    · refine ⟨0, by simp [hx], by simp [hx], ?_⟩
      intro j hj; omega
    · have hmem : fileName ∈ xs := by
        rcases List.mem_cons.1 h with h1 | h1
        · exact absurd h1.symm hx
        · exact h1
      obtain ⟨k, hk, hget, hfirst⟩ := ih (i + 1) hmem
      refine ⟨k + 1, ?_, by simpa using hget, ?_⟩
      · rw [if_neg hx, hk]; congr 1; omega
      · intro j hj
        cases j with
        | zero => simpa using hx
        | succ j => simpa using hfirst j (by omega)

/-! ## The file name of a path -/

theorem findLastOf_none (s : Str) (c : Char) (h : findLastOf s c = none) : c ∉ s := by
  induction s with
  | nil => simp
  | cons x xs ih =>
    simp only [findLastOf] at h
    cases hxs : findLastOf xs c with
    | some i => rw [hxs] at h; cases h
    | none =>
      rw [hxs] at h
      by_cases hx : x = c
      · simp [hx] at h
      · simp only [List.mem_cons, not_or]
        exact ⟨fun hc => hx hc.symm, ih hxs⟩

theorem findLastOf_some (s : Str) (c : Char) (i : Nat) (h : findLastOf s c = some i) :
    s = s.take i ++ c :: s.drop (i + 1) ∧ c ∉ s.drop (i + 1) := by
  induction s generalizing i with
  | nil => simp [findLastOf] at h
  | cons x xs ih =>
    simp only [findLastOf] at h
    cases hxs : findLastOf xs c with
    | some j =>
      rw [hxs] at h
      cases h
      obtain ⟨h1, h2⟩ := ih j hxs
      refine ⟨?_, by simpa using h2⟩
      simp only [List.take_succ_cons, List.drop_succ_cons, List.cons_append]
      rw [← h1]
    | none =>
      rw [hxs] at h
      by_cases hx : x = c
      · simp only [hx, if_true, Option.some.injEq] at h
        subst h
        subst hx
        exact ⟨by simp, by simpa using findLastOf_none xs x hxs⟩
      · simp [hx] at h

/-- The name computed at lines 26-32 is the text after the last slash of the path, and the
whole path when it has no slash. -/
theorem fileNameOf_spec (p : Str) :
    '/' ∉ fileNameOf p ∧ (fileNameOf p = p ∨ ∃ pre, p = pre ++ '/' :: fileNameOf p) := by
  unfold fileNameOf
  cases h : findLastOf p '/' with
  | none => exact ⟨findLastOf_none p '/' h, Or.inl rfl⟩
  | some i =>
    obtain ⟨h1, h2⟩ := findLastOf_some p '/' i h
    exact ⟨h2, Or.inr ⟨p.take i, h1⟩⟩

/-! ## The catalog (C1, C2, C3) -/

theorem loadSiblingImages_of_open (env : Env) (w : World) (dir : DirHandle)
    (hpath : w.act.filePath ≠ [])
    (hopen : env.storageOpen (dirPathOf w.act.filePath) = some dir)
    (hdir : dir.isDirectory = true) :
    (loadSiblingImages env w).act.siblingImages
        = stdSort caseInsensitiveLess (scanEntries env dir.entries) ∧
      (loadSiblingImages env w).act.currentImageIndex
        = findCurrent (fileNameOf w.act.filePath)
            (stdSort caseInsensitiveLess (scanEntries env dir.entries)) 0 := by
  have hne : w.act.filePath.isEmpty = false := by
    cases hp : w.act.filePath with
    | nil => exact absurd hp hpath
    | cons _ _ => rfl
  simp [loadSiblingImages, hne, World.emit, hopen, hdir]

theorem loadSiblingImages_cases (env : Env) (w : World) :
    ((loadSiblingImages env w).act.siblingImages = [] ∧
      (loadSiblingImages env w).act.currentImageIndex = -1) ∨
    (∃ dir, w.act.filePath ≠ [] ∧ env.storageOpen (dirPathOf w.act.filePath) = some dir ∧
      dir.isDirectory = true) := by
  by_cases hpath : w.act.filePath = []
  · left; simp [loadSiblingImages, hpath]
  · have hne : w.act.filePath.isEmpty = false := by
      cases hp : w.act.filePath with
      | nil => exact absurd hp hpath
      | cons _ _ => rfl
    cases hopen : env.storageOpen (dirPathOf w.act.filePath) with
    | none => left; simp [loadSiblingImages, hne, World.emit, hopen]
    | some dir =>
      cases hdir : dir.isDirectory with
      | false => left; simp [loadSiblingImages, hne, World.emit, hopen, hdir]
      | true => right; exact ⟨dir, hpath, rfl, hdir⟩

/-- C1. When the path is not empty and its directory opens as a directory, the catalog after
`loadSiblingImages` is a rearrangement of the names of exactly those listed children that are
not directories, do not start with a dot and pass the `.bmp` extension check: each such name
occurs as often as it is listed, and nothing else occurs. -/
theorem loadSiblingImages_catalog_perm (env : Env) (w : World) (dir : DirHandle)
    (hpath : w.act.filePath ≠ [])
    (hopen : env.storageOpen (dirPathOf w.act.filePath) = some dir)
    (hdir : dir.isDirectory = true) :
    List.Perm (loadSiblingImages env w).act.siblingImages
      ((dir.entries.filter (fun file =>
          !file.isDirectory && (file.name.head? != some '.')
            && env.checkFileExtension file.name ".bmp".toList)).map DirEntry.name) := by
  rw [(loadSiblingImages_of_open env w dir hpath hopen hdir).1, scanEntries_eq_filter]
  exact stdSort_perm _ _

theorem loadSiblingImages_catalog_perm_witness :
    sampleWorld.act.filePath ≠ [] ∧
    sampleEnv.storageOpen (dirPathOf sampleWorld.act.filePath) = some sampleDir ∧
    sampleDir.isDirectory = true ∧
    (loadSiblingImages sampleEnv sampleWorld).act.siblingImages
      = ["A.bmp".toList, "a.bmp".toList, "b.bmp".toList] ∧
    List.Perm (loadSiblingImages sampleEnv sampleWorld).act.siblingImages
      ((sampleDir.entries.filter (fun file =>
          !file.isDirectory && (file.name.head? != some '.')
            && sampleEnv.checkFileExtension file.name ".bmp".toList)).map DirEntry.name) :=
  ⟨by decide, by decide, rfl, by decide,
    loadSiblingImages_catalog_perm sampleEnv sampleWorld sampleDir (by decide) (by decide) rfl⟩

/-- C2. After `loadSiblingImages` the catalog is ordered without regard to case: of any two
adjacent entries, the lowercased first one is less than or equal to the lowercased second one
in the order of `std::string`; and every entry is a name of the listing as it was listed, not
a lowercased copy. -/
theorem loadSiblingImages_catalog_sorted (env : Env) (w : World) :
    List.Chain'
        (fun a b => strLt (toLowerStr a) (toLowerStr b) = true ∨ toLowerStr a = toLowerStr b)
        (loadSiblingImages env w).act.siblingImages ∧
      ∀ name ∈ (loadSiblingImages env w).act.siblingImages,
        ∃ dir file, env.storageOpen (dirPathOf w.act.filePath) = some dir ∧
          file ∈ dir.entries ∧ file.name = name := by
  rcases loadSiblingImages_cases env w with ⟨hcat, _⟩ | ⟨dir, hpath, hopen, hdir⟩
  · rw [hcat]
    exact ⟨List.chain'_nil, by simp⟩
  · have hcat := (loadSiblingImages_of_open env w dir hpath hopen hdir).1
    rw [hcat]
    constructor
    · have hp := stdSort_pairwise caseInsensitiveLess caseInsensitiveLess_asymm
        caseInsensitiveLess_false_trans (scanEntries env dir.entries)
      refine (hp.imp ?_).chain'
      intro a b hab
      exact (strLt_false_iff _ _).1 hab
    · intro name hname
      have hmem := ((stdSort_perm caseInsensitiveLess _).mem_iff).1 hname
      rw [scanEntries_eq_filter, List.mem_map] at hmem
      obtain ⟨file, hfile, hfn⟩ := hmem
      exact ⟨dir, file, hopen, (List.mem_filter.1 hfile).1, hfn⟩

/-- C3. The file name of the path is the text after its last slash, the whole path when it
has none. After `loadSiblingImages`: when that name is an entry of the catalog, `currentImageIndex` is the
position of the first entry equal to it; when it is not an entry, `currentImageIndex` is `-1`,
which covers the empty catalog, the empty path and the directory that does not open. -/
theorem loadSiblingImages_index (env : Env) (w : World) :
    ('/' ∉ fileNameOf w.act.filePath ∧
      (fileNameOf w.act.filePath = w.act.filePath ∨
        ∃ pre, w.act.filePath = pre ++ '/' :: fileNameOf w.act.filePath)) ∧
    (fileNameOf w.act.filePath ∈ (loadSiblingImages env w).act.siblingImages →
      ∃ k : Nat, (loadSiblingImages env w).act.currentImageIndex = (k : Int) ∧
        (loadSiblingImages env w).act.siblingImages[k]? = some (fileNameOf w.act.filePath) ∧
        ∀ j, j < k →
          (loadSiblingImages env w).act.siblingImages[j]? ≠ some (fileNameOf w.act.filePath)) ∧
    (fileNameOf w.act.filePath ∉ (loadSiblingImages env w).act.siblingImages →
      (loadSiblingImages env w).act.currentImageIndex = -1) ∧
    ((loadSiblingImages env w).act.siblingImages = [] →
      (loadSiblingImages env w).act.currentImageIndex = -1) ∧
    (w.act.filePath = [] →
      (loadSiblingImages env w).act.siblingImages = [] ∧
      (loadSiblingImages env w).act.currentImageIndex = -1) ∧
    ((∀ dir, env.storageOpen (dirPathOf w.act.filePath) = some dir → dir.isDirectory = false) →
      (loadSiblingImages env w).act.siblingImages = [] ∧
      (loadSiblingImages env w).act.currentImageIndex = -1) := by
  refine ⟨fileNameOf_spec _, ?_⟩
  rcases loadSiblingImages_cases env w with ⟨hcat, hidx⟩ | ⟨dir, hpath, hopen, hdir⟩
  · refine ⟨?_, fun _ => hidx, fun _ => hidx, fun _ => ⟨hcat, hidx⟩, fun _ => ⟨hcat, hidx⟩⟩
    intro hmem
    rw [hcat] at hmem
    simp at hmem
  · obtain ⟨hcat, hidx⟩ := loadSiblingImages_of_open env w dir hpath hopen hdir
    refine ⟨?_, ?_, ?_, fun h => absurd h hpath, ?_⟩
    · intro hmem
      rw [hcat] at hmem ⊢
      obtain ⟨k, hk, hget, hfirst⟩ := findCurrent_mem _ _ 0 hmem
      exact ⟨k, by rw [hidx, hk]; simp, hget, hfirst⟩
    · intro hmem
      rw [hcat] at hmem
      rw [hidx]
      exact findCurrent_not_mem _ _ 0 hmem
    · intro hempty
      rw [hidx]
      rw [hcat] at hempty
      rw [hempty]
      rfl
    · intro hall
      have := hall dir hopen
      rw [hdir] at this
      cases this

theorem loadSiblingImages_index_witness :
    fileNameOf sampleWorld.act.filePath = "a.bmp".toList ∧
    (loadSiblingImages sampleEnv sampleWorld).act.currentImageIndex = 1 ∧
    (loadSiblingImages sampleEnv sampleWorld).act.siblingImages[1]? = some "a.bmp".toList ∧
    ((fileNameOf sampleWorld.act.filePath ∈
        (loadSiblingImages sampleEnv sampleWorld).act.siblingImages →
      ∃ k : Nat, (loadSiblingImages sampleEnv sampleWorld).act.currentImageIndex = (k : Int) ∧
        (loadSiblingImages sampleEnv sampleWorld).act.siblingImages[k]?
          = some (fileNameOf sampleWorld.act.filePath) ∧
        ∀ j, j < k →
          (loadSiblingImages sampleEnv sampleWorld).act.siblingImages[j]?
            ≠ some (fileNameOf sampleWorld.act.filePath))) :=
  ⟨by decide, by decide, by decide, (loadSiblingImages_index sampleEnv sampleWorld).2.1⟩

/-! ## The render pass as a list of calls -/

theorem isEmpty_eq_false_of_ne {α : Type} {l : List α} (h : l ≠ []) : l.isEmpty = false := by
  cases l with
  | nil => exact absurd rfl h
  | cons _ _ => rfl

@[simp] theorem emit_act (w : World) (e : Effect) : (w.emit e).act = w.act := rfl

@[simp] theorem emit_sleepScreen (w : World) (e : Effect) :
    (w.emit e).sleepScreen = w.sleepScreen := rfl

@[simp] theorem emit_trace (w : World) (e : Effect) : (w.emit e).trace = w.trace ++ [e] := rfl

theorem loadSiblingImages_frame (env : Env) (w : World) :
    (loadSiblingImages env w).act.filePath = w.act.filePath ∧
    (loadSiblingImages env w).act.isConfirmingDelete = w.act.isConfirmingDelete ∧
    (loadSiblingImages env w).act.onGoBack = w.act.onGoBack ∧
    (loadSiblingImages env w).sleepScreen = w.sleepScreen := by
  unfold loadSiblingImages
  simp only [World.emit]
  split
  · simp
  · split
    · simp
    · split <;> simp

theorem loadSiblingImages_trace (env : Env) (w : World) :
    (loadSiblingImages env w).trace
      = w.trace ++ (if w.act.filePath.isEmpty then []
          else [Effect.storageOpen (dirPathOf w.act.filePath)]) := by
  unfold loadSiblingImages
  simp only [World.emit]
  split
  · simp
  · split
    · simp
    · split <;> simp

theorem loadSiblingImages_act_congr (env : Env) (w v : World) (h : w.act = v.act) :
    (loadSiblingImages env w).act = (loadSiblingImages env v).act := by
  unfold loadSiblingImages
  simp only [World.emit, h]
  split
  · rfl
  · split
    · rfl
    · split <;> rfl

theorem world_ext (a b : World) (h1 : a.act = b.act) (h2 : a.sleepScreen = b.sleepScreen)
    (h3 : a.trace = b.trace) : a = b := by
  cases a; cases b; simp_all

theorem drawScreen_eq (env : Env) (v : World) :
    drawScreen env v = { v with trace := v.trace ++ screenCalls env v.act } := by
  unfold drawScreen screenCalls
  simp only [emit_act]
  cases hro : env.renderOpen v.act.filePath with
  | ok bitmapWidth bitmapHeight =>
    cases hcd : v.act.isConfirmingDelete <;>
      exact world_ext _ _ (by simp [hcd]) (by simp [hcd]) (by simp [hcd])
  | parseError => exact world_ext _ _ (by simp) (by simp) (by simp)
  | openFailed => exact world_ext _ _ (by simp) (by simp) (by simp)

/-- The render pass, as the optional rescan followed by the calls of `screenCalls`. -/
theorem onEnter_eq (env : Env) (w : World) :
    onEnter env w =
      { act := if w.act.siblingImages.isEmpty && !w.act.filePath.isEmpty
          then (loadSiblingImages env w).act else w.act
        sleepScreen := w.sleepScreen
        trace := w.trace ++ Effect.activityOnEnter ::
          ((if w.act.siblingImages.isEmpty && !w.act.filePath.isEmpty
            then [Effect.storageOpen (dirPathOf w.act.filePath)] else []) ++
          screenCalls env (if w.act.siblingImages.isEmpty && !w.act.filePath.isEmpty
            then (loadSiblingImages env w).act else w.act)) } := by
  unfold onEnter
  simp only [drawScreen_eq, emit_act]
  by_cases hc : (w.act.siblingImages.isEmpty && !w.act.filePath.isEmpty) = true
  · have hp : w.act.filePath.isEmpty = false := by
      simp only [Bool.and_eq_true, Bool.not_eq_true'] at hc
      exact hc.2
    have hact := loadSiblingImages_act_congr env (w.emit .activityOnEnter) w rfl
    have hfr := loadSiblingImages_frame env (w.emit .activityOnEnter)
    have htr := loadSiblingImages_trace env (w.emit .activityOnEnter)
    simp only [emit_act, emit_sleepScreen, emit_trace, hp] at hfr htr
    simp only [hc, if_true]
    exact world_ext _ _ (by simp [hact]) (by simp [hfr.2.2.2]) (by simp [hact, htr])
  · simp only [hc]
    exact world_ext _ _ (by simp) (by simp) (by simp)

theorem screenCalls_isRenderCall (env : Env) (act : Activity) :
    ∀ e ∈ screenCalls env act, e.isRenderCall = true := by
  intro e he
  unfold screenCalls at he
  split at he <;> (try split at he) <;> simp at he <;>
    rcases he with he | he | he | he | he | he | he | he | he | he <;>
    (try subst he) <;> (try rfl)

/-! ## Navigation (C4) -/

theorem onEnter_act_of_catalog (env : Env) (w : World) (h : w.act.siblingImages ≠ []) :
    (onEnter env w).act = w.act := by
  rw [onEnter_eq]
  simp [isEmpty_eq_false_of_ne h]

theorem loop_upOnly (env : Env) (w : World) :
    loop env Input.upOnly w =
      if (!w.act.isConfirmingDelete && decide (w.act.siblingImages.length > 1)
          && decide (w.act.currentImageIndex > 0)) = true then
        onEnter env { w.emit Effect.activityLoop with
          act := { w.act with
            currentImageIndex := w.act.currentImageIndex - 1,
            filePath := siblingPath { w.act with
              currentImageIndex := w.act.currentImageIndex - 1 } } }
      else w.emit Effect.activityLoop := rfl

theorem loop_downOnly (env : Env) (w : World) :
    loop env Input.downOnly w =
      if (!w.act.isConfirmingDelete && decide (w.act.siblingImages.length > 1)
          && decide (w.act.currentImageIndex ≠ -1)
          && decide (w.act.currentImageIndex < (w.act.siblingImages.length : Int) - 1))
          = true then
        onEnter env { w.emit Effect.activityLoop with
          act := { w.act with
            currentImageIndex := w.act.currentImageIndex + 1,
            filePath := siblingPath { w.act with
              currentImageIndex := w.act.currentImageIndex + 1 } } }
      else w.emit Effect.activityLoop := rfl

/-- C4. In a state whose index is the sentinel `-1` or a position of the catalog, a tick with
only Up released moves the index to `i - 1` exactly when the screen is not confirming, the
catalog has more than one entry and `i > 0`; a tick with only Down released moves it to `i + 1`
exactly when the screen is not confirming, the catalog has more than one entry, `i` is not
`-1` and `i` is less than the last position. A moved index is a position of the unchanged
catalog. In every other case the tick only calls `Activity::loop`: index, path and catalog
are unchanged and nothing is drawn. -/
theorem loop_up_down_index (env : Env) (w : World)
    (hidx : -1 ≤ w.act.currentImageIndex ∧
      w.act.currentImageIndex < (w.act.siblingImages.length : Int)) :
    ((w.act.isConfirmingDelete = false ∧ 1 < w.act.siblingImages.length ∧
        0 < w.act.currentImageIndex) →
      (loop env Input.upOnly w).act.currentImageIndex = w.act.currentImageIndex - 1 ∧
      (loop env Input.upOnly w).act.siblingImages = w.act.siblingImages ∧
      0 ≤ (loop env Input.upOnly w).act.currentImageIndex ∧
      (loop env Input.upOnly w).act.currentImageIndex
        ≤ ((loop env Input.upOnly w).act.siblingImages.length : Int) - 1) ∧
    (¬ (w.act.isConfirmingDelete = false ∧ 1 < w.act.siblingImages.length ∧
        0 < w.act.currentImageIndex) →
      loop env Input.upOnly w = w.emit Effect.activityLoop) ∧
    ((w.act.isConfirmingDelete = false ∧ 1 < w.act.siblingImages.length ∧
        w.act.currentImageIndex ≠ -1 ∧
        w.act.currentImageIndex < (w.act.siblingImages.length : Int) - 1) →
      (loop env Input.downOnly w).act.currentImageIndex = w.act.currentImageIndex + 1 ∧
      (loop env Input.downOnly w).act.siblingImages = w.act.siblingImages ∧
      0 ≤ (loop env Input.downOnly w).act.currentImageIndex ∧
      (loop env Input.downOnly w).act.currentImageIndex
        ≤ ((loop env Input.downOnly w).act.siblingImages.length : Int) - 1) ∧
    (¬ (w.act.isConfirmingDelete = false ∧ 1 < w.act.siblingImages.length ∧
        w.act.currentImageIndex ≠ -1 ∧
        w.act.currentImageIndex < (w.act.siblingImages.length : Int) - 1) →
      loop env Input.downOnly w = w.emit Effect.activityLoop) := by
  refine ⟨?_, ?_, ?_, ?_⟩
  · rintro ⟨hc, hn, hi⟩
    have hne : w.act.siblingImages ≠ [] := by
      intro h; rw [h] at hn; simp at hn
    have hb : (!w.act.isConfirmingDelete && decide (w.act.siblingImages.length > 1)
        && decide (w.act.currentImageIndex > 0)) = true := by simp [hc, hn, hi]
    rw [loop_upOnly, if_pos hb, onEnter_act_of_catalog env _ (by simpa using hne)]
    refine ⟨rfl, rfl, ?_, ?_⟩ <;> simp only [emit_act] <;> omega
  · intro hcond
    have hb : ¬ (!w.act.isConfirmingDelete && decide (w.act.siblingImages.length > 1)
        && decide (w.act.currentImageIndex > 0)) = true := by
      intro hx
      simp only [Bool.and_eq_true, Bool.not_eq_true', decide_eq_true_eq] at hx
      exact hcond ⟨hx.1.1, hx.1.2, hx.2⟩
    rw [loop_upOnly, if_neg hb]
  · rintro ⟨hc, hn, hi1, hi2⟩
    have hne : w.act.siblingImages ≠ [] := by
      intro h; rw [h] at hn; simp at hn
    have hb : (!w.act.isConfirmingDelete && decide (w.act.siblingImages.length > 1)
        && decide (w.act.currentImageIndex ≠ -1)
        && decide (w.act.currentImageIndex < (w.act.siblingImages.length : Int) - 1))
        = true := by simp [hc, hn, hi1, hi2]
    rw [loop_downOnly, if_pos hb, onEnter_act_of_catalog env _ (by simpa using hne)]
    refine ⟨rfl, rfl, ?_, ?_⟩ <;> simp only [emit_act] <;> omega
  · intro hcond
    have hb : ¬ (!w.act.isConfirmingDelete && decide (w.act.siblingImages.length > 1)
        && decide (w.act.currentImageIndex ≠ -1)
        && decide (w.act.currentImageIndex < (w.act.siblingImages.length : Int) - 1))
        = true := by
      intro hx
      simp only [Bool.and_eq_true, Bool.not_eq_true', decide_eq_true_eq] at hx
      exact hcond ⟨hx.1.1.1, hx.1.1.2, hx.1.2, hx.2⟩
    rw [loop_downOnly, if_neg hb]

theorem loop_up_down_index_witness :
    (-1 ≤ (onEnter sampleEnv sampleWorld).act.currentImageIndex ∧
      (onEnter sampleEnv sampleWorld).act.currentImageIndex
        < ((onEnter sampleEnv sampleWorld).act.siblingImages.length : Int)) ∧
    (onEnter sampleEnv sampleWorld).act.currentImageIndex = 1 ∧
    (loop sampleEnv Input.downOnly (onEnter sampleEnv sampleWorld)).act.filePath
      = "/pics/b.bmp".toList ∧
    ((loop sampleEnv Input.upOnly (onEnter sampleEnv sampleWorld)).act.currentImageIndex
        = (onEnter sampleEnv sampleWorld).act.currentImageIndex - 1 ∧
      (loop sampleEnv Input.upOnly (onEnter sampleEnv sampleWorld)).act.siblingImages
        = (onEnter sampleEnv sampleWorld).act.siblingImages ∧
      0 ≤ (loop sampleEnv Input.upOnly (onEnter sampleEnv sampleWorld)).act.currentImageIndex ∧
      (loop sampleEnv Input.upOnly (onEnter sampleEnv sampleWorld)).act.currentImageIndex
        ≤ ((loop sampleEnv Input.upOnly
              (onEnter sampleEnv sampleWorld)).act.siblingImages.length : Int) - 1) :=
  ⟨by decide, by decide, by decide,
    (loop_up_down_index sampleEnv (onEnter sampleEnv sampleWorld) (by decide)).1
      ⟨by decide, by decide, by decide⟩⟩

/-! ## Render passes and the navigation state -/

theorem isRenderCall_harmless (e : Effect) (h : e.isRenderCall = true) :
    e.isMutation = false ∧ e ≠ Effect.onGoBack ∧ e ≠ Effect.activityOnEnter := by
  cases e <;> simp_all [Effect.isRenderCall, Effect.isMutation]

theorem onEnter_trace (env : Env) (w : World) :
    ∃ t, (onEnter env w).trace = w.trace ++ Effect.activityOnEnter :: t ∧
      ∀ e ∈ t, e.isRenderCall = true := by
  rw [onEnter_eq]
  refine ⟨_, rfl, ?_⟩
  intro e he
  rcases List.mem_append.1 he with h | h
  · split at h
    · rw [List.mem_singleton.1 h]; rfl
    · simp at h
  · exact screenCalls_isRenderCall _ _ e h

theorem onEnter_frame (env : Env) (w : World) :
    (onEnter env w).act.filePath = w.act.filePath ∧
    (onEnter env w).act.isConfirmingDelete = w.act.isConfirmingDelete ∧
    (onEnter env w).act.onGoBack = w.act.onGoBack ∧
    (onEnter env w).sleepScreen = w.sleepScreen := by
  rw [onEnter_eq]
  have h := loadSiblingImages_frame env w
  refine ⟨?_, ?_, ?_, rfl⟩ <;> simp only <;> split <;> simp [h]

theorem scanEntries_congr (env1 env2 : Env)
    (h : env2.checkFileExtension = env1.checkFileExtension) (l : List DirEntry) :
    scanEntries env2 l = scanEntries env1 l := by
  have hk : keepEntry env2 = keepEntry env1 := by
    funext f
    simp [keepEntry, h]
  rw [scanEntries_eq_filter, scanEntries_eq_filter, hk]

theorem loadSiblingImages_nav_congr (env1 env2 : Env) (v1 v2 : World)
    (hso : env2.storageOpen = env1.storageOpen)
    (hce : env2.checkFileExtension = env1.checkFileExtension)
    (hp : v2.act.filePath = v1.act.filePath) :
    (loadSiblingImages env2 v2).act.siblingImages
        = (loadSiblingImages env1 v1).act.siblingImages ∧
      (loadSiblingImages env2 v2).act.currentImageIndex
        = (loadSiblingImages env1 v1).act.currentImageIndex := by
  unfold loadSiblingImages
  simp only [emit_act, hp, hso, scanEntries_congr env1 env2 hce]
  split
  · simp
  · split
    · simp
    · split <;> simp

/-- A second render pass on the navigation state left by a first one, with the same
directory answers, leaves catalog and index as they are. -/
theorem onEnter_again (env1 env2 : Env) (v1 v2 : World)
    (hso : env2.storageOpen = env1.storageOpen)
    (hce : env2.checkFileExtension = env1.checkFileExtension)
    (hp : v2.act.filePath = (onEnter env1 v1).act.filePath)
    (hcat : v2.act.siblingImages = (onEnter env1 v1).act.siblingImages)
    (hidx : v2.act.currentImageIndex = (onEnter env1 v1).act.currentImageIndex) :
    (onEnter env2 v2).act.siblingImages = (onEnter env1 v1).act.siblingImages ∧
      (onEnter env2 v2).act.currentImageIndex = (onEnter env1 v1).act.currentImageIndex := by
  have hp1 := (onEnter_frame env1 v1).1
  by_cases hc2 : (v2.act.siblingImages.isEmpty && !v2.act.filePath.isEmpty) = true
  · have h2 : (onEnter env2 v2).act = (loadSiblingImages env2 v2).act := by
      rw [onEnter_eq]; simp only [hc2, if_true]
    have hc1 : (v1.act.siblingImages.isEmpty && !v1.act.filePath.isEmpty) = true := by
      by_contra hc1
      have h1 : (onEnter env1 v1).act = v1.act := by
        rw [onEnter_eq]; simp only [hc1]; rfl
      rw [h1] at hcat hp
      rw [hcat, hp] at hc2
      exact hc1 hc2
    have h1 : (onEnter env1 v1).act = (loadSiblingImages env1 v1).act := by
      rw [onEnter_eq]; simp only [hc1, if_true]
    rw [h2, h1]
    exact loadSiblingImages_nav_congr env1 env2 v1 v2 hso hce (by rw [hp, hp1])
  · have h2 : (onEnter env2 v2).act = v2.act := by
      rw [onEnter_eq]; simp only [hc2]; rfl
    rw [h2]
    exact ⟨hcat, hidx⟩

theorem loop_leftOnly (env : Env) (w : World) :
    loop env Input.leftOnly w =
      if (!w.act.isConfirmingDelete) = true then
        onEnter env { w.emit Effect.activityLoop with
          act := { w.act with isConfirmingDelete := true } }
      else w.emit Effect.activityLoop := rfl

theorem loop_backOnly (env : Env) (w : World) :
    loop env Input.backOnly w =
      if w.act.isConfirmingDelete = true then
        onEnter env { w.emit Effect.activityLoop with
          act := { w.act with isConfirmingDelete := false } }
      else if w.act.onGoBack = true then (w.emit Effect.activityLoop).emit Effect.onGoBack
      else w.emit Effect.activityLoop := rfl

/-! ## The copy loop (C7) -/

theorem copySafe_nil (ok : Bool) : CopySafe [] ok := by
  refine ⟨?_, ?_, ?_⟩
  · intro t1 t2 h
    have := List.append_eq_nil.1 h.symm
    rw [this.1]
    exact List.prefix_refl _
  · intro t1 d r t2 h
    have := List.append_eq_nil.1 h.symm
    simp at this
  · intro t1 d r t2 h
    have := List.append_eq_nil.1 h.symm
    simp at this

theorem copySafe_read (r : ReadResult) (ok : Bool) :
    CopySafe [Effect.fileRead r] ok := by
  refine ⟨?_, ?_, ?_⟩
  · intro t1 t2 h
    rcases List.cons_eq_append_iff.1 h with ⟨h1, _⟩ | ⟨t1', h1, h2⟩
    · rw [h1]; exact List.prefix_refl _
    · have := List.append_eq_nil.1 h2.symm
      rw [h1, this.1]
      simp [acceptedBytes, readBytes]
  · intro t1 d k t2 h
    rcases List.cons_eq_append_iff.1 h with ⟨_, h1⟩ | ⟨t1', _, h2⟩
    · cases h1
    · have := List.append_eq_nil.1 h2.symm
      simp at this
  · intro t1 d k t2 h
    rcases List.cons_eq_append_iff.1 h with ⟨_, h1⟩ | ⟨t1', _, h2⟩
    · cases h1
    · have := List.append_eq_nil.1 h2.symm
      simp at this

theorem copySafe_other (e : Effect) (t : List Effect) (ok : Bool)
    (hr : ∀ r, e ≠ Effect.fileRead r) (hw : ∀ d k, e ≠ Effect.fileWrite d k)
    (h : CopySafe t ok) : CopySafe (e :: t) ok := by
  obtain ⟨h1, h2, h3⟩ := h
  have hacc : ∀ l, acceptedBytes (e :: l) = acceptedBytes l := by
    intro l; cases e <;> first | rfl | exact absurd rfl (hw _ _)
  have hrd : ∀ l, readBytes (e :: l) = readBytes l := by
    intro l; cases e <;> first | rfl | exact absurd rfl (hr _)
  refine ⟨?_, ?_, ?_⟩
  · intro t1 t2 h
    rcases List.cons_eq_append_iff.1 h with ⟨h1', _⟩ | ⟨t1', h1', h2'⟩
    · rw [h1']; exact List.prefix_refl _
    · rw [h1', hacc, hrd]
      exact h1 t1' t2 h2'
  · intro t1 d k t2 h
    rcases List.cons_eq_append_iff.1 h with ⟨_, h1'⟩ | ⟨t1', h1', h2'⟩
    · exact absurd (List.cons.inj h1').1.symm (hw d k)
    · obtain ⟨t0, ht0⟩ := h2 t1' d k t2 h2'
      exact ⟨e :: t0, by rw [h1', ht0]; rfl⟩
  · intro t1 d k t2 h hk
    rcases List.cons_eq_append_iff.1 h with ⟨_, h1'⟩ | ⟨t1', h1', h2'⟩
    · exact absurd (List.cons.inj h1').1.symm (hw d k)
    · exact h3 t1' d k t2 h2' hk

theorem copySafe_short (d : List Nat) (k : Nat) :
    CopySafe [Effect.fileRead (.bytes d), Effect.fileWrite d k] false := by
  refine ⟨?_, ?_, ?_⟩
  · intro t1 t2 h
    rcases List.cons_eq_append_iff.1 h with ⟨h1, _⟩ | ⟨t1', h1, h2⟩
    · rw [h1]; exact List.prefix_refl _
    · rcases List.cons_eq_append_iff.1 h2 with ⟨h3, _⟩ | ⟨t1'', h3, h4⟩
      · rw [h1, h3]
        simp [acceptedBytes, readBytes]
      · have := List.append_eq_nil.1 h4.symm
        rw [h1, h3, this.1]
        simp only [acceptedBytes, readBytes, ReadResult.data, List.append_nil]
        exact List.take_prefix _ _
  · intro t1 d' k' t2 h
    rcases List.cons_eq_append_iff.1 h with ⟨_, h1⟩ | ⟨t1', h1, h2⟩
    · cases h1
    · rcases List.cons_eq_append_iff.1 h2 with ⟨h3, h4⟩ | ⟨t1'', _, h4⟩
      · have h5 := (List.cons.inj h4).1
        injection h5 with h6 h7
        exact ⟨[], by rw [h1, h3, h6]; rfl⟩
      · have := List.append_eq_nil.1 h4.symm
        simp at this
  · intro t1 d' k' t2 h _
    rcases List.cons_eq_append_iff.1 h with ⟨_, h1⟩ | ⟨t1', h1, h2⟩
    · cases h1
    · rcases List.cons_eq_append_iff.1 h2 with ⟨_, h4⟩ | ⟨t1'', _, h4⟩
      · exact ⟨(List.cons.inj h4).2, rfl⟩
      · have := List.append_eq_nil.1 h4.symm
        simp at this

theorem copySafe_step (d : List Nat) (t : List Effect) (ok : Bool) (h : CopySafe t ok) :
    CopySafe (Effect.fileRead (.bytes d) :: Effect.fileWrite d d.length :: t) ok := by
  obtain ⟨h1, h2, h3⟩ := h
  refine ⟨?_, ?_, ?_⟩
  · intro t1 t2 h
    rcases List.cons_eq_append_iff.1 h with ⟨h1', _⟩ | ⟨t1', h1', h2'⟩
    · rw [h1']; exact List.prefix_refl _
    · rcases List.cons_eq_append_iff.1 h2' with ⟨h3', _⟩ | ⟨t1'', h3', h4'⟩
      · rw [h1', h3']
        simp [acceptedBytes, readBytes]
      · rw [h1', h3']
        simp only [acceptedBytes, readBytes, ReadResult.data, List.take_length]
        exact (List.prefix_append_right_inj d).2 (h1 t1'' t2 h4')
  · intro t1 d' k' t2 h
    rcases List.cons_eq_append_iff.1 h with ⟨_, h1'⟩ | ⟨t1', h1', h2'⟩
    · cases h1'
    · rcases List.cons_eq_append_iff.1 h2' with ⟨h3', h4'⟩ | ⟨t1'', h3', h4'⟩
      · have h5 := (List.cons.inj h4').1
        injection h5 with h6 h7
        exact ⟨[], by rw [h1', h3', h6]; rfl⟩
      · obtain ⟨t0, ht0⟩ := h2 t1'' d' k' t2 h4'
        exact ⟨Effect.fileRead (.bytes d) :: Effect.fileWrite d d.length :: t0, by
          rw [h1', h3', ht0]; rfl⟩
  · intro t1 d' k' t2 h hk
    rcases List.cons_eq_append_iff.1 h with ⟨_, h1'⟩ | ⟨t1', h1', h2'⟩
    · cases h1'
    · rcases List.cons_eq_append_iff.1 h2' with ⟨_, h4'⟩ | ⟨t1'', _, h4'⟩
      · have h5 := (List.cons.inj h4').1
        injection h5 with h6 h7
        rw [h6, h7] at hk
        exact absurd rfl hk
      · exact h3 t1'' d' k' t2 h4' hk

theorem copyLoop_safe (write : Nat → List Nat → Nat) (reads : List ReadResult) :
    ∀ (n : Nat) (w : World), ∃ t, (copyLoop write reads n w).2.trace = w.trace ++ t ∧
      CopySafe t (copyLoop write reads n w).1 := by
  induction reads with
  | nil =>
    intro n w
    exact ⟨[Effect.fileRead (.bytes [])], rfl, copySafe_read _ _⟩
  | cons r rest ih =>
    intro n w
    cases r with
    | error k =>
      refine ⟨[Effect.fileRead (.error k)], ?_, ?_⟩
      · simp only [copyLoop, ReadResult.count]
        rw [if_neg (by omega)]
        rfl
      · simp only [copyLoop, ReadResult.count]
        rw [if_neg (by omega)]
        exact copySafe_read _ _
    | bytes d =>
      by_cases hd : d = []
      · subst hd
        exact ⟨[Effect.fileRead (.bytes [])], by simp [copyLoop, ReadResult.count],
          by simpa [copyLoop, ReadResult.count] using copySafe_read (.bytes []) true⟩
      · have hpos : (0 : Int) < ((d.length : Nat) : Int) := by
          have := List.length_pos.2 hd
          omega
        by_cases hk : write n d = d.length
        · obtain ⟨t, ht, hs⟩ := ih (n + 1)
            ((w.emit (.fileRead (.bytes d))).emit (.fileWrite d d.length))
          refine ⟨Effect.fileRead (.bytes d) :: Effect.fileWrite d d.length :: t, ?_, ?_⟩
          · simp only [copyLoop, ReadResult.count, ReadResult.data, gt_iff_lt, hpos, if_true,
              Int.toNat_ofNat, List.take_length, hk, bne_self_eq_false, Bool.false_eq_true,
              if_false]
            rw [ht]
            simp
          · simp only [copyLoop, ReadResult.count, ReadResult.data, gt_iff_lt, hpos, if_true,
              Int.toNat_ofNat, List.take_length, hk, bne_self_eq_false, Bool.false_eq_true,
              if_false]
            exact copySafe_step d t _ hs
        · have hne : ((write n d : Nat) : Int) ≠ ((d.length : Nat) : Int) := by
            intro h; exact hk (by exact_mod_cast h)
          refine ⟨[Effect.fileRead (.bytes d), Effect.fileWrite d (write n d)], ?_, ?_⟩
          · simp [copyLoop, ReadResult.count, ReadResult.data, hpos, hne]
          · simp only [copyLoop, ReadResult.count, ReadResult.data, gt_iff_lt, hpos, if_true,
              Int.toNat_ofNat, List.take_length]
            rw [if_pos (by simpa using hne)]
            exact copySafe_short d _

theorem copyToSleepBmp_safe (env : Env) (w : World) :
    ∃ t, (copyToSleepBmp env w).2.trace = w.trace ++ t ∧
      CopySafe t (copyToSleepBmp env w).1 := by
  unfold copyToSleepBmp
  simp only [emit_act]
  cases hsrc : env.copySource w.act.filePath with
  | none =>
    exact ⟨[Effect.openFileForRead w.act.filePath], rfl,
      copySafe_other _ _ _ (by simp) (by simp) (copySafe_nil _)⟩
  | some reads =>
    cases hdst : env.copyDest with
    | none =>
      exact ⟨[Effect.openFileForRead w.act.filePath,
          Effect.openFileForWrite "/sleep.bmp".toList], by simp,
        copySafe_other _ _ _ (by simp) (by simp)
          (copySafe_other _ _ _ (by simp) (by simp) (copySafe_nil _))⟩
    | some write =>
      obtain ⟨t, ht, hs⟩ := copyLoop_safe write reads 0
        ((w.emit (.openFileForRead w.act.filePath)).emit
          (.openFileForWrite "/sleep.bmp".toList))
      refine ⟨Effect.openFileForRead w.act.filePath ::
          Effect.openFileForWrite "/sleep.bmp".toList :: t, ?_, ?_⟩
      · simp only []
        rw [ht]
        simp
      · exact copySafe_other _ _ _ (by simp) (by simp)
          (copySafe_other _ _ _ (by simp) (by simp) hs)

/-- C7. The calls `t` that the copy of lines 198-214 makes satisfy, for every source and every
destination: at every moment of the copy (every initial part `t1` of `t`) the bytes accepted
by the destination are an initial segment of the bytes read so far, so never more than were
read; every `write` is offered exactly the bytes delivered by the `read` just before it; and
a `write` that reports a count different from the count read is the last call of the copy,
which then reports failure. -/
theorem copy_writes_only_what_was_read (env : Env) (w : World) :
    ∃ t, (copyToSleepBmp env w).2.trace = w.trace ++ t ∧
      (∀ t1 t2, t = t1 ++ t2 →
        acceptedBytes t1 <+: readBytes t1 ∧
        (acceptedBytes t1).length ≤ (readBytes t1).length) ∧
      (∀ t1 data returned t2, t = t1 ++ Effect.fileWrite data returned :: t2 →
        ∃ t0, t1 = t0 ++ [Effect.fileRead (.bytes data)]) ∧
      (∀ t1 data returned t2, t = t1 ++ Effect.fileWrite data returned :: t2 →
        returned ≠ data.length → t2 = [] ∧ (copyToSleepBmp env w).1 = false) := by
  obtain ⟨t, ht, h1, h2, h3⟩ := copyToSleepBmp_safe env w
  exact ⟨t, ht, fun t1 t2 h => ⟨h1 t1 t2 h, (h1 t1 t2 h).length_le⟩, h2, h3⟩

/-! ## The index is the sentinel or a position of the catalog -/

theorem findCurrent_range (fileName : Str) (l : List Str) (i : Nat) :
    findCurrent fileName l i = -1 ∨
      ((i : Int) ≤ findCurrent fileName l i ∧
        findCurrent fileName l i < ((i + l.length : Nat) : Int)) := by
  induction l generalizing i with
  | nil => left; rfl
  | cons x xs ih =>
    simp only [findCurrent]
    split
    · right
      simp only [List.length_cons]
      omega
    · rcases ih (i + 1) with h | h
      · left; exact h
      · right
        simp only [List.length_cons]
        omega

theorem loadSiblingImages_indexValid (env : Env) (w : World) :
    -1 ≤ (loadSiblingImages env w).act.currentImageIndex ∧
      (loadSiblingImages env w).act.currentImageIndex
        < ((loadSiblingImages env w).act.siblingImages.length : Int) := by
  rcases loadSiblingImages_cases env w with ⟨hcat, hidx⟩ | ⟨dir, hpath, hopen, hdir⟩
  · rw [hcat, hidx]; simp
  · obtain ⟨hcat, hidx⟩ := loadSiblingImages_of_open env w dir hpath hopen hdir
    rw [hcat, hidx]
    rcases findCurrent_range (fileNameOf w.act.filePath)
      (stdSort caseInsensitiveLess (scanEntries env dir.entries)) 0 with h | h
    · rw [h]
      have : (0 : Int) ≤ ((stdSort caseInsensitiveLess (scanEntries env dir.entries)).length
        : Int) := Int.natCast_nonneg _
      omega
    · simp only [Nat.zero_add] at h
      omega

theorem onEnter_indexValid (env : Env) (w : World)
    (h : -1 ≤ w.act.currentImageIndex ∧
      w.act.currentImageIndex < (w.act.siblingImages.length : Int)) :
    -1 ≤ (onEnter env w).act.currentImageIndex ∧
      (onEnter env w).act.currentImageIndex
        < ((onEnter env w).act.siblingImages.length : Int) := by
  rw [onEnter_eq]
  simp only
  split
  · exact loadSiblingImages_indexValid env w
  · exact h

theorem copyLoop_frame (write : Nat → List Nat → Nat) (reads : List ReadResult) :
    ∀ (n : Nat) (w : World), (copyLoop write reads n w).2.act = w.act ∧
      (copyLoop write reads n w).2.sleepScreen = w.sleepScreen := by
  induction reads with
  | nil => intro n w; exact ⟨rfl, rfl⟩
  | cons r rest ih =>
    intro n w
    simp only [copyLoop]
    split
    · split
      · exact ⟨rfl, rfl⟩
      · have := ih (n + 1) ((w.emit (.fileRead r)).emit
          (.fileWrite (r.data.take r.count.toNat) (write n (r.data.take r.count.toNat))))
        simpa using this
    · exact ⟨rfl, rfl⟩

theorem copyToSleepBmp_frame (env : Env) (w : World) :
    (copyToSleepBmp env w).2.act = w.act ∧
      (copyToSleepBmp env w).2.sleepScreen = w.sleepScreen := by
  unfold copyToSleepBmp
  simp only [emit_act]
  split
  · exact ⟨rfl, rfl⟩
  · split
    · exact ⟨rfl, rfl⟩
    · have := copyLoop_frame (by assumption) (by assumption) 0
        ((w.emit (.openFileForRead w.act.filePath)).emit
          (.openFileForWrite "/sleep.bmp".toList))
      simpa using this

/-- The range of the index is kept by every tick, whatever buttons are released and whatever
the collaborators answer. -/
theorem loop_indexValid (env : Env) (inp : Input) (w : World)
    (h : -1 ≤ w.act.currentImageIndex ∧
      w.act.currentImageIndex < (w.act.siblingImages.length : Int)) :
    -1 ≤ (loop env inp w).act.currentImageIndex ∧
      (loop env inp w).act.currentImageIndex
        < ((loop env inp w).act.siblingImages.length : Int) := by
  have hcopy := (copyToSleepBmp_frame env
    ((w.emit .activityLoop).emit (.drawPopup (.tr .STR_LOADING_POPUP)) |>.emit
      (.displayBuffer .FAST_REFRESH))).1
  simp only [emit_act] at hcopy
  unfold loop
  simp only [emit_act]
  split
  · split
    · exact onEnter_indexValid env _ h
    · split <;> exact h
  · split
    · split
      · split
        · split <;> exact h
        · exact onEnter_indexValid env _ h
      · apply onEnter_indexValid
        split <;> simp only [emit_act, hcopy] <;> exact h
    · split
      · split
        · exact onEnter_indexValid env _ h
        · exact h
      · split
        · split
          · rename_i hc
            simp only [Bool.and_eq_true, Bool.not_eq_true', decide_eq_true_eq] at hc
            apply onEnter_indexValid
            simp only
            omega
          · exact h
        · split
          · split
            · rename_i hc
              simp only [Bool.and_eq_true, Bool.not_eq_true', decide_eq_true_eq] at hc
              apply onEnter_indexValid
              simp only
              omega
            · exact h
          · exact h

theorem new_indexValid (path : Str) (onGoBack : Bool) :
    -1 ≤ (Activity.new path onGoBack).currentImageIndex ∧
      (Activity.new path onGoBack).currentImageIndex
        < ((Activity.new path onGoBack).siblingImages.length : Int) := by
  simp [Activity.new]

/-! ## Confirmed deletion (C9, C10) -/

theorem loop_confirm_delete (env : Env) (inp : Input) (w : World)
    (hconf : w.act.isConfirmingDelete = true) (hback : inp.back = false)
    (hc : inp.confirm = true) :
    loop env inp w =
      if env.remove w.act.filePath = true then
        if w.act.onGoBack = true then
          { w with trace := w.trace ++ [Effect.activityLoop,
              Effect.drawPopup (.tr .STR_LOADING_POPUP), Effect.displayBuffer .FAST_REFRESH,
              Effect.storageRemove w.act.filePath, Effect.drawPopup (.tr .STR_DONE),
              Effect.displayBuffer .FAST_REFRESH, Effect.delay 1000, Effect.onGoBack] }
        else
          { w with trace := w.trace ++ [Effect.activityLoop,
              Effect.drawPopup (.tr .STR_LOADING_POPUP), Effect.displayBuffer .FAST_REFRESH,
              Effect.storageRemove w.act.filePath, Effect.drawPopup (.tr .STR_DONE),
              Effect.displayBuffer .FAST_REFRESH, Effect.delay 1000] }
      else
        onEnter env
          { act := { w.act with isConfirmingDelete := false }
            sleepScreen := w.sleepScreen
            trace := w.trace ++ [Effect.activityLoop,
              Effect.drawPopup (.tr .STR_LOADING_POPUP), Effect.displayBuffer .FAST_REFRESH,
              Effect.storageRemove w.act.filePath, Effect.drawPopup (.tr .STR_FAILED_LOWER),
              Effect.displayBuffer .FAST_REFRESH, Effect.delay 1000] } := by
  unfold loop
  simp only [hback, hc, emit_act, hconf, Bool.false_eq_true, if_false, if_true]
  split
  · split
    · exact world_ext _ _ (by simp) (by simp) (by simp)
    · exact world_ext _ _ (by simp) (by simp) (by simp)
  · congr 1
    exact world_ext _ _ (by simp) (by simp) (by simp)

/-- C9. In ConfirmingDelete with an exit callback set, a tick with Confirm released and Back
not released in which `Storage.remove` of the current path succeeds makes exactly the calls
listed: the exit callback is called once, as the last call, the render pass `onEnter` is not
run, and no file is opened; the activity itself is left as it was. -/
theorem confirm_delete_success (env : Env) (inp : Input) (w : World)
    (hconf : w.act.isConfirmingDelete = true) (hcb : w.act.onGoBack = true)
    (hback : inp.back = false) (hc : inp.confirm = true)
    (hrm : env.remove w.act.filePath = true) :
    ∃ t, (loop env inp w).trace = w.trace ++ t ∧
      t = [Effect.activityLoop, Effect.drawPopup (.tr .STR_LOADING_POPUP),
        Effect.displayBuffer .FAST_REFRESH, Effect.storageRemove w.act.filePath,
        Effect.drawPopup (.tr .STR_DONE), Effect.displayBuffer .FAST_REFRESH,
        Effect.delay 1000, Effect.onGoBack] ∧
      t.count Effect.onGoBack = 1 ∧
      Effect.activityOnEnter ∉ t ∧
      (∀ e ∈ t, (∀ path, e ≠ Effect.openFileForRead path) ∧
        (∀ x y mw mh cx cy, e ≠ Effect.drawBitmap x y mw mh cx cy)) ∧
      (loop env inp w).act = w.act ∧
      (loop env inp w).sleepScreen = w.sleepScreen := by
  rw [loop_confirm_delete env inp w hconf hback hc, if_pos hrm, if_pos hcb]
  refine ⟨_, rfl, rfl, ?_, ?_, ?_, rfl, rfl⟩
  · simp [List.count_cons]
  · simp
  · intro e he
    simp only [List.mem_cons, List.mem_singleton, List.not_mem_nil, or_false] at he
    rcases he with he | he | he | he | he | he | he | he <;> subst he <;> simp

theorem confirm_delete_success_witness :
    staleWorld.act.isConfirmingDelete = true ∧ staleWorld.act.onGoBack = true ∧
    Input.confirmOnly.back = false ∧ Input.confirmOnly.confirm = true ∧
    removingEnv.remove staleWorld.act.filePath = true ∧
    ∃ t, (loop removingEnv Input.confirmOnly staleWorld).trace = staleWorld.trace ++ t ∧
      t = [Effect.activityLoop, Effect.drawPopup (.tr .STR_LOADING_POPUP),
        Effect.displayBuffer .FAST_REFRESH, Effect.storageRemove staleWorld.act.filePath,
        Effect.drawPopup (.tr .STR_DONE), Effect.displayBuffer .FAST_REFRESH,
        Effect.delay 1000, Effect.onGoBack] ∧
      t.count Effect.onGoBack = 1 ∧
      Effect.activityOnEnter ∉ t ∧
      (∀ e ∈ t, (∀ path, e ≠ Effect.openFileForRead path) ∧
        (∀ x y mw mh cx cy, e ≠ Effect.drawBitmap x y mw mh cx cy)) ∧
      (loop removingEnv Input.confirmOnly staleWorld).act = staleWorld.act ∧
      (loop removingEnv Input.confirmOnly staleWorld).sleepScreen = staleWorld.sleepScreen :=
  ⟨rfl, rfl, rfl, rfl, rfl,
    confirm_delete_success removingEnv Input.confirmOnly staleWorld rfl rfl rfl rfl rfl⟩

/-- C10, as stated, fails: in ConfirmingDelete with an empty catalog, a Confirm tick whose
`remove` fails rescans the directory in its render pass, and the index goes from `-1` to the
position found. The state is the one the screen is in after it was entered and Left was
released while the directory could not be opened. -/
theorem confirm_delete_failure_index_counterexample :
    (loop closedEnv Input.leftOnly (onEnter closedEnv sampleWorld)).act = staleWorld.act ∧
    staleWorld.act.isConfirmingDelete = true ∧
    Input.confirmOnly.back = false ∧ Input.confirmOnly.confirm = true ∧
    sampleEnv.remove staleWorld.act.filePath = false ∧
    staleWorld.act.currentImageIndex = -1 ∧
    (loop sampleEnv Input.confirmOnly staleWorld).act.currentImageIndex = 1 ∧
    (loop sampleEnv Input.confirmOnly staleWorld).act.currentImageIndex
      ≠ staleWorld.act.currentImageIndex := by
  decide

/-- C10, amended. In ConfirmingDelete, a tick with Confirm released and Back not released in
which `Storage.remove` fails ends in Viewing with the file path and the setting unchanged; its
calls are the failure popup sequence followed by one render pass, and the exit callback is
not among them. Catalog and index are unchanged when the catalog was not empty or the path
is empty; otherwise the render pass rescans and they are what `loadSiblingImages` gives. -/
theorem confirm_delete_failure (env : Env) (inp : Input) (w : World)
    (hconf : w.act.isConfirmingDelete = true)
    (hback : inp.back = false) (hc : inp.confirm = true)
    (hrm : env.remove w.act.filePath = false) :
    (loop env inp w).act.isConfirmingDelete = false ∧
    (loop env inp w).act.filePath = w.act.filePath ∧
    (loop env inp w).sleepScreen = w.sleepScreen ∧
    (w.act.siblingImages ≠ [] ∨ w.act.filePath = [] →
      (loop env inp w).act.siblingImages = w.act.siblingImages ∧
      (loop env inp w).act.currentImageIndex = w.act.currentImageIndex) ∧
    (w.act.siblingImages = [] ∧ w.act.filePath ≠ [] →
      (loop env inp w).act.siblingImages = (loadSiblingImages env w).act.siblingImages ∧
      (loop env inp w).act.currentImageIndex
        = (loadSiblingImages env w).act.currentImageIndex) ∧
    ∃ t, (loop env inp w).trace = w.trace ++ [Effect.activityLoop,
        Effect.drawPopup (.tr .STR_LOADING_POPUP), Effect.displayBuffer .FAST_REFRESH,
        Effect.storageRemove w.act.filePath, Effect.drawPopup (.tr .STR_FAILED_LOWER),
        Effect.displayBuffer .FAST_REFRESH, Effect.delay 1000, Effect.activityOnEnter] ++ t ∧
      ∀ e ∈ t, e.isRenderCall = true ∧ e ≠ Effect.onGoBack ∧ e ≠ Effect.activityOnEnter := by
  rw [loop_confirm_delete env inp w hconf hback hc, if_neg (by simp [hrm])]
  have key : ∀ v : World, v.act = { w.act with isConfirmingDelete := false } →
      v.sleepScreen = w.sleepScreen →
      v.trace = w.trace ++ [Effect.activityLoop,
        Effect.drawPopup (.tr .STR_LOADING_POPUP), Effect.displayBuffer .FAST_REFRESH,
        Effect.storageRemove w.act.filePath, Effect.drawPopup (.tr .STR_FAILED_LOWER),
        Effect.displayBuffer .FAST_REFRESH, Effect.delay 1000] →
      (onEnter env v).act.isConfirmingDelete = false ∧
      (onEnter env v).act.filePath = w.act.filePath ∧
      (onEnter env v).sleepScreen = w.sleepScreen ∧
      (w.act.siblingImages ≠ [] ∨ w.act.filePath = [] →
        (onEnter env v).act.siblingImages = w.act.siblingImages ∧
        (onEnter env v).act.currentImageIndex = w.act.currentImageIndex) ∧
      (w.act.siblingImages = [] ∧ w.act.filePath ≠ [] →
        (onEnter env v).act.siblingImages = (loadSiblingImages env w).act.siblingImages ∧
        (onEnter env v).act.currentImageIndex
          = (loadSiblingImages env w).act.currentImageIndex) ∧
      ∃ t, (onEnter env v).trace = w.trace ++ [Effect.activityLoop,
          Effect.drawPopup (.tr .STR_LOADING_POPUP), Effect.displayBuffer .FAST_REFRESH,
          Effect.storageRemove w.act.filePath, Effect.drawPopup (.tr .STR_FAILED_LOWER),
          Effect.displayBuffer .FAST_REFRESH, Effect.delay 1000, Effect.activityOnEnter] ++ t ∧
        ∀ e ∈ t, e.isRenderCall = true ∧ e ≠ Effect.onGoBack ∧ e ≠ Effect.activityOnEnter := by
    intro v hva hvs hvt
    have hf := onEnter_frame env v
    obtain ⟨t, ht, hr⟩ := onEnter_trace env v
    refine ⟨?_, ?_, ?_, ?_, ?_, ?_⟩
    · rw [hf.2.1, hva]
    · rw [hf.1, hva]
    · rw [hf.2.2.2, hvs]
    · intro h
      have hact : (onEnter env v).act = v.act := by
        rw [onEnter_eq, hva]
        rcases h with h | h
        · simp [isEmpty_eq_false_of_ne h]
        · simp [h]
      rw [hact, hva]
      exact ⟨rfl, rfl⟩
    · rintro ⟨h1, h2⟩
      have hact : (onEnter env v).act = (loadSiblingImages env v).act := by
        rw [onEnter_eq, hva]
        simp [h1, isEmpty_eq_false_of_ne h2]
      rw [hact]
      exact loadSiblingImages_nav_congr env env w v rfl rfl (by rw [hva])
    · refine ⟨t, ?_, ?_⟩
      · rw [ht, hvt]; simp
      · intro e he
        exact ⟨hr e he, (isRenderCall_harmless e (hr e he)).2.1,
          (isRenderCall_harmless e (hr e he)).2.2⟩
  exact key _ rfl rfl rfl

theorem confirm_delete_failure_witness :
    staleWorld.act.isConfirmingDelete = true ∧
    Input.confirmOnly.back = false ∧ Input.confirmOnly.confirm = true ∧
    sampleEnv.remove staleWorld.act.filePath = false ∧
    (loop sampleEnv Input.confirmOnly staleWorld).act.isConfirmingDelete = false ∧
    (loop sampleEnv Input.confirmOnly staleWorld).act.filePath = staleWorld.act.filePath :=
  ⟨rfl, rfl, rfl, rfl,
    (confirm_delete_failure sampleEnv Input.confirmOnly staleWorld rfl rfl rfl rfl).1,
    (confirm_delete_failure sampleEnv Input.confirmOnly staleWorld rfl rfl rfl rfl).2.1⟩

/-! ## Single-precision rounding is accurate to 2^-24 -/

theorem scaleDen_spec (fuel p : Nat) : ∀ (q : Nat) (e : Int), 0 < q → p < q * 2 ^ fuel →
    ∃ k : Nat, scaleDen fuel p q e = (q * 2 ^ k, e + k) ∧ p < 2 ^ 24 * (q * 2 ^ k) ∧
      (0 < k → 2 ^ 23 * (q * 2 ^ k) ≤ p) := by
  induction fuel with
  | zero =>
    intro q e hq hp
    refine ⟨0, by simp [scaleDen], ?_, by simp⟩
    simp only [pow_zero, Nat.mul_one] at hp ⊢
    omega
  | succ fuel ih =>
    intro q e hq hp
    simp only [scaleDen]
    by_cases hc : 2 ^ 24 * q ≤ p
    · rw [if_pos hc]
      have hq2 : q * 2 ^ (fuel + 1) = 2 * q * 2 ^ fuel := by rw [pow_succ]; ring
      rw [hq2] at hp
      obtain ⟨k, hk, h1, h2⟩ := ih (2 * q) (e + 1) (by omega) hp
      refine ⟨k + 1, ?_, ?_, ?_⟩
      · rw [hk]
        have : 2 * q * 2 ^ k = q * 2 ^ (k + 1) := by rw [pow_succ]; ring
        rw [this]
        congr 1
        push_cast
        ring
      · have : 2 * q * 2 ^ k = q * 2 ^ (k + 1) := by rw [pow_succ]; ring
        rw [← this]; exact h1
      · intro _
        have : 2 * q * 2 ^ k = q * 2 ^ (k + 1) := by rw [pow_succ]; ring
        rw [← this]
        by_cases hk0 : k = 0
        · subst hk0
          simp only [pow_zero, Nat.mul_one]
          omega
        · exact h2 (by omega)
    · rw [if_neg hc]
      refine ⟨0, by simp, ?_, by simp⟩
      simp only [pow_zero, Nat.mul_one]
      omega

theorem scaleNum_spec (fuel q : Nat) : ∀ (p : Nat) (e : Int), 0 < p → p < 2 ^ 24 * q →
    2 ^ 23 * q ≤ p * 2 ^ fuel →
    ∃ k : Nat, scaleNum fuel p q e = (p * 2 ^ k, e - k) ∧ 2 ^ 23 * q ≤ p * 2 ^ k ∧
      p * 2 ^ k < 2 ^ 24 * q := by
  induction fuel with
  | zero =>
    intro p e hp hlt hf
    refine ⟨0, by simp [scaleNum], ?_, ?_⟩
    · simpa using hf
    · simpa using hlt
  | succ fuel ih =>
    intro p e hp hlt hf
    simp only [scaleNum]
    by_cases hc : p < 2 ^ 23 * q
    · rw [if_pos hc]
      have hp2 : p * 2 ^ (fuel + 1) = 2 * p * 2 ^ fuel := by rw [pow_succ]; ring
      rw [hp2] at hf
      obtain ⟨k, hk, h1, h2⟩ := ih (2 * p) (e - 1) (by omega) (by omega) hf
      have hpk : 2 * p * 2 ^ k = p * 2 ^ (k + 1) := by rw [pow_succ]; ring
      refine ⟨k + 1, ?_, ?_, ?_⟩
      · rw [hk, hpk]
        congr 1
        push_cast
        ring
      · rw [← hpk]; exact h1
      · rw [← hpk]; exact h2
    · rw [if_neg hc]
      refine ⟨0, by simp, ?_, ?_⟩
      · simp only [pow_zero, Nat.mul_one]; omega
      · simpa using hlt

theorem roundCore (P Q : Nat) (hQ : 0 < Q) (hge : 2 ^ 23 * Q ≤ P) :
    |(((if Q < 2 * (P % Q) ∨ (2 * (P % Q) = Q ∧ P / Q % 2 = 1) then P / Q + 1 else P / Q : Nat)
        : ℚ)) - (P : ℚ) / (Q : ℚ)| ≤ (P : ℚ) / (Q : ℚ) / 2 ^ 24 := by
  have hQq : (0 : ℚ) < (Q : ℚ) := by exact_mod_cast hQ
  have hP : (P : ℚ) = (Q : ℚ) * ((P / Q : Nat) : ℚ) + ((P % Q : Nat) : ℚ) := by
    exact_mod_cast (Nat.div_add_mod P Q).symm
  have hx : (P : ℚ) / (Q : ℚ) = ((P / Q : Nat) : ℚ) + ((P % Q : Nat) : ℚ) / (Q : ℚ) := by
    rw [div_eq_iff (ne_of_gt hQq), add_mul, div_mul_cancel₀ _ (ne_of_gt hQq)]
    linarith
  have hbig : (2 : ℚ) ^ 23 ≤ (P : ℚ) / (Q : ℚ) := by
    rw [le_div_iff₀ hQq]
    exact_mod_cast hge
  have hr0 : (0 : ℚ) ≤ ((P % Q : Nat) : ℚ) / (Q : ℚ) := by positivity
  have hhalf : (P : ℚ) / (Q : ℚ) / 2 ^ 24 ≥ 1 / 2 := by
    have : (P : ℚ) / (Q : ℚ) / 2 ^ 24 ≥ 2 ^ 23 / 2 ^ 24 := by
      apply div_le_div_of_nonneg_right hbig (by positivity)
    norm_num at this ⊢
    linarith
  split
  · rename_i hc
    have h2 : (Q : ℚ) ≤ 2 * ((P % Q : Nat) : ℚ) := by
      rcases hc with hc | hc
      · exact_mod_cast le_of_lt hc
      · exact_mod_cast le_of_eq hc.1.symm
    have hrq : (1 : ℚ) / 2 ≤ ((P % Q : Nat) : ℚ) / (Q : ℚ) := by
      rw [le_div_iff₀ hQq]; linarith
    have hrlt : ((P % Q : Nat) : ℚ) / (Q : ℚ) ≤ 1 := by
      rw [div_le_one hQq]
      exact_mod_cast le_of_lt (Nat.mod_lt P hQ)
    rw [hx, abs_le]
    push_cast
    constructor <;> linarith
  · rename_i hc
    have h2 : 2 * ((P % Q : Nat) : ℚ) ≤ (Q : ℚ) := by
      have : 2 * (P % Q) ≤ Q := by
        by_contra h
        exact hc (Or.inl (by omega))
      exact_mod_cast this
    have hrq : ((P % Q : Nat) : ℚ) / (Q : ℚ) ≤ 1 / 2 := by
      rw [div_le_iff₀ hQq]; linarith
    rw [hx, abs_le]
    constructor <;> linarith

theorem roundNat_form (p q : Nat) (hp : 0 < p) (hq : 0 < q) :
    ∃ k1 k2 : Nat,
      roundNat p q
        = ((if q * 2 ^ k1 < 2 * (p * 2 ^ k2 % (q * 2 ^ k1)) ∨
              (2 * (p * 2 ^ k2 % (q * 2 ^ k1)) = q * 2 ^ k1 ∧
                p * 2 ^ k2 / (q * 2 ^ k1) % 2 = 1)
            then p * 2 ^ k2 / (q * 2 ^ k1) + 1 else p * 2 ^ k2 / (q * 2 ^ k1)),
           (k1 : Int) - k2) ∧
      2 ^ 23 * (q * 2 ^ k1) ≤ p * 2 ^ k2 ∧
      (0 < k1 → 2 ^ 23 * (q * 2 ^ k1) ≤ p) := by
  have hfuel1 : p < q * 2 ^ p := by
    have h1 : p < 2 ^ p := Nat.lt_two_pow p
    calc p < 2 ^ p := h1
      _ = 1 * 2 ^ p := by ring
      _ ≤ q * 2 ^ p := Nat.mul_le_mul_right _ hq
  obtain ⟨k1, hk1, hlt1, hge1⟩ := scaleDen_spec p p q 0 hq hfuel1
  have hfuel2 : 2 ^ 23 * (q * 2 ^ k1) ≤ p * 2 ^ (q + 24) := by
    by_cases hk : k1 = 0
    · subst hk
      simp only [pow_zero, Nat.mul_one]
      have h1 : q < 2 ^ q := Nat.lt_two_pow q
      have h2 : 2 ^ (q + 24) = 2 ^ q * 2 ^ 24 := by rw [pow_add]
      rw [h2]
      calc 2 ^ 23 * q ≤ 2 ^ 24 * 2 ^ q := by
            apply Nat.mul_le_mul (by norm_num) (le_of_lt h1)
        _ = 1 * (2 ^ q * 2 ^ 24) := by ring
        _ ≤ p * (2 ^ q * 2 ^ 24) := Nat.mul_le_mul_right _ hp
    · calc 2 ^ 23 * (q * 2 ^ k1) ≤ p := hge1 (by omega)
        _ = p * 1 := by ring
        _ ≤ p * 2 ^ (q + 24) := Nat.mul_le_mul_left _ (Nat.one_le_two_pow)
  obtain ⟨k2, hk2, hge2, hlt2⟩ := scaleNum_spec (q + 24) (q * 2 ^ k1) p (0 + k1) hp hlt1 hfuel2
  refine ⟨k1, k2, ?_, hge2, hge1⟩
  rw [zero_add] at hk1 hk2
  unfold roundNat
  rw [if_neg (by omega)]
  simp only [hk1, hk2]
  split <;> rename_i hc <;> simp [hc]

theorem roundNat_spec (p q : Nat) (hp : 0 < p) (hq : 0 < q) :
    |((roundNat p q).1 : ℚ) * (2 : ℚ) ^ (roundNat p q).2 - (p : ℚ) / (q : ℚ)|
      ≤ (p : ℚ) / (q : ℚ) / 2 ^ 24 := by
  obtain ⟨k1, k2, hround, hge2, _⟩ := roundNat_form p q hp hq
  have hQpos : 0 < q * 2 ^ k1 := Nat.mul_pos hq (by positivity)
  have hcore := roundCore (p * 2 ^ k2) (q * 2 ^ k1) hQpos hge2
  have hE : (0 : ℚ) < (2 : ℚ) ^ ((k1 : Int) - k2) := by positivity
  have hval : (p : ℚ) / (q : ℚ)
      = ((p * 2 ^ k2 : Nat) : ℚ) / ((q * 2 ^ k1 : Nat) : ℚ) * (2 : ℚ) ^ ((k1 : Int) - k2) := by
    have hq' : (q : ℚ) ≠ 0 := by exact_mod_cast (ne_of_gt hq)
    rw [zpow_sub₀ (by norm_num : (2 : ℚ) ≠ 0), zpow_natCast, zpow_natCast]
    push_cast
    field_simp
    ring
  rw [hround]
  simp only
  rw [hval, ← sub_mul, abs_mul, abs_of_pos hE, mul_div_right_comm]
  exact mul_le_mul_of_nonneg_right hcore (le_of_lt hE)

/-- An integer below `2 ^ 24` is a `float`: its conversion is exact. -/
theorem roundNat_exact (p : Nat) (hp : 0 < p) (hlt : p < 2 ^ 24) :
    ((roundNat p 1).1 : ℚ) * (2 : ℚ) ^ (roundNat p 1).2 = (p : ℚ) := by
  obtain ⟨k1, k2, hround, _, hge1⟩ := roundNat_form p 1 hp (by norm_num)
  have hk1 : k1 = 0 := by
    by_contra h
    have h1 := hge1 (by omega)
    have h2 : 2 ^ 1 ≤ 2 ^ k1 := Nat.pow_le_pow_right (by norm_num) (by omega)
    have h3 : 2 ^ 23 * (1 * 2 ^ 1) ≤ 2 ^ 23 * (1 * 2 ^ k1) :=
      Nat.mul_le_mul_left _ (Nat.mul_le_mul_left _ h2)
    norm_num at h3
    omega
  subst hk1
  rw [hround]
  simp only [pow_zero, Nat.mul_one, Nat.mod_one, Nat.mul_zero, Nat.lt_irrefl, Nat.div_one,
    zero_ne_one, false_and, or_self, if_false, Nat.cast_zero, zero_sub]
  rw [zpow_neg, zpow_natCast]
  push_cast
  field_simp

theorem F32.val_ofRatio (num : Int) (den : Nat) (hden : 0 < den) :
    |(F32.ofRatio num den).val - (num : ℚ) / (den : ℚ)| ≤ |(num : ℚ) / (den : ℚ)| / 2 ^ 24 := by
  have hdq : (0 : ℚ) < (den : ℚ) := by exact_mod_cast hden
  rcases lt_trichotomy num 0 with hneg | hzero | hpos
  · have hp : 0 < num.natAbs := Int.natAbs_pos.2 (ne_of_lt hneg)
    have hspec := roundNat_spec num.natAbs den hp hden
    have hcast : ((num.natAbs : Nat) : ℚ) = -(num : ℚ) := by
      have h1 : ((num.natAbs : Nat) : Int) = -num := by omega
      rw [← Int.cast_natCast, h1, Int.cast_neg]
    have hval : (F32.ofRatio num den).val
        = -(((roundNat num.natAbs den).1 : ℚ) * (2 : ℚ) ^ (roundNat num.natAbs den).2) := by
      simp only [F32.ofRatio, F32.val, if_pos hneg]
      push_cast
      ring
    rw [hval]
    rw [hcast] at hspec
    have hq : (num : ℚ) / (den : ℚ) < 0 := by
      apply div_neg_of_neg_of_pos _ hdq
      exact_mod_cast hneg
    rw [abs_of_neg hq]
    rw [neg_div] at hspec
    rw [abs_le] at hspec ⊢
    constructor <;> linarith [hspec.1, hspec.2]
  · subst hzero
    simp [F32.ofRatio, F32.val, roundNat]
  · have hp : 0 < num.natAbs := Int.natAbs_pos.2 (ne_of_gt hpos)
    have hspec := roundNat_spec num.natAbs den hp hden
    have hcast : ((num.natAbs : Nat) : ℚ) = (num : ℚ) := by
      have h1 : ((num.natAbs : Nat) : Int) = num := by omega
      rw [← Int.cast_natCast, h1]
    have hval : (F32.ofRatio num den).val
        = ((roundNat num.natAbs den).1 : ℚ) * (2 : ℚ) ^ (roundNat num.natAbs den).2 := by
      simp only [F32.ofRatio, F32.val, if_neg (not_lt.2 (le_of_lt hpos))]
      push_cast
      ring
    rw [hval]
    rw [hcast] at hspec
    have hq : 0 < (num : ℚ) / (den : ℚ) := by
      apply div_pos _ hdq
      exact_mod_cast hpos
    rw [abs_of_pos hq]
    exact hspec

theorem F32.val_ofInt (n : Int) (h1 : 0 < n) (h2 : n < 2 ^ 24) :
    (F32.ofInt n).val = (n : ℚ) := by
  have hp : 0 < n.natAbs := Int.natAbs_pos.2 (ne_of_gt h1)
  have hlt : n.natAbs < 2 ^ 24 := by omega
  have hex := roundNat_exact n.natAbs hp hlt
  have hcast : ((n.natAbs : Nat) : ℚ) = (n : ℚ) := by
    have h1 : ((n.natAbs : Nat) : Int) = n := by omega
    rw [← Int.cast_natCast, h1]
  simp only [F32.ofInt, F32.ofRatio, F32.val, if_neg (not_lt.2 (le_of_lt h1))]
  rw [← hcast, ← hex]
  push_cast
  ring

theorem two_pow_toNat (z : Int) (hz : 0 ≤ z) : (2 : ℚ) ^ z.toNat = (2 : ℚ) ^ z := by
  rw [← zpow_natCast, Int.toNat_of_nonneg hz]

theorem natAbs_cast_eq (z : Int) : ((z.natAbs : Nat) : ℚ) = (if z < 0 then -1 else 1) * (z : ℚ) := by
  split
  · rename_i h
    have h1 : ((z.natAbs : Nat) : Int) = -z := by omega
    rw [← Int.cast_natCast, h1, Int.cast_neg]; ring
  · rename_i h
    have h1 : ((z.natAbs : Nat) : Int) = z := by omega
    rw [← Int.cast_natCast, h1]; ring

theorem F32.val_div (a b : F32) (hb : b.m ≠ 0) :
    |(F32.div a b).val - a.val / b.val| ≤ |a.val / b.val| / 2 ^ 24 := by
  have hden : 0 < b.m.natAbs := Int.natAbs_pos.2 hb
  have hbq : (b.m : ℚ) ≠ 0 := by exact_mod_cast hb
  have h2 : ∀ z : Int, (2 : ℚ) ^ z ≠ 0 := fun z => zpow_ne_zero z (by norm_num)
  unfold F32.div
  simp only
  split
  · rename_i hle
    have hden2 := hden
    have key : (((if b.m < 0 then -1 else 1) * a.m * 2 ^ (a.e - b.e).toNat : Int) : ℚ)
        / ((b.m.natAbs : Nat) : ℚ) = a.val / b.val := by
      rw [natAbs_cast_eq]
      simp only [F32.val]
      push_cast
      rw [two_pow_toNat _ (by omega), zpow_sub₀ (by norm_num : (2 : ℚ) ≠ 0)]
      have hb2 := h2 b.e
      split
      · rw [div_eq_div_iff (by simpa using hbq) (mul_ne_zero hbq hb2)]
        field_simp
        ring
      · rw [div_eq_div_iff (by simpa using hbq) (mul_ne_zero hbq hb2)]
        field_simp
        ring
    rw [← key]
    exact F32.val_ofRatio _ _ hden
  · rename_i hle
    have hpos : 0 < b.m.natAbs * 2 ^ (b.e - a.e).toNat := Nat.mul_pos hden (by positivity)
    have key : (((if b.m < 0 then -1 else 1) * a.m : Int) : ℚ)
        / ((b.m.natAbs * 2 ^ (b.e - a.e).toNat : Nat) : ℚ) = a.val / b.val := by
      push_cast
      rw [natAbs_cast_eq]
      simp only [F32.val]
      rw [two_pow_toNat _ (by omega), zpow_sub₀ (by norm_num : (2 : ℚ) ≠ 0)]
      have hb2 := h2 b.e
      have ha2 := h2 a.e
      split
      · rw [div_eq_div_iff (mul_ne_zero (by simpa using hbq) (div_ne_zero hb2 ha2))
          (mul_ne_zero hbq hb2)]
        field_simp
        ring
      · rw [div_eq_div_iff (mul_ne_zero (by simpa using hbq) (div_ne_zero hb2 ha2))
          (mul_ne_zero hbq hb2)]
        field_simp
        ring
    rw [← key]
    exact F32.val_ofRatio _ _ hpos

theorem F32.val_ofDyadic (m e : Int) :
    |(F32.ofDyadic m e).val - (m : ℚ) * (2 : ℚ) ^ e| ≤ |(m : ℚ) * (2 : ℚ) ^ e| / 2 ^ 24 := by
  unfold F32.ofDyadic
  split
  · rename_i he
    have key : ((m * 2 ^ e.toNat : Int) : ℚ) / ((1 : Nat) : ℚ) = (m : ℚ) * (2 : ℚ) ^ e := by
      push_cast
      rw [two_pow_toNat _ he]
      simp
    rw [← key]
    exact F32.val_ofRatio _ _ (by norm_num)
  · rename_i he
    have key : (m : ℚ) / ((2 ^ (-e).toNat : Nat) : ℚ) = (m : ℚ) * (2 : ℚ) ^ e := by
      push_cast
      rw [two_pow_toNat _ (by omega), zpow_neg]
      field_simp
    rw [← key]
    exact F32.val_ofRatio _ _ (by positivity)

theorem F32.val_mul (a b : F32) :
    |(F32.mul a b).val - a.val * b.val| ≤ |a.val * b.val| / 2 ^ 24 := by
  have key : ((a.m * b.m : Int) : ℚ) * (2 : ℚ) ^ (a.e + b.e) = a.val * b.val := by
    simp only [F32.val]
    push_cast
    rw [zpow_add₀ (by norm_num : (2 : ℚ) ≠ 0)]
    ring
  rw [← key]
  exact F32.val_ofDyadic _ _

theorem shift_min (m e e0 : Int) (h : e0 ≤ e) :
    ((m * 2 ^ (e - e0).toNat : Int) : ℚ) * (2 : ℚ) ^ e0 = (m : ℚ) * (2 : ℚ) ^ e := by
  push_cast
  rw [two_pow_toNat _ (by omega), zpow_sub₀ (by norm_num : (2 : ℚ) ≠ 0)]
  have : (2 : ℚ) ^ e0 ≠ 0 := zpow_ne_zero e0 (by norm_num)
  field_simp

theorem F32.val_sub (a b : F32) :
    |(F32.sub a b).val - (a.val - b.val)| ≤ |a.val - b.val| / 2 ^ 24 := by
  have key : ((a.m * 2 ^ (a.e - min a.e b.e).toNat - b.m * 2 ^ (b.e - min a.e b.e).toNat : Int)
      : ℚ) * (2 : ℚ) ^ (min a.e b.e) = a.val - b.val := by
    simp only [F32.val]
    rw [← shift_min a.m a.e (min a.e b.e) (min_le_left _ _),
      ← shift_min b.m b.e (min a.e b.e) (min_le_right _ _)]
    push_cast
    ring
  rw [← key]
  exact F32.val_ofDyadic _ _

theorem F32.lt_iff (a b : F32) : F32.lt a b = true ↔ a.val < b.val := by
  have hpos : (0 : ℚ) < (2 : ℚ) ^ (min a.e b.e) := by positivity
  simp only [F32.lt, decide_eq_true_eq, F32.val]
  rw [← shift_min a.m a.e (min a.e b.e) (min_le_left _ _),
    ← shift_min b.m b.e (min a.e b.e) (min_le_right _ _)]
  rw [mul_lt_mul_right hpos]
  exact Int.cast_lt.symm

theorem roundHalfAway_eq (num : Int) (den : Nat) (hden : 0 < den) :
    roundHalfAway num den = roundHalfAwayQ ((num : ℚ) / (den : ℚ)) := by
  have hdq : (0 : ℚ) < (den : ℚ) := by exact_mod_cast hden
  have hfl : ∀ n : Nat,
      ⌊((n : ℚ)) / (den : ℚ) + 1 / 2⌋ = (((2 * n + den) / (2 * den) : Nat) : Int) := by
    intro n
    have : ((n : ℚ)) / (den : ℚ) + 1 / 2
        = (((2 * n + den : Nat)) : ℚ) / (((2 * den : Nat)) : ℚ) := by
      push_cast
      field_simp
      ring
    rw [this, Rat.floor_natCast_div_natCast]
    norm_cast
  unfold roundHalfAway roundHalfAwayQ
  by_cases hneg : num < 0
  · have hq : ¬ (0 : ℚ) ≤ (num : ℚ) / (den : ℚ) := by
      rw [not_le]
      apply div_neg_of_neg_of_pos _ hdq
      exact_mod_cast hneg
    rw [if_pos hneg, if_neg hq]
    have hc : ((num.natAbs : Nat) : ℚ) = -(num : ℚ) := by
      have h1 : ((num.natAbs : Nat) : Int) = -num := by omega
      rw [← Int.cast_natCast, h1, Int.cast_neg]
    have hcast : -((num : ℚ) / (den : ℚ)) = ((num.natAbs : Nat) : ℚ) / (den : ℚ) := by
      rw [hc, neg_div]
    rw [hcast, hfl]
  · have hq : (0 : ℚ) ≤ (num : ℚ) / (den : ℚ) := by
      apply div_nonneg _ (le_of_lt hdq)
      exact_mod_cast (not_lt.1 hneg)
    rw [if_neg hneg, if_pos hq]
    have hc : ((num.natAbs : Nat) : ℚ) = (num : ℚ) := by
      have h1 : ((num.natAbs : Nat) : Int) = num := by omega
      rw [← Int.cast_natCast, h1]
    rw [← hc, hfl]

theorem roundHalfAwayQ_intCast (z : Int) : roundHalfAwayQ (z : ℚ) = z := by
  unfold roundHalfAwayQ
  split
  · rw [Int.floor_eq_iff]
    constructor <;> linarith
  · have : ⌊-(z : ℚ) + 1 / 2⌋ = -z := by
      rw [Int.floor_eq_iff]
      push_cast
      constructor <;> linarith
    rw [this, neg_neg]

theorem F32.round_eq (a : F32) : F32.round a = roundHalfAwayQ a.val := by
  unfold F32.round
  split
  · rename_i he
    have : a.val = ((a.m * 2 ^ a.e.toNat : Int) : ℚ) := by
      simp only [F32.val]
      push_cast
      rw [two_pow_toNat _ he]
    rw [this, roundHalfAwayQ_intCast]
  · rename_i he
    have : a.val = (a.m : ℚ) / ((2 ^ (-a.e).toNat : Nat) : ℚ) := by
      simp only [F32.val]
      push_cast
      rw [two_pow_toNat _ (by omega), zpow_neg]
      field_simp
    rw [this]
    exact roundHalfAway_eq _ _ (by positivity)

/-! ## The placement is within one pixel of the exact formula -/

theorem abs_roundHalfAwayQ_sub_le (x : ℚ) : |((roundHalfAwayQ x : Int) : ℚ) - x| ≤ 1 / 2 := by
  unfold roundHalfAwayQ
  split
  · have h1 := Int.floor_le (x + 1 / 2)
    have h2 := Int.lt_floor_add_one (x + 1 / 2)
    rw [abs_le]
    constructor <;> linarith
  · have h1 := Int.floor_le (-x + 1 / 2)
    have h2 := Int.lt_floor_add_one (-x + 1 / 2)
    rw [abs_le]
    push_cast
    constructor <;> linarith

theorem roundHalfAwayQ_near (a b : ℚ) (h : |a - b| ≤ 1 / 32) :
    |roundHalfAwayQ a - roundHalfAwayQ b| ≤ 1 := by
  have ha := abs_le.1 (abs_roundHalfAwayQ_sub_le a)
  have hb := abs_le.1 (abs_roundHalfAwayQ_sub_le b)
  have hab := abs_le.1 h
  have h1 : ((roundHalfAwayQ a - roundHalfAwayQ b : Int) : ℚ) < 2 := by
    push_cast; linarith [ha.1, ha.2, hb.1, hb.2, hab.1, hab.2]
  have h2 : (-2 : ℚ) < ((roundHalfAwayQ a - roundHalfAwayQ b : Int) : ℚ) := by
    push_cast; linarith [ha.1, ha.2, hb.1, hb.2, hab.1, hab.2]
  have h3 : roundHalfAwayQ a - roundHalfAwayQ b < 2 := by exact_mod_cast h1
  have h4 : -2 < roundHalfAwayQ a - roundHalfAwayQ b := by exact_mod_cast h2
  rw [abs_le]
  constructor <;> omega

theorem roundHalfAwayQ_small (a : ℚ) (h : |a| ≤ 1 / 16) : roundHalfAwayQ a = 0 := by
  have ha := abs_le.1 (abs_roundHalfAwayQ_sub_le a)
  have hab := abs_le.1 h
  have h1 : ((roundHalfAwayQ a : Int) : ℚ) < 1 := by linarith [ha.1, ha.2, hab.1, hab.2]
  have h2 : (-1 : ℚ) < ((roundHalfAwayQ a : Int) : ℚ) := by
    linarith [ha.1, ha.2, hab.1, hab.2]
  have h3 : roundHalfAwayQ a < 1 := by exact_mod_cast h1
  have h4 : -1 < roundHalfAwayQ a := by exact_mod_cast h2
  omega

/-- The error analysis of lines 96-99 (the image is the wider one). -/
theorem wide_analysis (sw sh ρ σ r s q1 d1 h1 : ℚ)
    (hsw1 : 1 ≤ sw) (hsh1 : 1 ≤ sh) (hswN : sw ≤ 65536) (hshN : sh ≤ 65536)
    (hρ : 0 < ρ) (hσ : σ * sh = sw)
    (hr : |r - ρ| ≤ |ρ| / 2 ^ 24) (hs : |s - σ| ≤ |σ| / 2 ^ 24) (hlt : s < r)
    (hq1 : |q1 - sw / r| ≤ |sw / r| / 2 ^ 24)
    (hd1 : |d1 - (sh - q1)| ≤ |sh - q1| / 2 ^ 24)
    (hh1 : |h1 - d1 / 2| ≤ |d1 / 2| / 2 ^ 24) :
    |h1 - (sh - sw / ρ) / 2| ≤ 1 / 32 ∧
      (ρ ≤ σ → |h1| ≤ 1 / 16 ∧ |(sw - sh * ρ) / 2| ≤ 1 / 16) := by
  have hσ0 : 0 < σ := by
    by_contra hn
    have : σ * sh ≤ 0 := mul_nonpos_of_nonpos_of_nonneg (not_lt.1 hn) (by linarith)
    linarith
  rw [abs_of_pos hρ] at hr
  rw [abs_of_pos hσ0] at hs
  have hr' := abs_le.1 hr
  have hs' := abs_le.1 hs
  norm_num at hr' hs'
  have hr0 : 0 < r := by linarith [hr'.1]
  -- T = sw / r and Z = sw / ρ
  obtain ⟨T, hTdef⟩ : ∃ T, T = sw / r := ⟨_, rfl⟩
  obtain ⟨Z, hZdef⟩ : ∃ Z, Z = sw / ρ := ⟨_, rfl⟩
  have hT : T * r = sw := by rw [hTdef]; field_simp
  have hZ : Z * ρ = sw := by rw [hZdef]; field_simp
  have hT0 : 0 < T := by rw [hTdef]; positivity
  have hZ0 : 0 < Z := by rw [hZdef]; positivity
  rw [← hTdef] at hq1
  rw [← hZdef]
  rw [abs_of_pos hT0] at hq1
  have hq1' := abs_le.1 hq1
  norm_num at hq1'
  -- the bound on T
  have hTb : T * (1 - 1 / 16777216) < sh := by
    have h1 : T * (σ * (1 - 1 / 16777216)) < T * r :=
      mul_lt_mul_of_pos_left (by linarith [hs'.1]) hT0
    rw [hT, ← hσ] at h1
    have h2 : (T * (1 - 1 / 16777216)) * σ < sh * σ := by linarith
    exact lt_of_mul_lt_mul_right h2 (le_of_lt hσ0)
  have hTN : T ≤ 65537 := by linarith
  -- the distance between T and Z
  have hTZ : |T - Z| ≤ T / 16777216 := by
    have h1 : (T - Z) * r = Z * (ρ - r) := by linear_combination hT - hZ
    have h2 : |T - Z| * r = Z * |ρ - r| := by
      rw [← abs_of_pos hr0, ← abs_mul, h1, abs_mul, abs_of_pos hZ0, abs_of_pos hr0]
    have h3 : |ρ - r| ≤ ρ / 16777216 := by
      rw [abs_le]; constructor <;> linarith [hr'.1, hr'.2]
    have h4 : |T - Z| * r ≤ T / 16777216 * r := by
      rw [h2]
      calc Z * |ρ - r| ≤ Z * (ρ / 16777216) := mul_le_mul_of_nonneg_left h3 (le_of_lt hZ0)
        _ = T / 16777216 * r := by linear_combination (1 / 16777216 : ℚ) * (hZ - hT)
    exact le_of_mul_le_mul_right h4 hr0
  have hTZ' := abs_le.1 hTZ
  -- the subtraction and the halving
  have hd1b : |sh - q1| ≤ 131075 := by
    rw [abs_le]; constructor <;> linarith [hq1'.1, hq1'.2]
  have hd1' := abs_le.1 (le_trans hd1 (div_le_div_of_nonneg_right hd1b (by norm_num)))
  norm_num at hd1'
  have hd1c : |d1 / 2| ≤ 65538 := by
    have := abs_le.1 hd1b
    rw [abs_le]; constructor <;> linarith [hd1'.1, hd1'.2, this.1, this.2]
  have hh1' := abs_le.1 (le_trans hh1 (div_le_div_of_nonneg_right hd1c (by norm_num)))
  norm_num at hh1'
  have hmain : |h1 - (sh - Z) / 2| ≤ 1 / 32 := by
    rw [abs_le]
    constructor <;>
      linarith [hh1'.1, hh1'.2, hd1'.1, hd1'.2, hq1'.1, hq1'.2, hTZ'.1, hTZ'.2]
  refine ⟨hmain, ?_⟩
  intro hle
  -- the ratios are within rounding of each other
  have hclose : σ * (1 - 1 / 16777216) < ρ * (1 + 1 / 16777216) := by
    linarith [hs'.1, hr'.2]
  have hZlo : sh ≤ Z := by
    have h1 : ρ * sh ≤ σ * sh := mul_le_mul_of_nonneg_right hle (by linarith)
    rw [hσ, ← hZ] at h1
    have h2 : sh * ρ ≤ Z * ρ := by linarith
    exact le_of_mul_le_mul_right h2 hρ
  have hZhi : Z * (1 - 1 / 16777216) < sh * (1 + 1 / 16777216) := by
    have h1 : σ * (1 - 1 / 16777216) * sh < ρ * (1 + 1 / 16777216) * sh :=
      mul_lt_mul_of_pos_right hclose (by linarith)
    have h2 : Z * (1 - 1 / 16777216) * ρ < sh * (1 + 1 / 16777216) * ρ := by
      have : σ * (1 - 1 / 16777216) * sh = Z * (1 - 1 / 16777216) * ρ := by
        linear_combination (1 - 1 / 16777216 : ℚ) * (hσ - hZ)
      linarith
    exact lt_of_mul_lt_mul_right h2 (le_of_lt hρ)
  have hZN : Z ≤ 65537 := by linarith
  have hA : |(sh - Z) / 2| ≤ 1 / 64 := by
    rw [abs_le]; constructor <;> linarith
  have hmain' := abs_le.1 hmain
  have hA' := abs_le.1 hA
  constructor
  · rw [abs_le]; constructor <;> linarith [hmain'.1, hmain'.2, hA'.1, hA'.2]
  · have hX : sh * ρ ≤ sw := by
      calc sh * ρ = ρ * sh := by ring
        _ ≤ σ * sh := mul_le_mul_of_nonneg_right hle (by linarith)
        _ = sw := hσ
    have hX2 : sw * (1 - 1 / 16777216) < sh * ρ * (1 + 1 / 16777216) := by
      have h1 : σ * (1 - 1 / 16777216) * sh < ρ * (1 + 1 / 16777216) * sh :=
        mul_lt_mul_of_pos_right hclose (by linarith)
      have : σ * (1 - 1 / 16777216) * sh = sw * (1 - 1 / 16777216) := by
        linear_combination (1 - 1 / 16777216 : ℚ) * hσ
      linarith
    rw [abs_le]; constructor <;> linarith

/-- The error analysis of lines 100-103 (the image is the taller one). -/
theorem tall_analysis (sw sh ρ σ r s p1 d2 h2 : ℚ)
    (hsw1 : 1 ≤ sw) (hsh1 : 1 ≤ sh) (hswN : sw ≤ 65536) (hshN : sh ≤ 65536)
    (hρ : 0 < ρ) (hσ : σ * sh = sw)
    (hr : |r - ρ| ≤ |ρ| / 2 ^ 24) (hs : |s - σ| ≤ |σ| / 2 ^ 24) (hle : r ≤ s)
    (hp1 : |p1 - sh * r| ≤ |sh * r| / 2 ^ 24)
    (hd2 : |d2 - (sw - p1)| ≤ |sw - p1| / 2 ^ 24)
    (hh2 : |h2 - d2 / 2| ≤ |d2 / 2| / 2 ^ 24) :
    |h2 - (sw - sh * ρ) / 2| ≤ 1 / 32 ∧
      (σ < ρ → |h2| ≤ 1 / 16 ∧ |(sh - sw / ρ) / 2| ≤ 1 / 16) := by
  have hσ0 : 0 < σ := by
    by_contra hn
    have : σ * sh ≤ 0 := mul_nonpos_of_nonpos_of_nonneg (not_lt.1 hn) (by linarith)
    linarith
  rw [abs_of_pos hρ] at hr
  rw [abs_of_pos hσ0] at hs
  have hr' := abs_le.1 hr
  have hs' := abs_le.1 hs
  norm_num at hr' hs'
  have hr0 : 0 < r := by linarith [hr'.1]
  have hsh0 : 0 < sh := by linarith
  obtain ⟨P, hPdef⟩ : ∃ P, P = sh * r := ⟨_, rfl⟩
  obtain ⟨X, hXdef⟩ : ∃ X, X = sh * ρ := ⟨_, rfl⟩
  have hP0 : 0 < P := by rw [hPdef]; positivity
  have hX0 : 0 < X := by rw [hXdef]; positivity
  rw [← hPdef] at hp1
  rw [← hXdef]
  rw [abs_of_pos hP0] at hp1
  have hp1' := abs_le.1 hp1
  norm_num at hp1'
  -- P is at most sw (1 + u)
  have hPb : P ≤ sw * (1 + 1 / 16777216) := by
    have h1 : sh * r ≤ sh * (σ * (1 + 1 / 16777216)) :=
      mul_le_mul_of_nonneg_left (by linarith [hs'.2]) (le_of_lt hsh0)
    rw [hPdef]
    calc sh * r ≤ sh * (σ * (1 + 1 / 16777216)) := h1
      _ = sw * (1 + 1 / 16777216) := by linear_combination (1 + 1 / 16777216 : ℚ) * hσ
  have hPN : P ≤ 65537 := by linarith
  -- X is within rounding of P
  have hPX1 : X * (1 - 1 / 16777216) ≤ P := by
    rw [hXdef, hPdef]
    have : sh * (ρ * (1 - 1 / 16777216)) ≤ sh * r :=
      mul_le_mul_of_nonneg_left (by linarith [hr'.1]) (le_of_lt hsh0)
    linarith
  have hPX2 : P ≤ X * (1 + 1 / 16777216) := by
    rw [hXdef, hPdef]
    have : sh * r ≤ sh * (ρ * (1 + 1 / 16777216)) :=
      mul_le_mul_of_nonneg_left (by linarith [hr'.2]) (le_of_lt hsh0)
    linarith
  have hXN : X ≤ 65538 := by linarith
  have hd2b : |sw - p1| ≤ 131075 := by
    rw [abs_le]; constructor <;> linarith [hp1'.1, hp1'.2]
  have hd2' := abs_le.1 (le_trans hd2 (div_le_div_of_nonneg_right hd2b (by norm_num)))
  norm_num at hd2'
  have hd2c : |d2 / 2| ≤ 65538 := by
    have := abs_le.1 hd2b
    rw [abs_le]; constructor <;> linarith [hd2'.1, hd2'.2, this.1, this.2]
  have hh2' := abs_le.1 (le_trans hh2 (div_le_div_of_nonneg_right hd2c (by norm_num)))
  norm_num at hh2'
  have hmain : |h2 - (sw - X) / 2| ≤ 1 / 32 := by
    rw [abs_le]
    constructor <;>
      linarith [hh2'.1, hh2'.2, hd2'.1, hd2'.2, hp1'.1, hp1'.2]
  refine ⟨hmain, ?_⟩
  intro hlt
  have hclose : ρ * (1 - 1 / 16777216) ≤ σ * (1 + 1 / 16777216) := by
    linarith [hs'.2, hr'.1]
  have hXlo : sw < X := by
    rw [hXdef, ← hσ]
    have : σ * sh < ρ * sh := mul_lt_mul_of_pos_right hlt hsh0
    linarith
  have hXhi : X * (1 - 1 / 16777216) ≤ sw * (1 + 1 / 16777216) := by
    have h1 : ρ * (1 - 1 / 16777216) * sh ≤ σ * (1 + 1 / 16777216) * sh :=
      mul_le_mul_of_nonneg_right hclose (le_of_lt hsh0)
    rw [hXdef]
    have : σ * (1 + 1 / 16777216) * sh = sw * (1 + 1 / 16777216) := by
      linear_combination (1 + 1 / 16777216 : ℚ) * hσ
    linarith
  have hB : |(sw - X) / 2| ≤ 1 / 64 := by
    rw [abs_le]; constructor <;> linarith
  have hmain' := abs_le.1 hmain
  have hB' := abs_le.1 hB
  constructor
  · rw [abs_le]; constructor <;> linarith [hmain'.1, hmain'.2, hB'.1, hB'.2]
  · obtain ⟨Z, hZdef⟩ : ∃ Z, Z = sw / ρ := ⟨_, rfl⟩
    have hZ : Z * ρ = sw := by rw [hZdef]; field_simp
    have hZ0 : 0 < Z := by rw [hZdef]; positivity
    rw [← hZdef]
    have hZhi : Z < sh := by
      have h1 : σ * sh < ρ * sh := mul_lt_mul_of_pos_right hlt hsh0
      rw [hσ, ← hZ] at h1
      have h2 : Z * ρ < sh * ρ := by linarith
      exact lt_of_mul_lt_mul_right h2 (le_of_lt hρ)
    have hZlo : sh * (1 - 1 / 16777216) ≤ Z * (1 + 1 / 16777216) := by
      have h1 : Z * (ρ * (1 - 1 / 16777216)) ≤ Z * (σ * (1 + 1 / 16777216)) :=
        mul_le_mul_of_nonneg_left hclose (le_of_lt hZ0)
      have h2 : sh * (1 - 1 / 16777216) * σ ≤ Z * (1 + 1 / 16777216) * σ := by
        have : Z * (ρ * (1 - 1 / 16777216)) = sh * (1 - 1 / 16777216) * σ := by
          linear_combination (1 - 1 / 16777216 : ℚ) * (hZ - hσ)
        linarith
      exact le_of_mul_le_mul_right h2 hσ0
    rw [abs_le]; constructor <;> linarith

theorem F32.m_ne_zero_of_val (a : F32) (h : a.val ≠ 0) : a.m ≠ 0 := by
  intro hm
  apply h
  simp [F32.val, hm]

/-- For bitmap and screen dimensions between 1 and 65536, the placement of an oversized
image computed in single precision differs from the placement computed with exact ratios by
at most one pixel on each axis. -/
theorem layout_near_layoutReal (iw ih sw sh : Int)
    (hiw : 0 < iw) (hih : 0 < ih) (hsw : 0 < sw) (hsh : 0 < sh)
    (hiwN : iw ≤ 65536) (hihN : ih ≤ 65536) (hswN : sw ≤ 65536) (hshN : sh ≤ 65536)
    (hover : iw > sw ∨ ih > sh) :
    |(layout iw ih sw sh).1 - (layoutReal iw ih sw sh).1| ≤ 1 ∧
      |(layout iw ih sw sh).2 - (layoutReal iw ih sw sh).2| ≤ 1 := by
  -- the converted integers are exact
  have viw := F32.val_ofInt iw hiw (by omega)
  have vih := F32.val_ofInt ih hih (by omega)
  have vsw := F32.val_ofInt sw hsw (by omega)
  have vsh := F32.val_ofInt sh hsh (by omega)
  have v2 := F32.val_ofInt 2 (by norm_num) (by norm_num)
  have qiw : (0 : ℚ) < (iw : ℚ) := by exact_mod_cast hiw
  have qih : (0 : ℚ) < (ih : ℚ) := by exact_mod_cast hih
  have qsw : (1 : ℚ) ≤ (sw : ℚ) := by exact_mod_cast hsw
  have qsh : (1 : ℚ) ≤ (sh : ℚ) := by exact_mod_cast hsh
  have qswN : (sw : ℚ) ≤ 65536 := by exact_mod_cast hswN
  have qshN : (sh : ℚ) ≤ 65536 := by exact_mod_cast hshN
  have hρ : (0 : ℚ) < (iw : ℚ) / (ih : ℚ) := div_pos qiw qih
  have hσ : (sw : ℚ) / (sh : ℚ) * (sh : ℚ) = (sw : ℚ) := by
    field_simp
  have mih : (F32.ofInt ih).m ≠ 0 :=
    F32.m_ne_zero_of_val _ (by rw [vih]; exact ne_of_gt qih)
  have msh : (F32.ofInt sh).m ≠ 0 :=
    F32.m_ne_zero_of_val _ (by rw [vsh]; linarith)
  have m2 : (F32.ofInt 2).m ≠ 0 :=
    F32.m_ne_zero_of_val _ (by rw [v2]; norm_num)
  -- the two ratios
  have hr := F32.val_div (F32.ofInt iw) (F32.ofInt ih) mih
  have hs := F32.val_div (F32.ofInt sw) (F32.ofInt sh) msh
  rw [viw, vih] at hr
  rw [vsw, vsh] at hs
  have hr0 : 0 < (F32.div (F32.ofInt iw) (F32.ofInt ih)).val := by
    have := abs_le.1 hr
    rw [abs_of_pos hρ] at this
    norm_num at this
    linarith [this.1]
  have mr : (F32.div (F32.ofInt iw) (F32.ofInt ih)).m ≠ 0 :=
    F32.m_ne_zero_of_val _ (ne_of_gt hr0)
  simp only [layout, if_pos hover, layoutReal]
  by_cases hlt : F32.lt (F32.div (F32.ofInt sw) (F32.ofInt sh))
      (F32.div (F32.ofInt iw) (F32.ofInt ih)) = true
  · rw [if_pos hlt]
    have hlt' := (F32.lt_iff _ _).1 hlt
    have hq1 := F32.val_div (F32.ofInt sw) (F32.div (F32.ofInt iw) (F32.ofInt ih)) mr
    have hd1 := F32.val_sub (F32.ofInt sh)
      (F32.div (F32.ofInt sw) (F32.div (F32.ofInt iw) (F32.ofInt ih)))
    have hh1 := F32.val_div (F32.sub (F32.ofInt sh)
      (F32.div (F32.ofInt sw) (F32.div (F32.ofInt iw) (F32.ofInt ih)))) (F32.ofInt 2) m2
    rw [vsw] at hq1
    rw [vsh] at hd1
    rw [v2] at hh1
    obtain ⟨hmain, hedge⟩ := wide_analysis _ _ _ _ _ _ _ _ _ qsw qsh qswN qshN hρ hσ hr hs hlt'
      hq1 hd1 hh1
    rw [F32.round_eq]
    by_cases hspec : (iw : ℚ) / (ih : ℚ) > (sw : ℚ) / (sh : ℚ)
    · rw [if_pos hspec]
      exact ⟨by simp, roundHalfAwayQ_near _ _ hmain⟩
    · rw [if_neg hspec]
      obtain ⟨e1, e2⟩ := hedge (not_lt.1 hspec)
      rw [roundHalfAwayQ_small _ e1, roundHalfAwayQ_small _ e2]
      simp
  · rw [if_neg hlt]
    have hle' : (F32.div (F32.ofInt iw) (F32.ofInt ih)).val
        ≤ (F32.div (F32.ofInt sw) (F32.ofInt sh)).val := by
      by_contra hcon
      exact hlt ((F32.lt_iff _ _).2 (not_le.1 hcon))
    have hp1 := F32.val_mul (F32.ofInt sh) (F32.div (F32.ofInt iw) (F32.ofInt ih))
    have hd2 := F32.val_sub (F32.ofInt sw)
      (F32.mul (F32.ofInt sh) (F32.div (F32.ofInt iw) (F32.ofInt ih)))
    have hh2 := F32.val_div (F32.sub (F32.ofInt sw)
      (F32.mul (F32.ofInt sh) (F32.div (F32.ofInt iw) (F32.ofInt ih)))) (F32.ofInt 2) m2
    rw [vsh] at hp1
    rw [vsw] at hd2
    rw [v2] at hh2
    obtain ⟨hmain, hedge⟩ := tall_analysis _ _ _ _ _ _ _ _ _ qsw qsh qswN qshN hρ hσ hr hs hle'
      hp1 hd2 hh2
    rw [F32.round_eq]
    by_cases hspec : (iw : ℚ) / (ih : ℚ) > (sw : ℚ) / (sh : ℚ)
    · rw [if_pos hspec]
      obtain ⟨e1, e2⟩ := hedge hspec
      rw [roundHalfAwayQ_small _ e1, roundHalfAwayQ_small _ e2]
      simp
    · rw [if_neg hspec]
      exact ⟨roundHalfAwayQ_near _ _ hmain, by simp⟩

/-! ## Placement (C5, C6) -/

/-- C5. When the bitmap is not larger than the screen on either axis, the placement is
`x = (sw - iw) / 2`, `y = (sh - ih) / 2` with the truncating division of `int` (which here
is also the floor, `sw - iw` and `sh - ih` being non-negative): both offsets are non-negative,
the image lies on the screen, and the margin after the image exceeds the margin before it by
zero or one pixel. -/
theorem layout_small_image (iw ih sw sh : Int) (hw : iw ≤ sw) (hh : ih ≤ sh) :
    layout iw ih sw sh = (Int.tdiv (sw - iw) 2, Int.tdiv (sh - ih) 2) ∧
    layout iw ih sw sh = ((sw - iw) / 2, (sh - ih) / 2) ∧
    0 ≤ (layout iw ih sw sh).1 ∧ 0 ≤ (layout iw ih sw sh).2 ∧
    (layout iw ih sw sh).1 + iw ≤ sw ∧ (layout iw ih sw sh).2 + ih ≤ sh ∧
    0 ≤ (sw - iw - (layout iw ih sw sh).1) - (layout iw ih sw sh).1 ∧
    (sw - iw - (layout iw ih sw sh).1) - (layout iw ih sw sh).1 ≤ 1 ∧
    0 ≤ (sh - ih - (layout iw ih sw sh).2) - (layout iw ih sw sh).2 ∧
    (sh - ih - (layout iw ih sw sh).2) - (layout iw ih sw sh).2 ≤ 1 := by
  have hcond : ¬ (iw > sw ∨ ih > sh) := by omega
  have h1 : layout iw ih sw sh = (Int.tdiv (sw - iw) 2, Int.tdiv (sh - ih) 2) := by
    unfold layout
    rw [if_neg hcond]
  have hx : Int.tdiv (sw - iw) 2 = (sw - iw) / 2 :=
    Int.tdiv_eq_ediv (by omega) (by omega)
  have hy : Int.tdiv (sh - ih) 2 = (sh - ih) / 2 :=
    Int.tdiv_eq_ediv (by omega) (by omega)
  have h2 : layout iw ih sw sh = ((sw - iw) / 2, (sh - ih) / 2) := by
    rw [h1, hx, hy]
  refine ⟨h1, h2, ?_⟩
  rw [h2]
  simp only
  omega

theorem layout_small_image_witness :
    (100 : Int) ≤ 300 ∧ (100 : Int) ≤ 400 ∧ layout 100 100 300 400 = (100, 150) ∧
    layout 100 100 300 400 = (Int.tdiv (300 - 100) 2, Int.tdiv (400 - 100) 2) :=
  ⟨by decide, by decide, by decide, (layout_small_image 100 100 300 400 (by decide) (by decide)).1⟩

/-- The coordinates passed to `drawBitmap` by the render pass are those of `layout`. -/
theorem onEnter_draws_layout (env : Env) (w : World) (bw bh : Int)
    (h : env.renderOpen w.act.filePath = .ok bw bh) :
    Effect.drawBitmap (layout bw bh env.screenWidth env.screenHeight).1
        (layout bw bh env.screenWidth env.screenHeight).2 env.screenWidth env.screenHeight 0 0
      ∈ (onEnter env w).trace := by
  have hp : (if (w.act.siblingImages.isEmpty && !w.act.filePath.isEmpty) = true
      then (loadSiblingImages env w).act else w.act).filePath = w.act.filePath := by
    split
    · exact (loadSiblingImages_frame env w).1
    · rfl
  rw [onEnter_eq]
  simp only [screenCalls, hp, h]
  simp

/-- C6, as stated, fails: for a 576 x 474 bitmap on a 480 x 800 screen the exact formula gives
`y = round(202.5) = 203`, while the `float` computation of the source gives `y = 202`. -/
theorem layout_real_counterexample :
    ((576 : Int) > 480 ∨ (474 : Int) > 800) ∧
    layout 576 474 480 800 = (0, 202) ∧
    layoutReal 576 474 480 800 = (0, 203) ∧
    layout 576 474 480 800 ≠ layoutReal 576 474 480 800 := by
  have h1 : layout 576 474 480 800 = (0, 202) := by decide
  have h2 : layoutReal 576 474 480 800 = (0, 203) := by
    simp only [layoutReal, roundHalfAwayQ]
    norm_num
  refine ⟨by decide, h1, h2, ?_⟩
  rw [h1, h2]
  decide

/-- C6, amended. When the bitmap is larger than the screen on some axis, `ratio` and
`screenRatio` are the single-precision quotients; if `ratio > screenRatio` the placement is
`x = 0`, `y = round((sh - sw / ratio) / 2)`, otherwise `x = round((sw - sh * ratio) / 2)`,
`y = 0`, where every quotient, product and difference is rounded to single precision and
`round` rounds halves away from zero. For dimensions between 1 and 65536 this placement is
within one pixel, on each axis, of the placement that the exact ratios give. -/
theorem layout_oversized (iw ih sw sh : Int) (h : iw > sw ∨ ih > sh) :
    layout iw ih sw sh =
      (if F32.lt (F32.div (F32.ofInt sw) (F32.ofInt sh)) (F32.div (F32.ofInt iw) (F32.ofInt ih))
          = true then
        (0, F32.round (F32.div
          (F32.sub (F32.ofInt sh)
            (F32.div (F32.ofInt sw) (F32.div (F32.ofInt iw) (F32.ofInt ih))))
          (F32.ofInt 2)))
      else
        (F32.round (F32.div
          (F32.sub (F32.ofInt sw)
            (F32.mul (F32.ofInt sh) (F32.div (F32.ofInt iw) (F32.ofInt ih))))
          (F32.ofInt 2)), 0)) ∧
    (0 < iw ∧ 0 < ih ∧ 0 < sw ∧ 0 < sh ∧
        iw ≤ 65536 ∧ ih ≤ 65536 ∧ sw ≤ 65536 ∧ sh ≤ 65536 →
      |(layout iw ih sw sh).1 - (layoutReal iw ih sw sh).1| ≤ 1 ∧
      |(layout iw ih sw sh).2 - (layoutReal iw ih sw sh).2| ≤ 1) := by
  constructor
  · unfold layout
    rw [if_pos h]
  · rintro ⟨h1, h2, h3, h4, h5, h6, h7, h8⟩
    exact layout_near_layoutReal iw ih sw sh h1 h2 h3 h4 h5 h6 h7 h8 h

theorem layout_oversized_witness :
    ((800 : Int) > 400 ∨ (300 : Int) > 600) ∧
    layout 800 300 400 600 = (0, 225) ∧
    |(layout 800 300 400 600).1 - (layoutReal 800 300 400 600).1| ≤ 1 ∧
    |(layout 800 300 400 600).2 - (layoutReal 800 300 400 600).2| ≤ 1 :=
  ⟨by decide, by decide,
    (layout_oversized 800 300 400 600 (by decide)).2
      ⟨by decide, by decide, by decide, by decide, by decide, by decide, by decide,
        by decide⟩⟩

/-! ## One button per tick (C12, C13) -/

/-- C12. Whatever buttons are reported released, the tick is the tick of the single button
that comes first in the order Back, Confirm, Left, Up, Down among the released ones: same
state, same calls. A tick with no button released leaves the activity and the setting as they
are and makes no call but the base-class call `Activity::loop` that opens every tick. -/
theorem loop_highest_priority (env : Env) (inp : Input) (w : World) :
    loop env inp w = loop env inp.highest w ∧
    (inp.highest = Input.backOnly ∨ inp.highest = Input.confirmOnly ∨
      inp.highest = Input.leftOnly ∨ inp.highest = Input.upOnly ∨
      inp.highest = Input.downOnly ∨ inp.highest = Input.none) ∧
    loop env Input.none w = w.emit Effect.activityLoop ∧
    (loop env Input.none w).act = w.act ∧
    (loop env Input.none w).sleepScreen = w.sleepScreen ∧
    (loop env Input.none w).trace = w.trace ++ [Effect.activityLoop] := by
  refine ⟨?_, ?_, rfl, rfl, rfl, rfl⟩
  · rcases inp with ⟨b, c, l, u, d⟩
    cases b <;> cases c <;> cases l <;> cases u <;> cases d <;> rfl
  · rcases inp with ⟨b, c, l, u, d⟩
    cases b <;> cases c <;> cases l <;> cases u <;> cases d <;> simp [Input.highest]

/-- C13. In ConfirmingDelete, a tick in which neither Back nor Confirm is released and Left, Up
or Down is released does nothing but the base-class call `Activity::loop`: the state stays
ConfirmingDelete, path, catalog, index and setting are unchanged, and no render pass, storage
call or exit callback is made. -/
theorem loop_ignored_while_confirming (env : Env) (inp : Input) (w : World)
    (hconf : w.act.isConfirmingDelete = true)
    (hback : inp.back = false) (hc : inp.confirm = false)
    (hany : inp.left = true ∨ inp.up = true ∨ inp.down = true) :
    loop env inp w = w.emit Effect.activityLoop ∧
    (loop env inp w).act = w.act ∧
    (loop env inp w).act.isConfirmingDelete = true ∧
    (loop env inp w).sleepScreen = w.sleepScreen ∧
    (loop env inp w).trace = w.trace ++ [Effect.activityLoop] := by
  have h : loop env inp w = w.emit Effect.activityLoop := by
    unfold loop
    simp only [hback, hc, emit_act, hconf]
    rcases inp with ⟨b, c, l, u, d⟩
    cases l <;> cases u <;> cases d <;> simp
  rw [h]
  exact ⟨rfl, rfl, hconf, rfl, rfl⟩

theorem loop_ignored_while_confirming_witness :
    staleWorld.act.isConfirmingDelete = true ∧
    Input.upOnly.back = false ∧ Input.upOnly.confirm = false ∧
    (Input.upOnly.left = true ∨ Input.upOnly.up = true ∨ Input.upOnly.down = true) ∧
    loop sampleEnv Input.upOnly staleWorld = staleWorld.emit Effect.activityLoop :=
  ⟨rfl, rfl, rfl, Or.inr (Or.inl rfl),
    (loop_ignored_while_confirming sampleEnv Input.upOnly staleWorld rfl rfl rfl
      (Or.inr (Or.inl rfl))).1⟩

/-! ## The render pass is idempotent on the navigation state (C16) -/

theorem act_ext (a b : Activity) (h1 : a.filePath = b.filePath) (h2 : a.onGoBack = b.onGoBack)
    (h3 : a.isConfirmingDelete = b.isConfirmingDelete)
    (h4 : a.siblingImages = b.siblingImages)
    (h5 : a.currentImageIndex = b.currentImageIndex) : a = b := by
  cases a; cases b; simp_all

/-- C16. One render pass leaves the file path and the confirmation flag unchanged, and leaves
catalog and index unchanged when the catalog is not empty. A second render pass right after
the first, the directory answering the same in both, leaves file path, confirmation flag,
catalog and index (the whole activity state) as the first one left them. -/
theorem onEnter_idempotent (env1 env2 : Env) (w : World)
    (hso : env2.storageOpen = env1.storageOpen)
    (hce : env2.checkFileExtension = env1.checkFileExtension) :
    (onEnter env1 w).act.filePath = w.act.filePath ∧
    (onEnter env1 w).act.isConfirmingDelete = w.act.isConfirmingDelete ∧
    (w.act.siblingImages ≠ [] →
      (onEnter env1 w).act.siblingImages = w.act.siblingImages ∧
      (onEnter env1 w).act.currentImageIndex = w.act.currentImageIndex) ∧
    (onEnter env2 (onEnter env1 w)).act.filePath = (onEnter env1 w).act.filePath ∧
    (onEnter env2 (onEnter env1 w)).act.isConfirmingDelete
      = (onEnter env1 w).act.isConfirmingDelete ∧
    (onEnter env2 (onEnter env1 w)).act.siblingImages = (onEnter env1 w).act.siblingImages ∧
    (onEnter env2 (onEnter env1 w)).act.currentImageIndex
      = (onEnter env1 w).act.currentImageIndex ∧
    (onEnter env2 (onEnter env1 w)).act = (onEnter env1 w).act := by
  have hf1 := onEnter_frame env1 w
  have hf2 := onEnter_frame env2 (onEnter env1 w)
  have hnav := onEnter_again env1 env2 w (onEnter env1 w) hso hce rfl rfl rfl
  refine ⟨hf1.1, hf1.2.1, ?_, hf2.1, hf2.2.1, hnav.1, hnav.2, ?_⟩
  · intro hne
    rw [onEnter_act_of_catalog env1 w hne]
    exact ⟨rfl, rfl⟩
  · exact act_ext _ _ hf2.1 hf2.2.2.1 hf2.2.1 hnav.1 hnav.2

theorem onEnter_idempotent_witness :
    sampleEnv.storageOpen = sampleEnv.storageOpen ∧
    sampleEnv.checkFileExtension = sampleEnv.checkFileExtension ∧
    (onEnter sampleEnv sampleWorld).act.siblingImages
      = ["A.bmp".toList, "a.bmp".toList, "b.bmp".toList] ∧
    (onEnter sampleEnv (onEnter sampleEnv sampleWorld)).act = (onEnter sampleEnv sampleWorld).act :=
  ⟨rfl, rfl, by decide, (onEnter_idempotent sampleEnv sampleEnv sampleWorld rfl rfl).2.2.2.2.2.2.2⟩

/-! ## The outcome of the copy (C11, C20) -/

theorem copyLoop_outcome (write : Nat → List Nat → Nat) (reads : List ReadResult) :
    ∀ (n : Nat) (w : World), ∃ t, (copyLoop write reads n w).2.trace = w.trace ++ t ∧
      ((copyLoop write reads n w).1 = true ↔
        ∀ d k, Effect.fileWrite d k ∈ t → k = d.length) ∧
      (∀ e ∈ t, (∃ r, e = Effect.fileRead r) ∨ (∃ d k, e = Effect.fileWrite d k)) := by
  induction reads with
  | nil =>
    intro n w
    refine ⟨[Effect.fileRead (.bytes [])], rfl, ?_, ?_⟩
    · simp [copyLoop]
    · intro e he
      left
      exact ⟨_, List.mem_singleton.1 he⟩
  | cons r rest ih =>
    intro n w
    by_cases hpos : r.count > 0
    · by_cases hk : (write n (r.data.take r.count.toNat) : Int) = r.count
      · obtain ⟨t, ht, hiff, hcls⟩ := ih (n + 1) ((w.emit (.fileRead r)).emit
          (.fileWrite (r.data.take r.count.toNat) (write n (r.data.take r.count.toNat))))
        have hlen : write n (r.data.take r.count.toNat) = (r.data.take r.count.toNat).length := by
          cases r with
          | error k => simp [ReadResult.count] at hpos; omega
          | bytes d =>
            simp only [ReadResult.count, ReadResult.data, Int.toNat_ofNat, List.take_length] at hk ⊢
            exact_mod_cast hk
        refine ⟨Effect.fileRead r :: Effect.fileWrite (r.data.take r.count.toNat)
          (write n (r.data.take r.count.toNat)) :: t, ?_, ?_, ?_⟩
        · simp only [copyLoop, hpos, if_true, hk, bne_self_eq_false, Bool.false_eq_true,
            if_false]
          rw [ht]
          simp
        · simp only [copyLoop, hpos, if_true, hk, bne_self_eq_false, Bool.false_eq_true,
            if_false]
          rw [hiff]
          constructor
          · intro h d k hmem
            rcases List.mem_cons.1 hmem with h1 | h1
            · cases h1
            · rcases List.mem_cons.1 h1 with h2 | h2
              · injection h2 with h3 h4
                rw [h3, h4]
                exact hlen
              · exact h d k h2
          · intro h d k hmem
            exact h d k (List.mem_cons_of_mem _ (List.mem_cons_of_mem _ hmem))
        · intro e he
          rcases List.mem_cons.1 he with h1 | h1
          · left; exact ⟨_, h1⟩
          · rcases List.mem_cons.1 h1 with h2 | h2
            · right; exact ⟨_, _, h2⟩
            · exact hcls e h2
      · refine ⟨[Effect.fileRead r, Effect.fileWrite (r.data.take r.count.toNat)
          (write n (r.data.take r.count.toNat))], ?_, ?_, ?_⟩
        · simp [copyLoop, hpos, hk]
        · have hne : write n (r.data.take r.count.toNat)
              ≠ (r.data.take r.count.toNat).length := by
            intro h
            apply hk
            cases r with
            | error k => simp [ReadResult.count] at hpos; omega
            | bytes d =>
              simp only [ReadResult.count, ReadResult.data, Int.toNat_ofNat,
                List.take_length] at h ⊢
              exact_mod_cast h
          simp only [copyLoop, hpos, if_true]
          rw [if_pos (by simpa using hk)]
          constructor
          · intro h; cases h
          · intro h
            exact absurd (h _ _ (by simp)) hne
        · intro e he
          rcases List.mem_cons.1 he with h1 | h1
          · left; exact ⟨_, h1⟩
          · right; exact ⟨_, _, List.mem_singleton.1 h1⟩
    · refine ⟨[Effect.fileRead r], ?_, ?_, ?_⟩
      · simp [copyLoop, hpos]
      · simp [copyLoop, hpos]
      · intro e he
        left
        exact ⟨_, List.mem_singleton.1 he⟩

theorem copyLoop_result_congr (write : Nat → List Nat → Nat) (reads : List ReadResult) :
    ∀ (n : Nat) (w v : World), (copyLoop write reads n w).1 = (copyLoop write reads n v).1 := by
  induction reads with
  | nil => intro n w v; rfl
  | cons r rest ih =>
    intro n w v
    simp only [copyLoop]
    split
    · split
      · rfl
      · exact ih _ _ _
    · rfl

theorem copyToSleepBmp_result_congr (env : Env) (w v : World)
    (h : w.act.filePath = v.act.filePath) :
    (copyToSleepBmp env w).1 = (copyToSleepBmp env v).1 := by
  unfold copyToSleepBmp
  simp only [emit_act, h]
  split
  · rfl
  · split
    · rfl
    · exact copyLoop_result_congr _ _ _ _ _

/-- The result and the calls of the copy: success means that both files opened and every
`write` returned the count it was offered. -/
theorem copyToSleepBmp_outcome (env : Env) (w : World) :
    ∃ t, (copyToSleepBmp env w).2.trace = w.trace ++ t ∧
      ((copyToSleepBmp env w).1 = true ↔
        (env.copySource w.act.filePath ≠ none ∧ env.copyDest ≠ none ∧
          ∀ d k, Effect.fileWrite d k ∈ t → k = d.length)) ∧
      (∀ e ∈ t, e.isCopyCall = true) ∧
      (env.copySource w.act.filePath = none → ∀ e ∈ t, ∀ p, e ≠ Effect.openFileForWrite p) := by
  unfold copyToSleepBmp
  simp only [emit_act]
  cases hsrc : env.copySource w.act.filePath with
  | none =>
    refine ⟨[Effect.openFileForRead w.act.filePath], rfl, by simp, ?_, ?_⟩
    · intro e he
      rw [List.mem_singleton.1 he]; rfl
    · intro _ e he p
      rw [List.mem_singleton.1 he]; simp
  | some reads =>
    cases hdst : env.copyDest with
    | none =>
      refine ⟨[Effect.openFileForRead w.act.filePath,
          Effect.openFileForWrite "/sleep.bmp".toList], by simp, by simp, ?_, by simp⟩
      intro e he
      rcases List.mem_cons.1 he with h1 | h1
      · rw [h1]; rfl
      · rw [List.mem_singleton.1 h1]; rfl
    | some write =>
      obtain ⟨t, ht, hiff, hcls⟩ := copyLoop_outcome write reads 0
        ((w.emit (.openFileForRead w.act.filePath)).emit
          (.openFileForWrite "/sleep.bmp".toList))
      refine ⟨Effect.openFileForRead w.act.filePath ::
          Effect.openFileForWrite "/sleep.bmp".toList :: t, ?_, ?_, ?_, by simp⟩
      · simp only []
        rw [ht]
        simp
      · simp only []
        rw [hiff]
        simp
      · intro e he
        rcases List.mem_cons.1 he with h1 | h1
        · rw [h1]; rfl
        · rcases List.mem_cons.1 h1 with h2 | h2
          · rw [h2]; rfl
          · rcases hcls e h2 with ⟨r, hr⟩ | ⟨d, k, hd⟩
            · rw [hr]; rfl
            · rw [hd]; rfl

theorem copyLoop_chunks (write : Nat → List Nat → Nat) (hfull : ∀ i d, write i d = d.length)
    (tail : List ReadResult) (htail : ∀ r, tail.head? = some r → r.count ≤ 0)
    (chunks : List (List Nat)) :
    (∀ c ∈ chunks, c ≠ []) → ∀ (n : Nat) (w : World),
      (copyLoop write (chunks.map ReadResult.bytes ++ tail) n w).1 = true ∧
      (copyLoop write (chunks.map ReadResult.bytes ++ tail) n w).2.trace
        = w.trace ++ chunkCalls chunks ++ [Effect.fileRead (tail.head?.getD (.bytes []))] := by
  induction chunks with
  | nil =>
    intro _ n w
    cases tail with
    | nil => exact ⟨rfl, by simp [copyLoop, chunkCalls]⟩
    | cons r rest =>
      have hr := htail r rfl
      simp only [List.map_nil, List.nil_append, copyLoop]
      rw [if_neg (by omega)]
      exact ⟨rfl, by simp [chunkCalls]⟩
  | cons c rest ih =>
    intro hne n w
    have hc : c ≠ [] := hne c (List.mem_cons_self _ _)
    have hpos : (0 : Int) < ((c.length : Nat) : Int) := by
      have := List.length_pos.2 hc
      omega
    obtain ⟨h1, h2⟩ := ih (fun x hx => hne x (List.mem_cons_of_mem _ hx)) (n + 1)
      ((w.emit (.fileRead (.bytes c))).emit (.fileWrite c c.length))
    simp only [List.map_cons, List.cons_append, copyLoop, ReadResult.count, ReadResult.data,
      gt_iff_lt, hpos, if_true, Int.toNat_ofNat, List.take_length, hfull, bne_self_eq_false,
      Bool.false_eq_true, if_false]
    simp only [List.append_eq]
    refine ⟨h1, ?_⟩
    rw [h2]
    simp [chunkCalls]

theorem acceptedBytes_append (t1 t2 : List Effect) :
    acceptedBytes (t1 ++ t2) = acceptedBytes t1 ++ acceptedBytes t2 := by
  induction t1 with
  | nil => rfl
  | cons e t ih =>
    cases e <;> simp [acceptedBytes, ih]

theorem acceptedBytes_chunkCalls (chunks : List (List Nat)) :
    acceptedBytes (chunkCalls chunks) = chunks.flatten := by
  induction chunks with
  | nil => rfl
  | cons c rest ih => simp [chunkCalls, acceptedBytes, ih]

theorem copyLoop_trace_congr (write : Nat → List Nat → Nat) (reads : List ReadResult) :
    ∀ (n : Nat) (w v : World) (t : List Effect),
      (copyLoop write reads n w).2.trace = w.trace ++ t →
      (copyLoop write reads n v).2.trace = v.trace ++ t := by
  induction reads with
  | nil =>
    intro n w v t h
    simp only [copyLoop, emit_trace] at h ⊢
    rw [List.append_cancel_left h]
  | cons r rest ih =>
    intro n w v t h
    simp only [copyLoop] at h ⊢
    split
    · rename_i hpos
      rw [if_pos hpos] at h
      split
      · rename_i hbad
        rw [if_pos hbad] at h
        simp only [emit_trace, List.append_assoc] at h ⊢
        rw [List.append_cancel_left h]
      · rename_i hgood
        rw [if_neg hgood] at h
        obtain ⟨t1, ht1, _⟩ := copyLoop_outcome write rest (n + 1)
          ((w.emit (.fileRead r)).emit
            (.fileWrite (r.data.take r.count.toNat) (write n (r.data.take r.count.toNat))))
        have h2 := ih (n + 1) _ ((v.emit (.fileRead r)).emit
            (.fileWrite (r.data.take r.count.toNat) (write n (r.data.take r.count.toNat)))) t1 ht1
        rw [h2]
        rw [ht1] at h
        simp only [emit_trace, List.append_assoc] at h ⊢
        rw [List.append_cancel_left h]
    · rename_i hneg
      rw [if_neg hneg] at h
      simp only [emit_trace] at h ⊢
      rw [List.append_cancel_left h]

theorem copyToSleepBmp_trace_congr (env : Env) (w v : World) (t : List Effect)
    (hp : w.act.filePath = v.act.filePath)
    (h : (copyToSleepBmp env w).2.trace = w.trace ++ t) :
    (copyToSleepBmp env v).2.trace = v.trace ++ t := by
  unfold copyToSleepBmp at h ⊢
  simp only [emit_act, ← hp] at h ⊢
  cases hsrc : env.copySource w.act.filePath with
  | none =>
    simp only [hsrc, emit_trace] at h ⊢
    rw [List.append_cancel_left h]
  | some reads =>
    cases hdst : env.copyDest with
    | none =>
      simp only [hsrc, hdst, emit_trace, List.append_assoc] at h ⊢
      rw [List.append_cancel_left h]
    | some write =>
      simp only [hsrc, hdst] at h ⊢
      obtain ⟨t1, ht1, _⟩ := copyLoop_outcome write reads 0
        ((w.emit (.openFileForRead w.act.filePath)).emit
          (.openFileForWrite "/sleep.bmp".toList))
      have h2 := copyLoop_trace_congr write reads 0 _
        ((v.emit (.openFileForRead w.act.filePath)).emit
          (.openFileForWrite "/sleep.bmp".toList)) t1 ht1
      rw [h2]
      rw [ht1] at h
      simp only [emit_trace, List.append_assoc] at h ⊢
      rw [List.append_cancel_left h]

/-- The tick of Confirm in Viewing (lines 195-227): the popup, the copy, the update of the
setting, the result popup, and the render pass. -/
theorem loop_confirm_copy (env : Env) (inp : Input) (w : World) (tcopy : List Effect)
    (hview : w.act.isConfirmingDelete = false) (hback : inp.back = false)
    (hc : inp.confirm = true)
    (ht : (copyToSleepBmp env w).2.trace = w.trace ++ tcopy) :
    loop env inp w = onEnter env
      { act := w.act
        sleepScreen := if (copyToSleepBmp env w).1 = true then .CUSTOM else w.sleepScreen
        trace := w.trace ++ ([Effect.activityLoop, Effect.drawPopup (.tr .STR_LOADING_POPUP),
            Effect.displayBuffer .FAST_REFRESH] ++ tcopy ++
          (if (copyToSleepBmp env w).1 = true
            then [Effect.settingsSave .CUSTOM, Effect.drawPopup (.tr .STR_DONE)]
            else [Effect.drawPopup (.tr .STR_FAILED_LOWER)]) ++
          [Effect.displayBuffer .FAST_REFRESH, Effect.delay 1000]) } := by
  have key : ∀ v : World, v.act = w.act → v.sleepScreen = w.sleepScreen →
      v.trace = w.trace ++ [Effect.activityLoop, Effect.drawPopup (.tr .STR_LOADING_POPUP),
        Effect.displayBuffer .FAST_REFRESH] →
      (copyToSleepBmp env v).2.act = w.act ∧
      (copyToSleepBmp env v).2.sleepScreen = w.sleepScreen ∧
      (copyToSleepBmp env v).2.trace = w.trace ++ [Effect.activityLoop,
        Effect.drawPopup (.tr .STR_LOADING_POPUP), Effect.displayBuffer .FAST_REFRESH] ++ tcopy ∧
      (copyToSleepBmp env v).1 = (copyToSleepBmp env w).1 := by
    intro v hva hvs hvt
    have hf := copyToSleepBmp_frame env v
    refine ⟨hf.1.trans hva, hf.2.trans hvs, ?_,
      copyToSleepBmp_result_congr env v w (by rw [hva])⟩
    rw [copyToSleepBmp_trace_congr env w v tcopy (by rw [hva]) ht, hvt]
  obtain ⟨k1, k2, k3, k4⟩ := key (((w.emit .activityLoop).emit
    (.drawPopup (.tr .STR_LOADING_POPUP))).emit (.displayBuffer .FAST_REFRESH)) rfl rfl
    (by simp)
  unfold loop
  simp only [hback, hc, emit_act, hview, Bool.false_eq_true, if_false, if_true]
  congr 1
  rw [k4]
  cases hr : (copyToSleepBmp env w).1
  · exact world_ext _ _ (by simp [k1]) (by simp [k2]) (by simp [k3])
  · exact world_ext _ _ (by simp [k1]) (by simp [k2]) (by simp [k3])

/-! ## The cover copy on Confirm (C11, C20) -/

theorem isCopyCall_harmless (e : Effect) (h : e.isCopyCall = true) :
    (∀ s, e ≠ Effect.settingsSave s) ∧ e ≠ Effect.activityOnEnter ∧ e ≠ Effect.onGoBack ∧
      (∀ p, e ≠ Effect.storageOpen p) ∧ ∀ p, e ≠ Effect.storageRemove p := by
  cases e <;> simp_all [Effect.isCopyCall]

theorem isRenderCall_not_save (e : Effect) (h : e.isRenderCall = true) :
    (∀ s, e ≠ Effect.settingsSave s) ∧ (∀ p, e ≠ Effect.openFileForWrite p) ∧
      (∀ d k, e ≠ Effect.fileWrite d k) ∧ ∀ p, e ≠ Effect.storageRemove p := by
  cases e <;> simp_all [Effect.isRenderCall]

/-- What a render pass does to the navigation state: catalog and index stay unless the
catalog is empty and the path is not, and then they are rescanned. -/
theorem onEnter_nav (env : Env) (v : World) :
    ((v.act.siblingImages ≠ [] ∨ v.act.filePath = []) → (onEnter env v).act = v.act) ∧
    ((v.act.siblingImages = [] ∧ v.act.filePath ≠ []) →
      (onEnter env v).act = (loadSiblingImages env v).act) := by
  constructor
  · rintro (h | h)
    · exact onEnter_act_of_catalog env v h
    · rw [onEnter_eq]
      simp [h]
  · rintro ⟨h1, h2⟩
    rw [onEnter_eq]
    simp [h1, isEmpty_eq_false_of_ne h2]

/-- C11, as stated, fails: in Viewing with an empty catalog, a Confirm tick rescans the
directory in its render pass, and the index goes from `-1` to the position found. The state
is the one the screen is in after it was entered while the directory could not be opened. -/
theorem confirm_copy_index_counterexample :
    (onEnter closedEnv sampleWorld).act.isConfirmingDelete = false ∧
    Input.confirmOnly.back = false ∧ Input.confirmOnly.confirm = true ∧
    (onEnter closedEnv sampleWorld).act.currentImageIndex = -1 ∧
    (loop sampleEnv Input.confirmOnly (onEnter closedEnv sampleWorld)).act.currentImageIndex
      = 1 ∧
    (loop sampleEnv Input.confirmOnly (onEnter closedEnv sampleWorld)).act.currentImageIndex
      ≠ (onEnter closedEnv sampleWorld).act.currentImageIndex := by
  decide

/-- C11, amended. In Viewing, a tick with Confirm released and Back not released makes the
calls of the copy `tcopy`, then, if the copy reported success, sets the setting to CUSTOM and
saves it, and otherwise leaves the setting as it was and saves nothing; a source or a
destination that does not open, or a `write` that returns another count than it was offered,
make the copy fail. In both cases one render pass follows, the tick ends in Viewing and the
file path is unchanged. Catalog and index are unchanged when the catalog was not empty or the
path is empty; otherwise the render pass rescans and they are what `loadSiblingImages`
gives. -/
theorem confirm_copy (env : Env) (inp : Input) (w : World)
    (hview : w.act.isConfirmingDelete = false)
    (hback : inp.back = false) (hc : inp.confirm = true) :
    (loop env inp w).sleepScreen
      = (if (copyToSleepBmp env w).1 = true then .CUSTOM else w.sleepScreen) ∧
    (loop env inp w).act.isConfirmingDelete = false ∧
    (loop env inp w).act.filePath = w.act.filePath ∧
    (w.act.siblingImages ≠ [] ∨ w.act.filePath = [] →
      (loop env inp w).act.siblingImages = w.act.siblingImages ∧
      (loop env inp w).act.currentImageIndex = w.act.currentImageIndex) ∧
    (w.act.siblingImages = [] ∧ w.act.filePath ≠ [] →
      (loop env inp w).act.siblingImages = (loadSiblingImages env w).act.siblingImages ∧
      (loop env inp w).act.currentImageIndex
        = (loadSiblingImages env w).act.currentImageIndex) ∧
    ∃ tcopy trender,
      (copyToSleepBmp env w).2.trace = w.trace ++ tcopy ∧
      (∀ e ∈ tcopy, e.isCopyCall = true) ∧
      (∀ e ∈ trender, e.isRenderCall = true ∧ e ≠ Effect.activityOnEnter) ∧
      (loop env inp w).trace = w.trace ++ (([Effect.activityLoop,
          Effect.drawPopup (.tr .STR_LOADING_POPUP), Effect.displayBuffer .FAST_REFRESH] ++
        tcopy ++
        (if (copyToSleepBmp env w).1 = true
          then [Effect.settingsSave .CUSTOM, Effect.drawPopup (.tr .STR_DONE)]
          else [Effect.drawPopup (.tr .STR_FAILED_LOWER)])) ++
        [Effect.displayBuffer .FAST_REFRESH, Effect.delay 1000, Effect.activityOnEnter] ++
        trender) ∧
      ((∃ s, Effect.settingsSave s ∈ tcopy ++ trender) → False) ∧
      ((env.copySource w.act.filePath = none ∨ env.copyDest = none ∨
          ∃ d k, Effect.fileWrite d k ∈ tcopy ∧ k ≠ d.length) →
        (copyToSleepBmp env w).1 = false) := by
  obtain ⟨tcopy, htc, hok, hcls, _⟩ := copyToSleepBmp_outcome env w
  obtain ⟨v, hloop, hva, hvs, hvt⟩ : ∃ v : World, loop env inp w = onEnter env v ∧
      v.act = w.act ∧
      v.sleepScreen = (if (copyToSleepBmp env w).1 = true then .CUSTOM else w.sleepScreen) ∧
      v.trace = w.trace ++ ([Effect.activityLoop, Effect.drawPopup (.tr .STR_LOADING_POPUP),
            Effect.displayBuffer .FAST_REFRESH] ++ tcopy ++
          (if (copyToSleepBmp env w).1 = true
            then [Effect.settingsSave .CUSTOM, Effect.drawPopup (.tr .STR_DONE)]
            else [Effect.drawPopup (.tr .STR_FAILED_LOWER)]) ++
          [Effect.displayBuffer .FAST_REFRESH, Effect.delay 1000]) :=
    ⟨_, loop_confirm_copy env inp w tcopy hview hback hc htc, rfl, rfl, rfl⟩
  rw [hloop]
  have hf := onEnter_frame env v
  have hn := onEnter_nav env v
  obtain ⟨t, ht, hr⟩ := onEnter_trace env v
  refine ⟨by rw [hf.2.2.2, hvs], by rw [hf.2.1, hva, hview], by rw [hf.1, hva], ?_, ?_,
    tcopy, t, htc, hcls, ?_, ?_, ?_, ?_⟩
  · intro h
    rw [hn.1 (by rw [hva]; exact h), hva]
    exact ⟨rfl, rfl⟩
  · intro h
    rw [hn.2 (by rw [hva]; exact h)]
    exact loadSiblingImages_nav_congr env env w v rfl rfl (by rw [hva])
  · intro e he
    exact ⟨hr e he, (isRenderCall_harmless e (hr e he)).2.2⟩
  · rw [ht, hvt]
    simp
  · rintro ⟨s, hs⟩
    rcases List.mem_append.1 hs with h | h
    · exact (isCopyCall_harmless _ (hcls _ h)).1 s rfl
    · exact (isRenderCall_not_save _ (hr _ h)).1 s rfl
  · intro h
    cases hres : (copyToSleepBmp env w).1 with
    | false => rfl
    | true =>
      obtain ⟨h1, h2, h3⟩ := hok.1 hres
      rcases h with h | h | ⟨d, k, hm, hne⟩
      · exact absurd h h1
      · exact absurd h h2
      · exact absurd (h3 d k hm) hne

theorem confirm_copy_witness :
    sampleWorld.act.isConfirmingDelete = false ∧
    Input.confirmOnly.back = false ∧ Input.confirmOnly.confirm = true ∧
    (loop sampleEnv Input.confirmOnly sampleWorld).sleepScreen
      = (if (copyToSleepBmp sampleEnv sampleWorld).1 = true then .CUSTOM
          else sampleWorld.sleepScreen) ∧
    (loop sampleEnv Input.confirmOnly sampleWorld).act.isConfirmingDelete = false ∧
    (loop sampleEnv Input.confirmOnly sampleWorld).act.filePath = sampleWorld.act.filePath :=
  ⟨rfl, rfl, rfl,
    (confirm_copy sampleEnv Input.confirmOnly sampleWorld rfl rfl rfl).1,
    (confirm_copy sampleEnv Input.confirmOnly sampleWorld rfl rfl rfl).2.1,
    (confirm_copy sampleEnv Input.confirmOnly sampleWorld rfl rfl rfl).2.2.1⟩

theorem acceptedBytes_copy_prefix (p q : Str) (t : List Effect) :
    acceptedBytes (Effect.openFileForRead p :: Effect.openFileForWrite q :: t)
      = acceptedBytes t := rfl

/-- C20. The copy of lines 198-214 makes calls `t` and reports success exactly when the source
opened, the destination opened, and every `write` returned the count it was offered (the
count just read). When the source does not open, the destination is not opened. How the
sequence of `read` results ends is of no account: for a source that delivers the non-empty
chunks `chunks` and then ends with 0 or with a negative error value (the first result of
`tail`, 0 when there is none), and a destination that accepts everything, the copy reports
success, the calls are a `read` and a `write` per chunk and the final `read`, and the
destination holds the chunks. A Confirm tick in Viewing whose copy reports success leaves the
setting at CUSTOM. -/
theorem copy_success_iff (env : Env) (w : World) :
    ∃ t, (copyToSleepBmp env w).2.trace = w.trace ++ t ∧
      ((copyToSleepBmp env w).1 = true ↔
        (env.copySource w.act.filePath ≠ none ∧ env.copyDest ≠ none ∧
          ∀ d k, Effect.fileWrite d k ∈ t → k = d.length)) ∧
      (env.copySource w.act.filePath = none →
        ∀ e ∈ t, ∀ p, e ≠ Effect.openFileForWrite p) ∧
      (∀ (chunks : List (List Nat)) (tail : List ReadResult) (write : Nat → List Nat → Nat),
        env.copySource w.act.filePath = some (chunks.map ReadResult.bytes ++ tail) →
        env.copyDest = some write →
        (∀ c ∈ chunks, c ≠ []) → (∀ i d, write i d = d.length) →
        (∀ r, tail.head? = some r → r.count ≤ 0) →
        (copyToSleepBmp env w).1 = true ∧
        t = Effect.openFileForRead w.act.filePath ::
          Effect.openFileForWrite "/sleep.bmp".toList ::
          (chunkCalls chunks ++ [Effect.fileRead (tail.head?.getD (.bytes []))]) ∧
        acceptedBytes t = chunks.flatten) ∧
      (∀ inp : Input, w.act.isConfirmingDelete = false → inp.back = false →
        inp.confirm = true → (copyToSleepBmp env w).1 = true →
        (loop env inp w).sleepScreen = .CUSTOM ∧
        Effect.settingsSave .CUSTOM ∈ (loop env inp w).trace) := by
  obtain ⟨t, ht, hok, _, hsrc⟩ := copyToSleepBmp_outcome env w
  refine ⟨t, ht, hok, hsrc, ?_, ?_⟩
  · intro chunks tail write hs hd hne hfull htail
    have hc := copyLoop_chunks write hfull tail htail chunks hne 0
      ((w.emit (.openFileForRead w.act.filePath)).emit (.openFileForWrite "/sleep.bmp".toList))
    have hdef : copyToSleepBmp env w = copyLoop write (chunks.map ReadResult.bytes ++ tail) 0
        ((w.emit (.openFileForRead w.act.filePath)).emit
          (.openFileForWrite "/sleep.bmp".toList)) := by
      unfold copyToSleepBmp
      simp only [emit_act, hs, hd]
    rw [hdef] at ht ⊢
    have ht2 : t = Effect.openFileForRead w.act.filePath ::
        Effect.openFileForWrite "/sleep.bmp".toList ::
        (chunkCalls chunks ++ [Effect.fileRead (tail.head?.getD (.bytes []))]) := by
      have := hc.2
      rw [ht] at this
      simp only [emit_trace, List.append_assoc] at this
      simpa using List.append_cancel_left this
    refine ⟨hc.1, ht2, ?_⟩
    rw [ht2, acceptedBytes_copy_prefix, acceptedBytes_append, acceptedBytes_chunkCalls]
    simp [acceptedBytes]
  · intro inp hview hback hc hres
    rw [loop_confirm_copy env inp w t hview hback hc ht]
    constructor
    · rw [(onEnter_frame env _).2.2.2]
      simp [hres]
    · obtain ⟨t2, ht2, _⟩ := onEnter_trace env
        { act := w.act
          sleepScreen := if (copyToSleepBmp env w).1 = true then .CUSTOM else w.sleepScreen
          trace := w.trace ++ ([Effect.activityLoop, Effect.drawPopup (.tr .STR_LOADING_POPUP),
              Effect.displayBuffer .FAST_REFRESH] ++ t ++
            (if (copyToSleepBmp env w).1 = true
              then [Effect.settingsSave .CUSTOM, Effect.drawPopup (.tr .STR_DONE)]
              else [Effect.drawPopup (.tr .STR_FAILED_LOWER)]) ++
            [Effect.displayBuffer .FAST_REFRESH, Effect.delay 1000]) }
      rw [ht2]
      simp [hres]

/-- The two sources of C20 evaluated: the empty file and the error after two chunks both
report success, set CUSTOM, and the destination holds the chunks written. -/
theorem copy_success_iff_witness :
    (copyToSleepBmp emptySourceEnv sampleWorld).1 = true ∧
    acceptedBytes (copyToSleepBmp emptySourceEnv sampleWorld).2.trace = [] ∧
    (loop emptySourceEnv Input.confirmOnly sampleWorld).sleepScreen = .CUSTOM ∧
    (copyToSleepBmp failingReadEnv sampleWorld).1 = true ∧
    acceptedBytes (copyToSleepBmp failingReadEnv sampleWorld).2.trace = [1, 2, 3, 4, 5] ∧
    (loop failingReadEnv Input.confirmOnly sampleWorld).sleepScreen = .CUSTOM ∧
    ((copyToSleepBmp sampleEnv sampleWorld).1 = true ↔ False) := by
  obtain ⟨t1, h1, _, _, c1, l1⟩ := copy_success_iff emptySourceEnv sampleWorld
  obtain ⟨t2, h2, _, _, c2, l2⟩ := copy_success_iff failingReadEnv sampleWorld
  have e1 := c1 [] [] (fun _ d => d.length) rfl rfl (by simp) (fun _ _ => rfl) (by simp)
  have e2 := c2 [[1, 2, 3], [4, 5]] [.error 0, .bytes [6]] (fun _ d => d.length) rfl rfl
    (by simp) (fun _ _ => rfl) (by simp [ReadResult.count])
  refine ⟨e1.1, by decide, (l1 Input.confirmOnly rfl rfl rfl e1.1).1, e2.1, by decide,
    (l2 Input.confirmOnly rfl rfl rfl e2.1).1, by decide⟩

/-! ## The error screens (C18) -/

/-- C18. The two error screens of the render pass. When the decoder rejects the headers, the
pass ends with `clearScreen`, the text `Invalid BMP File` at `screenHeight / 2`, the labels
with only Back, the hints, and `displayBuffer(FAST_REFRESH)`. When the file does not open, it
ends with the same calls for the text `Could not open file`, but the last call is
`displayBuffer(FULL_REFRESH)` (line 151), not the fast refresh that the specification asks
for and that the sibling branch makes (line 141). Evaluated on the sample storage as well. -/
theorem error_screen_refresh :
    (∀ (env : Env) (w : World), env.renderOpen w.act.filePath = .parseError →
      ∃ pre, (onEnter env w).trace = w.trace ++ pre ++
        [Effect.clearScreen,
         Effect.drawCenteredText (Int.tdiv env.screenHeight 2) (.lit "Invalid BMP File"),
         Effect.mapLabels (.tr .STR_BACK) (.lit "") (.lit "") (.lit ""),
         Effect.drawButtonHints, Effect.displayBuffer .FAST_REFRESH]) ∧
    (∀ (env : Env) (w : World), env.renderOpen w.act.filePath = .openFailed →
      ∃ pre, (onEnter env w).trace = w.trace ++ pre ++
        [Effect.clearScreen,
         Effect.drawCenteredText (Int.tdiv env.screenHeight 2) (.lit "Could not open file"),
         Effect.mapLabels (.tr .STR_BACK) (.lit "") (.lit "") (.lit ""),
         Effect.drawButtonHints, Effect.displayBuffer .FULL_REFRESH] ∧
        Effect.displayBuffer .FAST_REFRESH ∉ pre) ∧
    (onEnter unopenableEnv sampleWorld).trace =
      [Effect.activityOnEnter, Effect.storageOpen "/pics".toList,
       Effect.drawPopup (.tr .STR_LOADING_POPUP), Effect.fillPopupProgress 20,
       Effect.openFileForRead "/pics/a.bmp".toList, Effect.clearScreen,
       Effect.drawCenteredText 400 (.lit "Could not open file"),
       Effect.mapLabels (.tr .STR_BACK) (.lit "") (.lit "") (.lit ""),
       Effect.drawButtonHints, Effect.displayBuffer .FULL_REFRESH] ∧
    Effect.displayBuffer .FAST_REFRESH ∉ (onEnter unopenableEnv sampleWorld).trace ∧
    (onEnter corruptEnv sampleWorld).trace =
      [Effect.activityOnEnter, Effect.storageOpen "/pics".toList,
       Effect.drawPopup (.tr .STR_LOADING_POPUP), Effect.fillPopupProgress 20,
       Effect.openFileForRead "/pics/a.bmp".toList, Effect.clearScreen,
       Effect.drawCenteredText 400 (.lit "Invalid BMP File"),
       Effect.mapLabels (.tr .STR_BACK) (.lit "") (.lit "") (.lit ""),
       Effect.drawButtonHints, Effect.displayBuffer .FAST_REFRESH] := by
  have hp : ∀ (env : Env) (w : World),
      (if (w.act.siblingImages.isEmpty && !w.act.filePath.isEmpty) = true
        then (loadSiblingImages env w).act else w.act).filePath = w.act.filePath := by
    intro env w
    split
    · exact (loadSiblingImages_frame env w).1
    · rfl
  refine ⟨?_, ?_, by decide, by decide, by decide⟩
  · intro env w h
    rw [onEnter_eq]
    simp only [screenCalls, hp, h]
    exact ⟨Effect.activityOnEnter ::
      ((if (w.act.siblingImages.isEmpty && !w.act.filePath.isEmpty) = true
        then [Effect.storageOpen (dirPathOf w.act.filePath)] else []) ++
      [Effect.drawPopup (.tr .STR_LOADING_POPUP), Effect.fillPopupProgress 20,
        Effect.openFileForRead w.act.filePath]), by simp⟩
  · intro env w h
    rw [onEnter_eq]
    simp only [screenCalls, hp, h]
    refine ⟨Effect.activityOnEnter ::
      ((if (w.act.siblingImages.isEmpty && !w.act.filePath.isEmpty) = true
        then [Effect.storageOpen (dirPathOf w.act.filePath)] else []) ++
      [Effect.drawPopup (.tr .STR_LOADING_POPUP), Effect.fillPopupProgress 20,
        Effect.openFileForRead w.act.filePath]), by simp, ?_⟩
    split <;> simp

/-! ## Centring (C15) -/

theorem roundHalfAwayQ_nonneg (a : ℚ) (h : -(1 / 4) ≤ a) : 0 ≤ roundHalfAwayQ a := by
  unfold roundHalfAwayQ
  split
  · exact Int.floor_nonneg.2 (by linarith)
  · rename_i hneg
    have : ⌊-a + 1 / 2⌋ = 0 := by
      rw [Int.floor_eq_iff]
      constructor <;> push_cast <;> linarith
    rw [this]
    simp

/-- C15, as stated, fails: a 100 x 200 bitmap on a 100 x 100 screen is not wider than the
screen, yet its horizontal offset is 25 and not `(100 - 100) / 2 = 0`: the image is taller
than the screen, so the placement is that of the scaled image. -/
theorem layout_axis_counterexample :
    (0 : Int) < 100 ∧ (0 : Int) < 200 ∧ (100 : Int) ≤ 100 ∧
    layout 100 200 100 100 = (25, 0) ∧
    (layout 100 200 100 100).1 ≠ (100 - 100) / 2 := by
  decide

/-- For bitmap and screen dimensions between 1 and 65536, neither offset of an oversized
image is negative. -/
theorem layout_oversized_nonneg (iw ih sw sh : Int)
    (hiw : 0 < iw) (hih : 0 < ih) (hsw : 0 < sw) (hsh : 0 < sh)
    (hiwN : iw ≤ 65536) (hihN : ih ≤ 65536) (hswN : sw ≤ 65536) (hshN : sh ≤ 65536)
    (hover : iw > sw ∨ ih > sh) :
    0 ≤ (layout iw ih sw sh).1 ∧ 0 ≤ (layout iw ih sw sh).2 := by
  have viw := F32.val_ofInt iw hiw (by omega)
  have vih := F32.val_ofInt ih hih (by omega)
  have vsw := F32.val_ofInt sw hsw (by omega)
  have vsh := F32.val_ofInt sh hsh (by omega)
  have v2 := F32.val_ofInt 2 (by norm_num) (by norm_num)
  have qiw : (0 : ℚ) < (iw : ℚ) := by exact_mod_cast hiw
  have qih : (0 : ℚ) < (ih : ℚ) := by exact_mod_cast hih
  have qsw : (1 : ℚ) ≤ (sw : ℚ) := by exact_mod_cast hsw
  have qsh : (1 : ℚ) ≤ (sh : ℚ) := by exact_mod_cast hsh
  have qswN : (sw : ℚ) ≤ 65536 := by exact_mod_cast hswN
  have qshN : (sh : ℚ) ≤ 65536 := by exact_mod_cast hshN
  have hρ : (0 : ℚ) < (iw : ℚ) / (ih : ℚ) := div_pos qiw qih
  have hσ : (sw : ℚ) / (sh : ℚ) * (sh : ℚ) = (sw : ℚ) := by
    field_simp
  have mih : (F32.ofInt ih).m ≠ 0 :=
    F32.m_ne_zero_of_val _ (by rw [vih]; exact ne_of_gt qih)
  have msh : (F32.ofInt sh).m ≠ 0 :=
    F32.m_ne_zero_of_val _ (by rw [vsh]; linarith)
  have m2 : (F32.ofInt 2).m ≠ 0 :=
    F32.m_ne_zero_of_val _ (by rw [v2]; norm_num)
  have hr := F32.val_div (F32.ofInt iw) (F32.ofInt ih) mih
  have hs := F32.val_div (F32.ofInt sw) (F32.ofInt sh) msh
  rw [viw, vih] at hr
  rw [vsw, vsh] at hs
  have hr0 : 0 < (F32.div (F32.ofInt iw) (F32.ofInt ih)).val := by
    have := abs_le.1 hr
    rw [abs_of_pos hρ] at this
    norm_num at this
    linarith [this.1]
  have mr : (F32.div (F32.ofInt iw) (F32.ofInt ih)).m ≠ 0 :=
    F32.m_ne_zero_of_val _ (ne_of_gt hr0)
  simp only [layout, if_pos hover]
  by_cases hlt : F32.lt (F32.div (F32.ofInt sw) (F32.ofInt sh))
      (F32.div (F32.ofInt iw) (F32.ofInt ih)) = true
  · rw [if_pos hlt]
    have hlt' := (F32.lt_iff _ _).1 hlt
    have hq1 := F32.val_div (F32.ofInt sw) (F32.div (F32.ofInt iw) (F32.ofInt ih)) mr
    have hd1 := F32.val_sub (F32.ofInt sh)
      (F32.div (F32.ofInt sw) (F32.div (F32.ofInt iw) (F32.ofInt ih)))
    have hh1 := F32.val_div (F32.sub (F32.ofInt sh)
      (F32.div (F32.ofInt sw) (F32.div (F32.ofInt iw) (F32.ofInt ih)))) (F32.ofInt 2) m2
    rw [vsw] at hq1
    rw [vsh] at hd1
    rw [v2] at hh1
    obtain ⟨hmain, hedge⟩ := wide_analysis _ _ _ _ _ _ _ _ _ qsw qsh qswN qshN hρ hσ hr hs hlt'
      hq1 hd1 hh1
    rw [F32.round_eq]
    refine ⟨le_refl _, ?_⟩
    by_cases hspec : (iw : ℚ) / (ih : ℚ) > (sw : ℚ) / (sh : ℚ)
    · have hpos : 0 ≤ ((sh : ℚ) - (sw : ℚ) / ((iw : ℚ) / (ih : ℚ))) / 2 := by
        have h1 : (sw : ℚ) / ((iw : ℚ) / (ih : ℚ)) ≤ (sh : ℚ) := by
          rw [div_le_iff₀ hρ]
          have h2 : (sw : ℚ) / (sh : ℚ) * (sh : ℚ) ≤ (iw : ℚ) / (ih : ℚ) * (sh : ℚ) :=
            mul_le_mul_of_nonneg_right (le_of_lt hspec) (by linarith)
          rw [hσ] at h2
          linarith
        linarith
      have := abs_le.1 hmain
      exact roundHalfAwayQ_nonneg _ (by linarith [this.1])
    · obtain ⟨e1, _⟩ := hedge (not_lt.1 hspec)
      rw [roundHalfAwayQ_small _ e1]
  · rw [if_neg hlt]
    have hle' : (F32.div (F32.ofInt iw) (F32.ofInt ih)).val
        ≤ (F32.div (F32.ofInt sw) (F32.ofInt sh)).val := by
      by_contra hcon
      exact hlt ((F32.lt_iff _ _).2 (not_le.1 hcon))
    have hp1 := F32.val_mul (F32.ofInt sh) (F32.div (F32.ofInt iw) (F32.ofInt ih))
    have hd2 := F32.val_sub (F32.ofInt sw)
      (F32.mul (F32.ofInt sh) (F32.div (F32.ofInt iw) (F32.ofInt ih)))
    have hh2 := F32.val_div (F32.sub (F32.ofInt sw)
      (F32.mul (F32.ofInt sh) (F32.div (F32.ofInt iw) (F32.ofInt ih)))) (F32.ofInt 2) m2
    rw [vsh] at hp1
    rw [vsw] at hd2
    rw [v2] at hh2
    obtain ⟨hmain, hedge⟩ := tall_analysis _ _ _ _ _ _ _ _ _ qsw qsh qswN qshN hρ hσ hr hs hle'
      hp1 hd2 hh2
    rw [F32.round_eq]
    refine ⟨?_, le_refl _⟩
    by_cases hspec : (iw : ℚ) / (ih : ℚ) > (sw : ℚ) / (sh : ℚ)
    · obtain ⟨e1, _⟩ := hedge hspec
      rw [roundHalfAwayQ_small _ e1]
    · have hpos : 0 ≤ ((sw : ℚ) - (sh : ℚ) * ((iw : ℚ) / (ih : ℚ))) / 2 := by
        have h2 : (iw : ℚ) / (ih : ℚ) * (sh : ℚ) ≤ (sw : ℚ) / (sh : ℚ) * (sh : ℚ) :=
          mul_le_mul_of_nonneg_right (not_lt.1 hspec) (by linarith)
        rw [hσ] at h2
        linarith
      have := abs_le.1 hmain
      exact roundHalfAwayQ_nonneg _ (by linarith [this.1])

/-- C15, amended. When the bitmap is not larger than the screen on either axis, both offsets
are the centring offsets `(sw - iw) / 2` and `(sh - ih) / 2`, and they are not negative. When
the bitmap is larger than the screen on some axis, the placement is that of the image scaled
to the screen, also on the axis where the bitmap fits: one of the offsets is 0, and for
dimensions between 1 and 65536 neither offset is negative. -/
theorem layout_centred (iw ih sw sh : Int) :
    (iw ≤ sw ∧ ih ≤ sh →
      (layout iw ih sw sh).1 = (sw - iw) / 2 ∧ (layout iw ih sw sh).2 = (sh - ih) / 2 ∧
      0 ≤ (layout iw ih sw sh).1 ∧ 0 ≤ (layout iw ih sw sh).2) ∧
    (iw > sw ∨ ih > sh →
      ((layout iw ih sw sh).1 = 0 ∨ (layout iw ih sw sh).2 = 0) ∧
      (0 < iw ∧ 0 < ih ∧ 0 < sw ∧ 0 < sh ∧
          iw ≤ 65536 ∧ ih ≤ 65536 ∧ sw ≤ 65536 ∧ sh ≤ 65536 →
        0 ≤ (layout iw ih sw sh).1 ∧ 0 ≤ (layout iw ih sw sh).2)) := by
  constructor
  · rintro ⟨hw, hh⟩
    have hcond : ¬ (iw > sw ∨ ih > sh) := by omega
    have hx : Int.tdiv (sw - iw) 2 = (sw - iw) / 2 :=
      Int.tdiv_eq_ediv (by omega) (by omega)
    have hy : Int.tdiv (sh - ih) 2 = (sh - ih) / 2 :=
      Int.tdiv_eq_ediv (by omega) (by omega)
    have h2 : layout iw ih sw sh = ((sw - iw) / 2, (sh - ih) / 2) := by
      unfold layout
      rw [if_neg hcond, hx, hy]
    rw [h2]
    exact ⟨rfl, rfl, Int.ediv_nonneg (by omega) (by omega),
      Int.ediv_nonneg (by omega) (by omega)⟩
  · intro hover
    constructor
    · simp only [layout, if_pos hover]
      split
      · left; rfl
      · right; rfl
    · rintro ⟨h1, h2, h3, h4, h5, h6, h7, h8⟩
      exact layout_oversized_nonneg iw ih sw sh h1 h2 h3 h4 h5 h6 h7 h8 hover

theorem layout_centred_witness :
    ((100 : Int) ≤ 300 ∧ (100 : Int) ≤ 400) ∧ ((100 : Int) > 100 ∨ (200 : Int) > 100) ∧
    (layout 100 100 300 400).1 = (300 - 100) / 2 ∧
    ((layout 100 200 100 100).1 = 0 ∨ (layout 100 200 100 100).2 = 0) ∧
    0 ≤ (layout 100 200 100 100).1 :=
  ⟨by decide, by decide,
    ((layout_centred 100 100 300 400).1 (by decide)).1,
    ((layout_centred 100 200 100 100).2 (by decide)).1,
    (((layout_centred 100 200 100 100).2 (by decide)).2 (by decide)).1⟩

/-! ## The catalog and the order of the listing (C14) -/

theorem strLt_antisymm_of_false (a b : Str) (h1 : strLt b a = false) (h2 : strLt a b = false) :
    a = b := strLt_connex a b h2 h1

/-- Two lists ordered for `strLt` that are rearrangements of each other are equal. -/
theorem eq_of_perm_of_ordered : ∀ (l1 l2 : List Str), l1.Perm l2 →
    l1.Pairwise (fun a b => strLt b a = false) → l2.Pairwise (fun a b => strLt b a = false) →
    l1 = l2
  | [], l2, hp, _, _ => hp.nil_eq
  | a :: t, [], hp, _, _ => absurd hp.symm.nil_eq (by simp)
  | a :: t, b :: u, hp, h1, h2 => by
    rw [List.pairwise_cons] at h1 h2
    have hab : a = b := by
      have ha : a ∈ b :: u := hp.subset (List.mem_cons_self _ _)
      have hb : b ∈ a :: t := hp.symm.subset (List.mem_cons_self _ _)
      rcases List.mem_cons.1 ha with h | h
      · exact h
      · rcases List.mem_cons.1 hb with h' | h'
        · exact h'.symm
        · exact strLt_antisymm_of_false a b (h1.1 b h') (h2.1 a h)
    subst hab
    rw [eq_of_perm_of_ordered t u (List.Perm.cons_inv hp) h1.2 h2.2]

/-- Two rearrangements of each other with the same image under a map that separates their
elements are equal. -/
theorem eq_of_map_eq_of_perm (f : Str → Str) : ∀ (l1 l2 : List Str), l1.Perm l2 →
    l1.map f = l2.map f → (l1.map f).Nodup → l1 = l2
  | [], l2, hp, _, _ => hp.nil_eq
  | a :: t, [], hp, _, _ => absurd hp.symm.nil_eq (by simp)
  | a :: t, b :: u, hp, hm, hn => by
    simp only [List.map_cons, List.cons.injEq] at hm
    have hinj := List.inj_on_of_nodup_map hn
    have hb : b ∈ a :: t := hp.symm.subset (List.mem_cons_self _ _)
    have hab : a = b := hinj (List.mem_cons_self _ _) hb hm.1
    subst hab
    rw [List.map_cons, List.nodup_cons] at hn
    rw [eq_of_map_eq_of_perm f t u (List.Perm.cons_inv hp) hm.2 hn.2]

/-- The sorted catalog does not depend on the order of the listing when no two kept names
are equal after lowercasing. -/
theorem stdSort_perm_eq (l1 l2 : List Str) (hp : l2.Perm l1)
    (hn : (l1.map toLowerStr).Nodup) :
    stdSort caseInsensitiveLess l2 = stdSort caseInsensitiveLess l1 := by
  have p1 := stdSort_perm caseInsensitiveLess l1
  have p2 := stdSort_perm caseInsensitiveLess l2
  have s1 := stdSort_pairwise caseInsensitiveLess caseInsensitiveLess_asymm
    caseInsensitiveLess_false_trans l1
  have s2 := stdSort_pairwise caseInsensitiveLess caseInsensitiveLess_asymm
    caseInsensitiveLess_false_trans l2
  have hperm : (stdSort caseInsensitiveLess l2).Perm (stdSort caseInsensitiveLess l1) :=
    (p2.trans hp).trans p1.symm
  have hmap : (stdSort caseInsensitiveLess l2).map toLowerStr
      = (stdSort caseInsensitiveLess l1).map toLowerStr := by
    apply eq_of_perm_of_ordered _ _ (hperm.map _)
    · rw [List.pairwise_map]; exact s2
    · rw [List.pairwise_map]; exact s1
  have hn2 : ((stdSort caseInsensitiveLess l2).map toLowerStr).Nodup :=
    ((p2.trans hp).map toLowerStr).nodup_iff.2 hn
  exact eq_of_map_eq_of_perm toLowerStr _ _ hperm hmap hn2

/-- C14, as stated, fails: the names `A.bmp` and `a.bmp` are distinct, the comparator ranks
neither before the other, and the two listings of this pair give two different catalogs, and
two different indices for the path `/pics/a.bmp`. -/
theorem catalog_order_counterexample :
    lowerFirstDir.entries = upperFirstDir.entries.reverse ∧
    (upperFirstDir.entries.map DirEntry.name).Nodup ∧
    caseInsensitiveLess "A.bmp".toList "a.bmp".toList = false ∧
    caseInsensitiveLess "a.bmp".toList "A.bmp".toList = false ∧
    (loadSiblingImages upperFirstEnv sampleWorld).act.siblingImages
      = ["A.bmp".toList, "a.bmp".toList] ∧
    (loadSiblingImages lowerFirstEnv sampleWorld).act.siblingImages
      = ["a.bmp".toList, "A.bmp".toList] ∧
    (loadSiblingImages upperFirstEnv sampleWorld).act.currentImageIndex = 1 ∧
    (loadSiblingImages lowerFirstEnv sampleWorld).act.currentImageIndex = 0 := by
  decide

/-- C14, amended. For the same path and the same extension check, two listings of a
directory whose entries are rearrangements of each other give the same catalog and the same
current index, provided no two kept names are equal after lowercasing; among such names the
comparator ranks one of any two distinct names before the other. -/
theorem catalog_order_independent (env1 env2 : Env) (w1 w2 : World) (dir1 dir2 : DirHandle)
    (hpath : w1.act.filePath ≠ []) (hp : w2.act.filePath = w1.act.filePath)
    (hce : env2.checkFileExtension = env1.checkFileExtension)
    (ho1 : env1.storageOpen (dirPathOf w1.act.filePath) = some dir1)
    (ho2 : env2.storageOpen (dirPathOf w1.act.filePath) = some dir2)
    (hd1 : dir1.isDirectory = true) (hd2 : dir2.isDirectory = true)
    (hperm : dir2.entries.Perm dir1.entries)
    (hn : ((scanEntries env1 dir1.entries).map toLowerStr).Nodup) :
    (loadSiblingImages env2 w2).act.siblingImages
      = (loadSiblingImages env1 w1).act.siblingImages ∧
    (loadSiblingImages env2 w2).act.currentImageIndex
      = (loadSiblingImages env1 w1).act.currentImageIndex ∧
    (∀ a ∈ (loadSiblingImages env1 w1).act.siblingImages,
      ∀ b ∈ (loadSiblingImages env1 w1).act.siblingImages, a ≠ b →
        caseInsensitiveLess a b = true ∨ caseInsensitiveLess b a = true) := by
  have hscan : (scanEntries env2 dir2.entries).Perm (scanEntries env1 dir1.entries) := by
    rw [scanEntries_congr env1 env2 hce, scanEntries_eq_filter, scanEntries_eq_filter]
    exact (hperm.filter _).map _
  have hsort := stdSort_perm_eq _ _ hscan hn
  obtain ⟨c1, i1⟩ := loadSiblingImages_of_open env1 w1 dir1 hpath ho1 hd1
  obtain ⟨c2, i2⟩ := loadSiblingImages_of_open env2 w2 dir2 (by rw [hp]; exact hpath)
    (by rw [hp]; exact ho2) hd2
  refine ⟨by rw [c1, c2, hsort], by rw [i1, i2, hsort, hp], ?_⟩
  rw [c1]
  intro a ha b hb hab
  have hinj := List.inj_on_of_nodup_map hn
  have ha' := (stdSort_perm caseInsensitiveLess _).subset ha
  have hb' := (stdSort_perm caseInsensitiveLess _).subset hb
  by_contra hcon
  simp only [not_or, Bool.not_eq_true] at hcon
  exact hab (hinj ha' hb' (strLt_connex _ _ hcon.1 hcon.2))

theorem catalog_order_independent_witness :
    sampleWorld.act.filePath ≠ [] ∧
    plainEnvSwapped.storageOpen (dirPathOf sampleWorld.act.filePath) = some plainDirSwapped ∧
    plainDirSwapped.entries.Perm plainDir.entries ∧
    ((scanEntries plainEnv plainDir.entries).map toLowerStr).Nodup ∧
    plainDirSwapped.entries ≠ plainDir.entries ∧
    (loadSiblingImages plainEnvSwapped sampleWorld).act.siblingImages
      = (loadSiblingImages plainEnv sampleWorld).act.siblingImages ∧
    (loadSiblingImages plainEnvSwapped sampleWorld).act.currentImageIndex
      = (loadSiblingImages plainEnv sampleWorld).act.currentImageIndex :=
  ⟨by decide, by decide, List.Perm.swap _ _ [], by decide, by decide,
    (catalog_order_independent plainEnv plainEnvSwapped sampleWorld sampleWorld plainDir
      plainDirSwapped (by decide) rfl rfl (by decide) (by decide) rfl rfl
      (List.Perm.swap _ _ []) (by decide)).1,
    (catalog_order_independent plainEnv plainEnvSwapped sampleWorld sampleWorld plainDir
      plainDirSwapped (by decide) rfl rfl (by decide) (by decide) rfl rfl
      (List.Perm.swap _ _ []) (by decide)).2.1⟩

/-! ## When the directory is scanned (C17) -/

theorem scanCount_append (t1 t2 : List Effect) :
    scanCount (t1 ++ t2) = scanCount t1 + scanCount t2 := by
  induction t1 with
  | nil => simp [scanCount]
  | cons e t ih =>
    cases e <;> simp [scanCount, ih]
    omega

theorem scanCount_eq_zero (t : List Effect) (h : ∀ e ∈ t, ∀ p, e ≠ Effect.storageOpen p) :
    scanCount t = 0 := by
  induction t with
  | nil => rfl
  | cons e t ih =>
    have ht := ih (fun x hx => h x (List.mem_cons_of_mem _ hx))
    have he := h e (List.mem_cons_self _ _)
    cases e <;> simp_all [scanCount]

theorem scanCount_emit (w : World) (e : Effect) (h : ∀ p, e ≠ Effect.storageOpen p) :
    scanCount (w.emit e).trace = scanCount w.trace := by
  rw [emit_trace, scanCount_append, scanCount_eq_zero [e] (by simpa using h)]
  rfl

theorem screenCalls_scanCount (env : Env) (act : Activity) :
    scanCount (screenCalls env act) = 0 := by
  unfold screenCalls
  cases env.renderOpen act.filePath with
  | ok bw bh => cases act.isConfirmingDelete <;> rfl
  | parseError => rfl
  | openFailed => rfl

/-- A render pass opens the directory once when the catalog is empty and the path is not,
and not at all otherwise. -/
theorem onEnter_scanCount (env : Env) (w : World) :
    scanCount (onEnter env w).trace = scanCount w.trace +
      (if w.act.siblingImages = [] ∧ w.act.filePath ≠ [] then 1 else 0) := by
  rw [onEnter_eq]
  simp only [scanCount_append]
  have h1 : ∀ t, scanCount (Effect.activityOnEnter :: t) = scanCount t := fun _ => rfl
  rw [h1, scanCount_append, screenCalls_scanCount]
  by_cases hc : w.act.siblingImages = [] ∧ w.act.filePath ≠ []
  · rw [if_pos hc]
    simp [hc.1, isEmpty_eq_false_of_ne hc.2, scanCount]
  · rw [if_neg hc]
    have : (w.act.siblingImages.isEmpty && !w.act.filePath.isEmpty) = false := by
      rw [not_and_or, not_not] at hc
      rcases hc with h | h
      · simp [isEmpty_eq_false_of_ne h]
      · simp [h]
    simp [this, scanCount]

theorem copyToSleepBmp_scanCount (env : Env) (w : World) :
    scanCount (copyToSleepBmp env w).2.trace = scanCount w.trace := by
  obtain ⟨t, ht, _, hcls, _⟩ := copyToSleepBmp_outcome env w
  rw [ht, scanCount_append, scanCount_eq_zero t
    (fun e he => (isCopyCall_harmless e (hcls e he)).2.2.2.1)]
  rfl

theorem onEnter_noscan (env : Env) (v : World) (h : v.act.siblingImages ≠ []) :
    (onEnter env v).act.siblingImages ≠ [] ∧
    (onEnter env v).act.siblingImages = v.act.siblingImages ∧
    scanCount (onEnter env v).trace = scanCount v.trace := by
  rw [onEnter_scanCount, onEnter_act_of_catalog env v h, if_neg (fun hc => h hc.1)]
  exact ⟨h, rfl, rfl⟩

/-- A tick in a state with a non-empty catalog keeps the catalog and does not open the
directory. -/
theorem loop_noscan (env : Env) (inp : Input) (w : World) (h : w.act.siblingImages ≠ []) :
    (loop env inp w).act.siblingImages ≠ [] ∧
    (loop env inp w).act.siblingImages = w.act.siblingImages ∧
    scanCount (loop env inp w).trace = scanCount w.trace := by
  have hcopy := copyToSleepBmp_frame env
    ((w.emit .activityLoop).emit (.drawPopup (.tr .STR_LOADING_POPUP)) |>.emit
      (.displayBuffer .FAST_REFRESH))
  have hcount := copyToSleepBmp_scanCount env
    ((w.emit .activityLoop).emit (.drawPopup (.tr .STR_LOADING_POPUP)) |>.emit
      (.displayBuffer .FAST_REFRESH))
  simp only [emit_act] at hcopy
  have hstay : ∀ v : World, v.act.siblingImages = w.act.siblingImages →
      scanCount v.trace = scanCount w.trace →
      (onEnter env v).act.siblingImages ≠ [] ∧
      (onEnter env v).act.siblingImages = w.act.siblingImages ∧
      scanCount (onEnter env v).trace = scanCount w.trace := by
    intro v hv hs
    obtain ⟨h1, h2, h3⟩ := onEnter_noscan env v (by rw [hv]; exact h)
    exact ⟨h1, h2.trans hv, h3.trans hs⟩
  have hemit : ∀ (v : World) (e : Effect), (∀ p, e ≠ Effect.storageOpen p) →
      scanCount (v.emit e).trace = scanCount v.trace := scanCount_emit
  unfold loop
  simp only [emit_act]
  split
  · split
    · exact hstay _ rfl (by simp [scanCount_append, scanCount])
    · split <;> exact ⟨h, rfl, by simp [scanCount_append, scanCount]⟩
  · split
    · split
      · split
        · split <;> exact ⟨h, rfl, by simp [scanCount_append, scanCount]⟩
        · exact hstay _ rfl (by simp [scanCount_append, scanCount])
      · apply hstay
        · split <;> simp only [emit_act, hcopy.1]
        · split <;> simp [scanCount_append, scanCount, hcount]
    · split
      · split
        · exact hstay _ rfl (by simp [scanCount_append, scanCount])
        · exact ⟨h, rfl, by simp [scanCount_append, scanCount]⟩
      · split
        · split
          · exact hstay _ rfl (by simp [scanCount_append, scanCount])
          · exact ⟨h, rfl, by simp [scanCount_append, scanCount]⟩
        · split
          · split
            · exact hstay _ rfl (by simp [scanCount_append, scanCount])
            · exact ⟨h, rfl, by simp [scanCount_append, scanCount]⟩
          · exact ⟨h, rfl, by simp [scanCount_append, scanCount]⟩

theorem run_noscan : ∀ (steps : List Step) (w : World), w.act.siblingImages ≠ [] →
    (run steps w).act.siblingImages = w.act.siblingImages ∧
    scanCount (run steps w).trace = scanCount w.trace
  | [], _, _ => ⟨rfl, rfl⟩
  | .render env :: rest, w, h => by
    obtain ⟨h1, h2, h3⟩ := onEnter_noscan env w h
    obtain ⟨k1, k2⟩ := run_noscan rest (onEnter env w) h1
    exact ⟨k1.trans h2, k2.trans h3⟩
  | .tick env inp :: rest, w, h => by
    obtain ⟨h1, h2, h3⟩ := loop_noscan env inp w h
    obtain ⟨k1, k2⟩ := run_noscan rest (loop env inp w) h1
    exact ⟨k1.trans h2, k2.trans h3⟩

/-- C17, as stated, fails: the screen is entered on the hidden image `/pics/.x.bmp`, the scan
of the first render pass skips hidden files and leaves the catalog empty, and so the render
pass of the Left tick, the render pass of the Back tick after it, and a further render pass
each open and scan the directory again. -/
theorem rescan_counterexample :
    hiddenWorld.act.filePath ≠ [] ∧
    scanCount (run [.render hiddenEnv] hiddenWorld).trace = 1 ∧
    (run [.render hiddenEnv] hiddenWorld).act.siblingImages = [] ∧
    scanCount (run [.render hiddenEnv, .tick hiddenEnv Input.leftOnly] hiddenWorld).trace = 2 ∧
    scanCount (run [.render hiddenEnv, .tick hiddenEnv Input.leftOnly,
      .tick hiddenEnv Input.backOnly] hiddenWorld).trace = 3 ∧
    scanCount (run [.render hiddenEnv, .render hiddenEnv] hiddenWorld).trace = 2 ∧
    (run [.render hiddenEnv, .render hiddenEnv] hiddenWorld).trace.drop 11 =
      [Effect.activityOnEnter, Effect.storageOpen "/pics".toList,
       Effect.drawPopup (.tr .STR_LOADING_POPUP), Effect.fillPopupProgress 20,
       Effect.openFileForRead "/pics/.x.bmp".toList,
       Effect.mapLabels (.tr .STR_BACK) (.tr .STR_SET_SLEEP_COVER) (.tr .STR_DELETE) (.lit ""),
       Effect.fillPopupProgress 50, Effect.clearScreen, Effect.drawBitmap 0 202 480 800 0 0,
       Effect.drawButtonHints, Effect.displayBuffer .FULL_REFRESH] := by
  decide

/-- C17, amended. A render pass opens the directory for a scan exactly when the catalog is
empty and the path is not; so the first render pass of a screen instance with a non-empty
path scans. From a state whose catalog is not empty, no sequence of render passes and ticks
opens the directory again, and the catalog stays as it is. -/
theorem scan_while_catalog_empty (env : Env) (w : World) (steps : List Step) :
    scanCount (onEnter env w).trace = scanCount w.trace +
      (if w.act.siblingImages = [] ∧ w.act.filePath ≠ [] then 1 else 0) ∧
    (∀ (path : Str) (cb : Bool), w.act = Activity.new path cb → path ≠ [] →
      scanCount (onEnter env w).trace = scanCount w.trace + 1) ∧
    (w.act.siblingImages ≠ [] →
      (run steps w).act.siblingImages = w.act.siblingImages ∧
      scanCount (run steps w).trace = scanCount w.trace) := by
  refine ⟨onEnter_scanCount env w, ?_, run_noscan steps w⟩
  intro path cb hact hpath
  rw [onEnter_scanCount, hact, if_pos ⟨rfl, hpath⟩]

theorem scan_while_catalog_empty_witness :
    sampleWorld.act = Activity.new "/pics/a.bmp".toList true ∧
    scanCount (onEnter sampleEnv sampleWorld).trace = scanCount sampleWorld.trace + 1 ∧
    (onEnter sampleEnv sampleWorld).act.siblingImages ≠ [] ∧
    scanCount (run [.tick sampleEnv Input.downOnly, .tick sampleEnv Input.leftOnly,
        .tick sampleEnv Input.backOnly, .render sampleEnv, .tick sampleEnv Input.confirmOnly]
      (onEnter sampleEnv sampleWorld)).trace = scanCount (onEnter sampleEnv sampleWorld).trace :=
  ⟨rfl,
    (scan_while_catalog_empty sampleEnv sampleWorld []).2.1 _ _ rfl (by decide),
    by decide,
    ((scan_while_catalog_empty sampleEnv (onEnter sampleEnv sampleWorld)
      [.tick sampleEnv Input.downOnly, .tick sampleEnv Input.leftOnly,
        .tick sampleEnv Input.backOnly, .render sampleEnv,
        .tick sampleEnv Input.confirmOnly]).2.2 (by decide)).2⟩

/-! ## Index and path stay consistent (C19) -/

theorem findLastOf_eq_none (s : Str) (c : Char) (h : c ∉ s) : findLastOf s c = none := by
  induction s with
  | nil => rfl
  | cons x xs ih =>
    simp only [List.mem_cons, not_or] at h
    simp only [findLastOf, ih h.2]
    rw [if_neg (fun hx => h.1 hx.symm)]

theorem findLastOf_append (a name : Str) (c : Char) (h : c ∉ name) :
    findLastOf (a ++ c :: name) c = some a.length := by
  induction a with
  | nil => simp [findLastOf, findLastOf_eq_none name c h]
  | cons x xs ih => simp [findLastOf, ih]

theorem dirPathOf_append (a name : Str) (h : '/' ∉ name) :
    dirPathOf (a ++ '/' :: name) = (if a = [] then ['/'] else a) ∧
    fileNameOf (a ++ '/' :: name) = name := by
  unfold dirPathOf fileNameOf
  rw [findLastOf_append a name '/' h]
  simp only [substr, substrFrom, List.drop_zero]
  constructor
  · cases a with
    | nil => simp
    | cons x xs => simp
  · simp

theorem normalDir_of_path (dir name : Str) (hname : '/' ∉ name)
    (hdir : dir.getLast? ≠ some '/') : NormalDir (dirPathOf (dir ++ '/' :: name)) := by
  rw [(dirPathOf_append dir name hname).1]
  by_cases h : dir = []
  · rw [if_pos h]; left; rfl
  · rw [if_neg h]; right; exact ⟨h, hdir⟩

theorem siblingPath_spec (d : Str) (a : Activity) (hd : dirPathOf a.filePath = d)
    (hn : NormalDir d) :
    siblingPath a = (if d = ['/'] then [] else d) ++
      '/' :: vectorAt a.siblingImages a.currentImageIndex := by
  unfold siblingPath
  simp only [hd]
  rcases hn with h | ⟨h1, h2⟩
  · subst h
    simp
  · have hne : d ≠ ['/'] := by
      intro h
      rw [h] at h2
      exact h2 rfl
    rw [if_neg hne]
    have : (d.getLast? != some '/') = true := by
      simp only [bne_iff_ne, ne_eq]
      exact h2
    rw [if_pos this]
    simp

theorem vectorAt_of_range (xs : List Str) (i : Int) (h0 : 0 ≤ i)
    (h1 : i < (xs.length : Int)) :
    xs[i.toNat]? = some (vectorAt xs i) ∧ vectorAt xs i ∈ xs := by
  have hlt : i.toNat < xs.length := by omega
  unfold vectorAt
  rw [if_pos h0, List.getD_eq_getElem?_getD, List.getElem?_eq_getElem hlt]
  simp only [Option.getD_some]
  exact ⟨trivial, List.getElem_mem hlt⟩

theorem indexConsistent_congr (d : Str) (a b : Activity) (h : IndexConsistent d a)
    (hp : b.filePath = a.filePath) (hc : b.siblingImages = a.siblingImages)
    (hi : b.currentImageIndex = a.currentImageIndex) : IndexConsistent d b := by
  unfold IndexConsistent at h ⊢
  rw [hp, hc, hi]
  exact h

/-- The step of Up and Down: the index moves to a position `j` of the catalog and the path
becomes the directory followed by the name at `j`. -/
theorem indexConsistent_move (d : Str) (a b : Activity) (j : Int) (h : IndexConsistent d a)
    (hn : NormalDir d) (h0 : 0 ≤ j) (h1 : j < (a.siblingImages.length : Int))
    (hc : b.siblingImages = a.siblingImages) (hi : b.currentImageIndex = j)
    (hp : b.filePath = siblingPath { a with currentImageIndex := j }) :
    IndexConsistent d b := by
  obtain ⟨hd, hfree, _⟩ := h
  have hsp := siblingPath_spec d { a with currentImageIndex := j } hd hn
  simp only at hsp
  obtain ⟨hget, hmem⟩ := vectorAt_of_range a.siblingImages j h0 h1
  obtain ⟨k1, k2⟩ := dirPathOf_append (if d = ['/'] then [] else d)
    (vectorAt a.siblingImages j) (hfree _ hmem)
  have hdir : dirPathOf b.filePath = d := by
    rw [hp, hsp, k1]
    rcases hn with h | ⟨h2, h3⟩
    · simp [h]
    · have hne : d ≠ ['/'] := by
        intro h
        rw [h] at h3
        exact h3 rfl
      simp [hne, h2]
  refine ⟨hdir, by rw [hc]; exact hfree, Or.inr ?_⟩
  rw [hi, hc, hp, hsp, k2]
  exact ⟨h0, h1, hget⟩

theorem scanEntries_slashFree (env : Env) (l : List DirEntry)
    (h : ∀ f ∈ l, '/' ∉ f.name) : ∀ n ∈ scanEntries env l, '/' ∉ n := by
  intro n hn
  rw [scanEntries_eq_filter] at hn
  obtain ⟨f, hf, rfl⟩ := List.mem_map.1 hn
  exact h f (List.mem_filter.1 hf).1

theorem loadSiblingImages_consistent (d : Str) (env : Env) (v : World) (hsf : SlashFree env)
    (hd : dirPathOf v.act.filePath = d) : IndexConsistent d (loadSiblingImages env v).act := by
  have hpath := (loadSiblingImages_frame env v).1
  rcases loadSiblingImages_cases env v with ⟨hcat, hidx⟩ | ⟨dir, hne, hopen, hdir⟩
  · refine ⟨by rw [hpath]; exact hd, by rw [hcat]; simp, Or.inl hidx⟩
  · obtain ⟨hcat, hidx⟩ := loadSiblingImages_of_open env v dir hne hopen hdir
    refine ⟨by rw [hpath]; exact hd, ?_, ?_⟩
    · rw [hcat]
      intro n hn
      exact scanEntries_slashFree env dir.entries (hsf _ dir hopen) n
        ((stdSort_perm caseInsensitiveLess _).subset hn)
    · rw [hcat, hidx, hpath]
      by_cases hmem : fileNameOf v.act.filePath
          ∈ stdSort caseInsensitiveLess (scanEntries env dir.entries)
      · obtain ⟨k, hk, hget, _⟩ := findCurrent_mem _ _ 0 hmem
        right
        rw [hk]
        have hklt : k < (stdSort caseInsensitiveLess (scanEntries env dir.entries)).length := by
          by_contra hcon
          rw [List.getElem?_eq_none (not_lt.1 hcon)] at hget
          cases hget
        simp only [Nat.zero_add, Int.toNat_ofNat]
        exact ⟨Int.natCast_nonneg _, by exact_mod_cast hklt, hget⟩
      · left
        exact findCurrent_not_mem _ _ 0 hmem

theorem onEnter_consistent (d : Str) (env : Env) (v : World) (hsf : SlashFree env)
    (h : IndexConsistent d v.act) : IndexConsistent d (onEnter env v).act := by
  rw [onEnter_eq]
  simp only
  split
  · exact loadSiblingImages_consistent d env v hsf h.1
  · exact h

/-- Every tick keeps index and path consistent. -/
theorem loop_consistent (d : Str) (env : Env) (inp : Input) (w : World) (hsf : SlashFree env)
    (hn : NormalDir d) (h : IndexConsistent d w.act) :
    IndexConsistent d (loop env inp w).act := by
  have hcopy := (copyToSleepBmp_frame env
    ((w.emit .activityLoop).emit (.drawPopup (.tr .STR_LOADING_POPUP)) |>.emit
      (.displayBuffer .FAST_REFRESH))).1
  simp only [emit_act] at hcopy
  have hstay : ∀ v : World, v.act.filePath = w.act.filePath →
      v.act.siblingImages = w.act.siblingImages →
      v.act.currentImageIndex = w.act.currentImageIndex →
      IndexConsistent d (onEnter env v).act := fun v h1 h2 h3 =>
    onEnter_consistent d env v hsf (indexConsistent_congr d w.act v.act h h1 h2 h3)
  have hrange : w.act.currentImageIndex ≠ -1 → 0 ≤ w.act.currentImageIndex ∧
      w.act.currentImageIndex < (w.act.siblingImages.length : Int) := by
    intro hne
    rcases h.2.2 with h1 | ⟨h1, h2, _⟩
    · exact absurd h1 hne
    · exact ⟨h1, h2⟩
  unfold loop
  simp only [emit_act]
  split
  · split
    · exact hstay _ rfl rfl rfl
    · split <;> exact h
  · split
    · split
      · split
        · split <;> exact h
        · exact hstay _ rfl rfl rfl
      · apply hstay <;> split <;> simp only [emit_act, hcopy]
    · split
      · split
        · exact hstay _ rfl rfl rfl
        · exact h
      · split
        · split
          · rename_i hc
            simp only [Bool.and_eq_true, Bool.not_eq_true', decide_eq_true_eq] at hc
            have hr := hrange (by omega)
            apply onEnter_consistent d env _ hsf
            exact indexConsistent_move d w.act _ (w.act.currentImageIndex - 1) h hn
              (by omega) (by omega) rfl rfl rfl
          · exact h
        · split
          · split
            · rename_i hc
              simp only [Bool.and_eq_true, Bool.not_eq_true', decide_eq_true_eq] at hc
              have hr := hrange hc.1.2
              apply onEnter_consistent d env _ hsf
              exact indexConsistent_move d w.act _ (w.act.currentImageIndex + 1) h hn
                (by omega) (by omega) rfl rfl rfl
            · exact h
          · exact h

theorem run_consistent (d : Str) (hn : NormalDir d) : ∀ (steps : List Step) (w : World),
    (∀ s ∈ steps, SlashFree s.env) → IndexConsistent d w.act →
    IndexConsistent d (run steps w).act
  | [], _, _, h => h
  | .render env :: rest, w, hs, h =>
    run_consistent d hn rest (onEnter env w)
      (fun s hmem => hs s (List.mem_cons_of_mem _ hmem))
      (onEnter_consistent d env w (hs (.render env) (List.mem_cons_self _ _)) h)
  | .tick env inp :: rest, w, hs, h =>
    run_consistent d hn rest (loop env inp w)
      (fun s hmem => hs s (List.mem_cons_of_mem _ hmem))
      (loop_consistent d env inp w (hs (.tick env inp) (List.mem_cons_self _ _)) hn h)

theorem sampleEnv_slashFree : SlashFree sampleEnv := by
  intro p dir hopen f hf
  simp only [sampleEnv] at hopen
  split at hopen
  · cases hopen
    revert f
    decide
  · cases hopen

/-- C19. The screen is created for a path `dir/name` whose name holds no slash and whose
directory does not end in a slash, and no listing of the storage holds a name with a slash.
Then after the first render pass and any sequence of ticks and render passes after it, an
index other than `-1` is a position of the catalog, the catalog holds at that position the
file name of the current path, and the directory component of the current path is that of the
initial path. -/
theorem index_path_consistent (dir name : Str) (cb : Bool) (w0 : World) (env0 : Env)
    (steps : List Step)
    (hname : '/' ∉ name) (hdir : dir.getLast? ≠ some '/')
    (hw0 : w0.act = Activity.new (dir ++ '/' :: name) cb)
    (h0 : SlashFree env0) (hsteps : ∀ s ∈ steps, SlashFree s.env) :
    dirPathOf (run steps (onEnter env0 w0)).act.filePath = dirPathOf (dir ++ '/' :: name) ∧
    ((run steps (onEnter env0 w0)).act.currentImageIndex ≠ -1 →
      0 ≤ (run steps (onEnter env0 w0)).act.currentImageIndex ∧
      (run steps (onEnter env0 w0)).act.currentImageIndex
        < ((run steps (onEnter env0 w0)).act.siblingImages.length : Int) ∧
      (run steps (onEnter env0 w0)).act.siblingImages[
          (run steps (onEnter env0 w0)).act.currentImageIndex.toNat]?
        = some (fileNameOf (run steps (onEnter env0 w0)).act.filePath) ∧
      vectorAt (run steps (onEnter env0 w0)).act.siblingImages
          (run steps (onEnter env0 w0)).act.currentImageIndex
        = fileNameOf (run steps (onEnter env0 w0)).act.filePath) := by
  have hn := normalDir_of_path dir name hname hdir
  have hinit : IndexConsistent (dirPathOf (dir ++ '/' :: name)) w0.act := by
    rw [hw0]
    exact ⟨rfl, by simp [Activity.new], Or.inl rfl⟩
  have hfin := run_consistent _ hn steps (onEnter env0 w0) hsteps
    (onEnter_consistent _ env0 w0 h0 hinit)
  obtain ⟨k1, _, k3⟩ := hfin
  refine ⟨k1, ?_⟩
  intro hne
  rcases k3 with h | ⟨h1, h2, h3⟩
  · exact absurd h hne
  · refine ⟨h1, h2, h3, ?_⟩
    have := (vectorAt_of_range _ _ h1 h2).1
    rw [h3] at this
    exact (Option.some.inj this).symm

theorem index_path_consistent_witness :
    '/' ∉ "a.bmp".toList ∧ "/pics".toList.getLast? ≠ some '/' ∧
    sampleWorld.act = Activity.new ("/pics".toList ++ '/' :: "a.bmp".toList) true ∧
    (run [.tick sampleEnv Input.downOnly] (onEnter sampleEnv sampleWorld)).act.filePath
      = "/pics/b.bmp".toList ∧
    (run [.tick sampleEnv Input.downOnly] (onEnter sampleEnv sampleWorld)).act.currentImageIndex
      = 2 ∧
    dirPathOf (run [.tick sampleEnv Input.downOnly] (onEnter sampleEnv sampleWorld)).act.filePath
      = dirPathOf ("/pics".toList ++ '/' :: "a.bmp".toList) ∧
    vectorAt (run [.tick sampleEnv Input.downOnly] (onEnter sampleEnv sampleWorld)).act.siblingImages
        (run [.tick sampleEnv Input.downOnly] (onEnter sampleEnv sampleWorld)).act.currentImageIndex
      = fileNameOf
          (run [.tick sampleEnv Input.downOnly] (onEnter sampleEnv sampleWorld)).act.filePath :=
  ⟨by decide, by decide, rfl, by decide, by decide,
    (index_path_consistent "/pics".toList "a.bmp".toList true sampleWorld sampleEnv
      [.tick sampleEnv Input.downOnly] (by decide) (by decide) rfl sampleEnv_slashFree
      (fun s hs => by
        rw [List.mem_singleton.1 hs]
        exact sampleEnv_slashFree)).1,
    ((index_path_consistent "/pics".toList "a.bmp".toList true sampleWorld sampleEnv
      [.tick sampleEnv Input.downOnly] (by decide) (by decide) rfl sampleEnv_slashFree
      (fun s hs => by
        rw [List.mem_singleton.1 hs]
        exact sampleEnv_slashFree)).2 (by decide)).2.2.2⟩

/-! ## Left, then Back (C8) -/

/-- C8, as stated, fails: the screen is entered while the directory cannot be opened, so the
first render leaves the catalog empty and the index at `-1`; Left is released while the
directory is still closed and Back once it opens, and the render pass of the Back tick
rescans: the tick ends in Viewing with three names in the catalog and the index 1. -/
theorem left_then_back_rescan_counterexample :
    (onEnter closedEnv sampleWorld).act.isConfirmingDelete = false ∧
    (onEnter closedEnv sampleWorld).act.siblingImages = [] ∧
    (onEnter closedEnv sampleWorld).act.currentImageIndex = -1 ∧
    (loop sampleEnv Input.backOnly
        (loop closedEnv Input.leftOnly (onEnter closedEnv sampleWorld))).act.isConfirmingDelete
      = false ∧
    (loop sampleEnv Input.backOnly
        (loop closedEnv Input.leftOnly (onEnter closedEnv sampleWorld))).act.siblingImages
      = ["A.bmp".toList, "a.bmp".toList, "b.bmp".toList] ∧
    (loop sampleEnv Input.backOnly
        (loop closedEnv Input.leftOnly (onEnter closedEnv sampleWorld))).act.currentImageIndex
      = 1 ∧
    (loop sampleEnv Input.backOnly
        (loop closedEnv Input.leftOnly (onEnter closedEnv sampleWorld))).act.siblingImages
      ≠ (onEnter closedEnv sampleWorld).act.siblingImages ∧
    (loop sampleEnv Input.backOnly
        (loop closedEnv Input.leftOnly (onEnter closedEnv sampleWorld))).act.currentImageIndex
      ≠ (onEnter closedEnv sampleWorld).act.currentImageIndex := by
  decide

/-- C8, amended. From a state in Viewing, a tick with only Left released followed by a tick
with only Back released passes through ConfirmingDelete and ends in Viewing with the file path
and the setting of the start, and none of the calls made in the two ticks is a remove, an open
for writing, a write, a save of the settings or the exit callback. When the catalog of the
start is not empty, or the path is empty, catalog and index, and the whole activity state, are
those of the start. When the catalog is empty and the path is not, the render pass of the
Left tick rescans: catalog and index after it are what `loadSiblingImages` gives, the Back
tick keeps them if that catalog is not empty and rescans once more if it is. When the
directory answers the same in both ticks, catalog and index after the Back tick are those
after the Left tick, and when the start state is itself the result of a render pass on that
directory, the whole activity state is the start state again. -/
theorem left_then_back (env1 env2 : Env) (w : World)
    (hview : w.act.isConfirmingDelete = false) :
    (loop env1 Input.leftOnly w).act.isConfirmingDelete = true ∧
    (loop env2 Input.backOnly (loop env1 Input.leftOnly w)).act.isConfirmingDelete = false ∧
    (loop env1 Input.leftOnly w).act.filePath = w.act.filePath ∧
    (loop env2 Input.backOnly (loop env1 Input.leftOnly w)).act.filePath = w.act.filePath ∧
    (loop env2 Input.backOnly (loop env1 Input.leftOnly w)).sleepScreen = w.sleepScreen ∧
    (w.act.siblingImages ≠ [] ∨ w.act.filePath = [] →
      (loop env2 Input.backOnly (loop env1 Input.leftOnly w)).act.siblingImages
        = w.act.siblingImages ∧
      (loop env2 Input.backOnly (loop env1 Input.leftOnly w)).act.currentImageIndex
        = w.act.currentImageIndex ∧
      (loop env2 Input.backOnly (loop env1 Input.leftOnly w)).act = w.act) ∧
    (w.act.siblingImages = [] ∧ w.act.filePath ≠ [] →
      (loop env1 Input.leftOnly w).act.siblingImages
        = (loadSiblingImages env1 w).act.siblingImages ∧
      (loop env1 Input.leftOnly w).act.currentImageIndex
        = (loadSiblingImages env1 w).act.currentImageIndex ∧
      ((loadSiblingImages env1 w).act.siblingImages ≠ [] →
        (loop env2 Input.backOnly (loop env1 Input.leftOnly w)).act.siblingImages
          = (loadSiblingImages env1 w).act.siblingImages ∧
        (loop env2 Input.backOnly (loop env1 Input.leftOnly w)).act.currentImageIndex
          = (loadSiblingImages env1 w).act.currentImageIndex) ∧
      ((loadSiblingImages env1 w).act.siblingImages = [] →
        (loop env2 Input.backOnly (loop env1 Input.leftOnly w)).act.siblingImages
          = (loadSiblingImages env2 w).act.siblingImages ∧
        (loop env2 Input.backOnly (loop env1 Input.leftOnly w)).act.currentImageIndex
          = (loadSiblingImages env2 w).act.currentImageIndex)) ∧
    (env2.storageOpen = env1.storageOpen →
      env2.checkFileExtension = env1.checkFileExtension →
      (loop env2 Input.backOnly (loop env1 Input.leftOnly w)).act.siblingImages
        = (loop env1 Input.leftOnly w).act.siblingImages ∧
      (loop env2 Input.backOnly (loop env1 Input.leftOnly w)).act.currentImageIndex
        = (loop env1 Input.leftOnly w).act.currentImageIndex ∧
      ∀ env0 w0, env1.storageOpen = env0.storageOpen →
        env1.checkFileExtension = env0.checkFileExtension → w = onEnter env0 w0 →
        (loop env2 Input.backOnly (loop env1 Input.leftOnly w)).act = w.act) ∧
    ∃ t, (loop env2 Input.backOnly (loop env1 Input.leftOnly w)).trace = w.trace ++ t ∧
      ∀ e ∈ t, e.isMutation = false ∧ e ≠ Effect.onGoBack := by
  have hl : loop env1 Input.leftOnly w = onEnter env1 { w.emit Effect.activityLoop with
      act := { w.act with isConfirmingDelete := true } } := by
    rw [loop_leftOnly, if_pos (by simp [hview])]
  have hf1 := onEnter_frame env1 { w.emit Effect.activityLoop with
      act := { w.act with isConfirmingDelete := true } }
  have hconf1 : (loop env1 Input.leftOnly w).act.isConfirmingDelete = true := by
    rw [hl, hf1.2.1]
  have hb : loop env2 Input.backOnly (loop env1 Input.leftOnly w)
      = onEnter env2 { (loop env1 Input.leftOnly w).emit Effect.activityLoop with
          act := { (loop env1 Input.leftOnly w).act with isConfirmingDelete := false } } := by
    rw [loop_backOnly, if_pos hconf1]
  have hf2 := onEnter_frame env2 { (loop env1 Input.leftOnly w).emit Effect.activityLoop with
      act := { (loop env1 Input.leftOnly w).act with isConfirmingDelete := false } }
  have hn1 := onEnter_nav env1 { w.emit Effect.activityLoop with
      act := { w.act with isConfirmingDelete := true } }
  have hn2 := onEnter_nav env2 { (loop env1 Input.leftOnly w).emit Effect.activityLoop with
      act := { (loop env1 Input.leftOnly w).act with isConfirmingDelete := false } }
  simp only [emit_act] at hn1 hn2
  obtain ⟨t1, ht1, hr1⟩ := onEnter_trace env1 { w.emit Effect.activityLoop with
      act := { w.act with isConfirmingDelete := true } }
  obtain ⟨t2, ht2, hr2⟩ := onEnter_trace env2
    { (loop env1 Input.leftOnly w).emit Effect.activityLoop with
      act := { (loop env1 Input.leftOnly w).act with isConfirmingDelete := false } }
  have hpath1 : (loop env1 Input.leftOnly w).act.filePath = w.act.filePath := by
    rw [hl, hf1.1]
  have hpath2 : (loop env2 Input.backOnly (loop env1 Input.leftOnly w)).act.filePath
      = w.act.filePath := by rw [hb, hf2.1]; exact hpath1
  have hconf2 : (loop env2 Input.backOnly (loop env1 Input.leftOnly w)).act.isConfirmingDelete
      = false := by rw [hb, hf2.2.1]
  have hgb1 : (loop env1 Input.leftOnly w).act.onGoBack = w.act.onGoBack := by
    rw [hl, hf1.2.2.1]
  have hgb2 : (loop env2 Input.backOnly (loop env1 Input.leftOnly w)).act.onGoBack
      = w.act.onGoBack := by rw [hb, hf2.2.2.1]; exact hgb1
  refine ⟨hconf1, hconf2, hpath1, hpath2, ?_, ?_, ?_, ?_, ?_⟩
  · rw [hb, hf2.2.2.2]; simp only [emit_sleepScreen]; rw [hl, hf1.2.2.2]; rfl
  · intro hcase
    have e1 : (loop env1 Input.leftOnly w).act = { w.act with isConfirmingDelete := true } := by
      rw [hl]; exact hn1.1 hcase
    have e2 : (loop env2 Input.backOnly (loop env1 Input.leftOnly w)).act
        = { (loop env1 Input.leftOnly w).act with isConfirmingDelete := false } := by
      rw [hb]
      have hcond : (loop env1 Input.leftOnly w).act.siblingImages ≠ [] ∨
          (loop env1 Input.leftOnly w).act.filePath = [] := by
        rw [e1]; exact hcase
      exact hn2.1 hcond
    have e3 : (loop env2 Input.backOnly (loop env1 Input.leftOnly w)).act = w.act := by
      rw [e2, e1]
      exact act_ext _ _ rfl rfl hview.symm rfl rfl
    rw [e3]
    exact ⟨rfl, rfl, rfl⟩
  · rintro ⟨hc, hp⟩
    have e1 : (loop env1 Input.leftOnly w).act = (loadSiblingImages env1
        { w.emit Effect.activityLoop with
          act := { w.act with isConfirmingDelete := true } }).act := by
      rw [hl]; exact hn1.2 ⟨hc, hp⟩
    have k1 := loadSiblingImages_nav_congr env1 env1 w { w.emit Effect.activityLoop with
      act := { w.act with isConfirmingDelete := true } } rfl rfl rfl
    rw [← e1] at k1
    refine ⟨k1.1, k1.2, ?_, ?_⟩
    · intro hne
      have e2 : (loop env2 Input.backOnly (loop env1 Input.leftOnly w)).act
          = { (loop env1 Input.leftOnly w).act with isConfirmingDelete := false } := by
        rw [hb]
        have hcond : (loop env1 Input.leftOnly w).act.siblingImages ≠ [] ∨
            (loop env1 Input.leftOnly w).act.filePath = [] := by
          left; rw [k1.1]; exact hne
        exact hn2.1 hcond
      rw [e2]
      exact ⟨k1.1, k1.2⟩
    · intro hemp
      have e2 : (loop env2 Input.backOnly (loop env1 Input.leftOnly w)).act
          = (loadSiblingImages env2
              { (loop env1 Input.leftOnly w).emit Effect.activityLoop with
                act := { (loop env1 Input.leftOnly w).act with
                  isConfirmingDelete := false } }).act := by
        rw [hb]
        have hcond : (loop env1 Input.leftOnly w).act.siblingImages = [] ∧
            (loop env1 Input.leftOnly w).act.filePath ≠ [] :=
          ⟨by rw [k1.1]; exact hemp, by rw [hpath1]; exact hp⟩
        exact hn2.2 hcond
      rw [e2]
      exact loadSiblingImages_nav_congr env2 env2 w _ rfl rfl hpath1
  · intro hso hce
    have hnav := onEnter_again env1 env2 { w.emit Effect.activityLoop with
        act := { w.act with isConfirmingDelete := true } }
      { (loop env1 Input.leftOnly w).emit Effect.activityLoop with
            act := { (loop env1 Input.leftOnly w).act with isConfirmingDelete := false } }
      hso hce (by rw [hl]) (by rw [hl]) (by rw [hl])
    have hcat2 : (loop env2 Input.backOnly (loop env1 Input.leftOnly w)).act.siblingImages
        = (loop env1 Input.leftOnly w).act.siblingImages := by rw [hb, hnav.1, ← hl]
    have hidx2 : (loop env2 Input.backOnly (loop env1 Input.leftOnly w)).act.currentImageIndex
        = (loop env1 Input.leftOnly w).act.currentImageIndex := by rw [hb, hnav.2, ← hl]
    refine ⟨hcat2, hidx2, ?_⟩
    intro env0 w0 hso0 hce0 hw
    have hnav0 := onEnter_again env0 env1 w0 { w.emit Effect.activityLoop with
        act := { w.act with isConfirmingDelete := true } } hso0 hce0
      (by rw [hw]) (by rw [hw]) (by rw [hw])
    rw [← hl, ← hw] at hnav0
    exact act_ext _ _ hpath2 hgb2 (hconf2.trans hview.symm) (hcat2.trans hnav0.1)
      (hidx2.trans hnav0.2)
  · refine ⟨Effect.activityLoop :: Effect.activityOnEnter :: t1
        ++ Effect.activityLoop :: Effect.activityOnEnter :: t2, ?_, ?_⟩
    · rw [hb, ht2]
      simp only [emit_trace]
      rw [hl, ht1]
      simp
    · intro e he
      simp only [List.cons_append, List.mem_cons, List.mem_append] at he
      rcases he with he | he | he | he | he | he
      · subst he; exact ⟨rfl, by simp⟩
      · subst he; exact ⟨rfl, by simp⟩
      · exact ⟨(isRenderCall_harmless e (hr1 e he)).1, (isRenderCall_harmless e (hr1 e he)).2.1⟩
      · subst he; exact ⟨rfl, by simp⟩
      · subst he; exact ⟨rfl, by simp⟩
      · exact ⟨(isRenderCall_harmless e (hr2 e he)).1, (isRenderCall_harmless e (hr2 e he)).2.1⟩

theorem left_then_back_witness :
    (onEnter sampleEnv sampleWorld).act.isConfirmingDelete = false ∧
    (onEnter sampleEnv sampleWorld).act.siblingImages ≠ [] ∧
    (loop closedEnv Input.backOnly
        (loop sampleEnv Input.leftOnly (onEnter sampleEnv sampleWorld))).act
      = (onEnter sampleEnv sampleWorld).act ∧
    (loop sampleEnv Input.backOnly
        (loop sampleEnv Input.leftOnly (onEnter sampleEnv sampleWorld))).act.siblingImages
      = (loop sampleEnv Input.leftOnly (onEnter sampleEnv sampleWorld)).act.siblingImages :=
  ⟨by decide, by decide,
    ((left_then_back sampleEnv closedEnv (onEnter sampleEnv sampleWorld)
      (by decide)).2.2.2.2.2.1 (Or.inl (by decide))).2.2,
    ((left_then_back sampleEnv sampleEnv (onEnter sampleEnv sampleWorld)
      (by decide)).2.2.2.2.2.2.2.1 rfl rfl).1⟩

end BmpViewer
